import Mathlib

/-!
# Verification model of the SCTP codec (LEA-Blockchain/sctp)

Shallow embedding of the SCTP (Simple Compact Transaction Protocol) encoder
(`encoder.c`) and decoder (`decoder.c`, both the legacy global/callback
variant and the instance-based variant exposing `sctp_decoder_next` and the
`sctp_decoder_run` built on it).

Modelling conventions:
* The library is built with `clang --target=wasm32` (see the makefile), so
  `size_t` is 32 bits.  Every `size_t` addition that can exceed 32 bits in C
  is modelled with an explicit `% 2^32`; `uint64_t` arithmetic is modelled
  with `% 2^64`.
* Byte buffers are `List Nat` (each element a byte value).  Pointers into a
  buffer are modelled as offsets.
* `lea_abort` / `LEA_ABORT` sites terminate the whole pass; they are modelled
  as `Except.error` with the error kind from the spec's taxonomy that matches
  the abort site (truncation, LEB128 overflow, unknown type, encoder capacity,
  invalid argument).
* `float`/`double` values are modelled by their IEEE-754 bit patterns (the C
  code only ever copies their object representation byte for byte).
* The unbounded C loops (LEB128 decode, `while` in `sctp_decoder_run`) are
  modelled by well-founded recursion where a measure exists and by explicit
  fuel where the C loop can genuinely diverge.
-/

/-- `size_t` modulus on the wasm32 build target. -/
def SIZE_MOD : Nat := 2 ^ 32

/-- `uint64_t` modulus. -/
def U64_MOD : Nat := 2 ^ 64

/-- Error taxonomy of the spec (section 7); each `lea_abort` site in the C
code is mapped to the kind matching its message. -/
inductive SctpErr where
  | Truncated
  | Overflow
  | UnknownType
  | CapacityExceeded
  | InvalidArgument
deriving DecidableEq, Repr

/-- The decoded-value union `sctp_value_t`.  One constructor per union
member; `zero` is the `memset 0` initial state. -/
inductive sctp_value where
  | zero
  | as_int8 (v : Int)
  | as_uint8 (v : Nat)
  | as_int16 (v : Int)
  | as_uint16 (v : Nat)
  | as_int32 (v : Int)
  | as_uint32 (v : Nat)
  | as_int64 (v : Int)
  | as_uint64 (v : Nat)
  | as_uleb128 (v : Nat)
  | as_sleb128 (v : Int)
  | as_float32 (bits : Nat)
  | as_float64 (bits : Nat)
  | as_short (v : Nat)
  | as_ptr (off : Nat)
deriving DecidableEq, Repr

/-- Decoder state `struct sctp_decoder` (instance-based variant; the legacy
variant uses only the first three fields). -/
structure sctp_decoder where
  data : List Nat
  size : Nat
  position : Nat
  last_type : Nat
  last_value : sctp_value
  last_size : Nat
deriving DecidableEq, Repr

/-- `sctp_decoder_from_buffer`: borrow an existing buffer. -/
def sctp_decoder_from_buffer (buffer : List Nat) : sctp_decoder :=
  { data := buffer, size := buffer.length, position := 0,
    last_type := 15, last_value := sctp_value.zero, last_size := 0 }

/-- `_sctp_decoder_read_byte`: one byte, or `none` at end of stream. -/
def _sctp_decoder_read_byte (dec : sctp_decoder) : Option (Nat × sctp_decoder) :=
  if dec.position ≥ dec.size then none
  else some (dec.data.getD dec.position 0, { dec with position := dec.position + 1 })

/-- `_sctp_decoder_read_data`: bounds-checked raw read returning the offset of
the data.  The check `dec->position + size > dec->size` is 32-bit `size_t`
arithmetic, hence the `% SIZE_MOD`. -/
def _sctp_decoder_read_data (dec : sctp_decoder) (sz : Nat) :
    Except SctpErr (Nat × sctp_decoder) :=
  if (dec.position + sz) % SIZE_MOD > dec.size then Except.error SctpErr.Truncated
  else Except.ok (dec.position, { dec with position := (dec.position + sz) % SIZE_MOD })

/-- Loop body of `_sctp_decoder_read_uleb128`.  `result` is the `uint64_t`
accumulator, `shift` the current shift amount. -/
def _sctp_decoder_read_uleb128_go (dec : sctp_decoder) (result shift : Nat) :
    Except SctpErr (Nat × sctp_decoder) :=
  match _sctp_decoder_read_byte dec with
  | none => Except.error SctpErr.Truncated
  | some (byte, dec') =>
    let result' := result ||| (((byte &&& 0x7F) <<< shift) % U64_MOD)
    if byte &&& 0x80 = 0 then Except.ok (result', dec')
    else if _h : 64 ≤ shift + 7 then Except.error SctpErr.Overflow
    else _sctp_decoder_read_uleb128_go dec' result' (shift + 7)
termination_by 64 - shift
decreasing_by omega

/-- `_sctp_decoder_read_uleb128`. -/
def _sctp_decoder_read_uleb128 (dec : sctp_decoder) : Except SctpErr (Nat × sctp_decoder) :=
  _sctp_decoder_read_uleb128_go dec 0 0

/-- Two's-complement reinterpretation of a `bits`-wide pattern. -/
def toSigned (bits n : Nat) : Int :=
  if n < 2 ^ (bits - 1) then (n : Int) else (n : Int) - 2 ^ bits

/-- Loop body of `_sctp_decoder_read_sleb128`.  The `int64_t` accumulator is
modelled by its 64-bit pattern `result`; the C sign-extension
`result |= -((int64_t)1 << shift)` ORs in the pattern `2^64 - 2^shift`. -/
def _sctp_decoder_read_sleb128_go (dec : sctp_decoder) (result shift : Nat) :
    Except SctpErr (Int × sctp_decoder) :=
  match _sctp_decoder_read_byte dec with
  | none => Except.error SctpErr.Truncated
  | some (byte, dec') =>
    let result' := result ||| (((byte &&& 0x7F) <<< shift) % U64_MOD)
    let shift' := shift + 7
    if byte &&& 0x80 = 0 then
      let final := if shift' < 64 ∧ byte &&& 0x40 ≠ 0
                   then result' ||| (U64_MOD - (1 <<< shift')) else result'
      Except.ok (toSigned 64 final, dec')
    else if _h : 64 ≤ shift' then Except.error SctpErr.Overflow
    else _sctp_decoder_read_sleb128_go dec' result' shift'
termination_by 64 - shift
decreasing_by omega

/-- `_sctp_decoder_read_sleb128`. -/
def _sctp_decoder_read_sleb128 (dec : sctp_decoder) : Except SctpErr (Int × sctp_decoder) :=
  _sctp_decoder_read_sleb128_go dec 0 0

/-- Little-endian value of `width` bytes of `data` starting at `off`
(the `*(uintN_t*)ptr` reinterpretation on the little-endian wasm target). -/
def leVal (data : List Nat) (off : Nat) : Nat → Nat
  | 0 => 0
  | w + 1 => data.getD off 0 + 256 * leVal data (off + 1) w

/-- Payload width of the fixed-width scalar types (type ids 0-11). -/
def fixedWidth (ty : Nat) : Nat :=
  match ty with
  | 0 => 1 | 1 => 1 | 2 => 2 | 3 => 2 | 4 => 4 | 5 => 4
  | 6 => 8 | 7 => 8 | 10 => 4 | 11 => 8 | _ => 0

/-- The union member the instance-based decoder stores a fixed-width scalar
into, given the type id and the little-endian payload pattern. -/
def fixedValue (ty pat : Nat) : sctp_value :=
  match ty with
  | 0 => sctp_value.as_int8 (toSigned 8 pat)
  | 1 => sctp_value.as_uint8 pat
  | 2 => sctp_value.as_int16 (toSigned 16 pat)
  | 3 => sctp_value.as_uint16 pat
  | 4 => sctp_value.as_int32 (toSigned 32 pat)
  | 5 => sctp_value.as_uint32 pat
  | 6 => sctp_value.as_int64 (toSigned 64 pat)
  | 7 => sctp_value.as_uint64 pat
  | 10 => sctp_value.as_float32 pat
  | 11 => sctp_value.as_float64 pat
  | _ => sctp_value.zero

/-- `sctp_decoder_next` (instance-based decoder): decode one field, updating
`last_type`, `last_value`, `last_size`; returns the type id. -/
def sctp_decoder_next (dec : sctp_decoder) : Except SctpErr (Nat × sctp_decoder) :=
  if dec.position ≥ dec.size then
    Except.ok (15, { dec with last_type := 15, last_size := 0 })
  else
    match _sctp_decoder_read_byte dec with
    | none => Except.ok (15, { dec with last_type := 15, last_size := 0 })
    | some (header, dec0) =>
      let ty := header &&& 0x0F
      let meta := (header &&& 0xF0) >>> 4
      let dec1 := { dec0 with last_type := ty }
      match ty with
      | 8 =>
        match _sctp_decoder_read_uleb128 dec1 with
        | Except.error e => Except.error e
        | Except.ok (v, d) =>
          Except.ok (8, { d with last_value := sctp_value.as_uleb128 v, last_size := 8 })
      | 9 =>
        match _sctp_decoder_read_sleb128 dec1 with
        | Except.error e => Except.error e
        | Except.ok (v, d) =>
          Except.ok (9, { d with last_value := sctp_value.as_sleb128 v, last_size := 8 })
      | 12 =>
        Except.ok (12, { dec1 with last_value := sctp_value.as_short meta, last_size := 1 })
      | 13 =>
        match (if meta = 15 then
                 match _sctp_decoder_read_uleb128 dec1 with
                 | Except.error e => Except.error e
                 | Except.ok (v, d) => Except.ok (v % SIZE_MOD, d)
               else Except.ok (meta, dec1) : Except SctpErr (Nat × sctp_decoder)) with
        | Except.error e => Except.error e
        | Except.ok (len, d2) =>
          match _sctp_decoder_read_data d2 len with
          | Except.error e => Except.error e
          | Except.ok (off, d3) =>
            Except.ok (13, { d3 with last_value := sctp_value.as_ptr off, last_size := len })
      | 15 => Except.ok (15, { dec1 with last_size := 0 })
      | 0 | 1 | 2 | 3 | 4 | 5 | 6 | 7 | 10 | 11 =>
        match _sctp_decoder_read_data dec1 (fixedWidth ty) with
        | Except.error e => Except.error e
        | Except.ok (off, d) =>
          Except.ok (ty, { d with
            last_size := fixedWidth ty,
            last_value := fixedValue ty (leVal d.data off (fixedWidth ty)) })
      | _ => Except.error SctpErr.UnknownType

/-- What the `data` argument of `__sctp_data_handler` points at: nothing
(EOF), a place inside the source buffer, or a locally materialized temporary
(a `uint64_t`/`int64_t` local, or the decoder's value union / a local copy of
the metadata nibble). -/
inductive hptr where
  | null
  | inBuf (off : Nat)
  | tempU64 (v : Nat)
  | tempI64 (v : Int)
  | tempVal (v : sctp_value)
deriving DecidableEq, Repr

/-- One `__sctp_data_handler(type, data, size)` invocation. -/
structure event where
  etype : Nat
  edata : hptr
  esize : Nat
deriving DecidableEq, Repr

/-- The `data_ptr` the instance-based `sctp_decoder_run` hands to the handler
for the field just decoded: the vector slice for VECTOR, the address of the
materialized `uint64_t`/`int64_t` for the LEB128 types, and the address of
the decoder's value union for everything else. -/
def handlerArg (d : sctp_decoder) : hptr :=
  match d.last_type, d.last_value with
  | 13, sctp_value.as_ptr off => hptr.inBuf off
  | 8, sctp_value.as_uleb128 v => hptr.tempU64 v
  | 9, sctp_value.as_sleb128 v => hptr.tempI64 v
  | _, _ => hptr.tempVal d.last_value

/-- Loop of the instance-based `sctp_decoder_run` (built on
`sctp_decoder_next`).  `fuel` bounds the iteration count; `none` means the
bound was hit (the C loop has no such bound and can diverge). -/
def sctp_decoder_run_go (fuel : Nat) (dec : sctp_decoder) (acc : List event) :
    Option (Except SctpErr (List event × sctp_decoder)) :=
  match fuel with
  | 0 => none
  | fuel + 1 =>
    match sctp_decoder_next dec with
    | Except.error e => some (Except.error e)
    | Except.ok (ty, d) =>
      if ty = 15 then some (Except.ok (acc ++ [⟨15, hptr.null, 0⟩], d))
      else sctp_decoder_run_go fuel d (acc ++ [⟨ty, handlerArg d, d.last_size⟩])

/-- Instance-based `sctp_decoder_run`: the handler-invocation sequence of a
full pass (final `(EOF, NULL, 0)` call included) and the final decoder
state; the C function additionally returns 0 on completion. -/
def sctp_decoder_run (fuel : Nat) (dec : sctp_decoder) :
    Option (Except SctpErr (List event × sctp_decoder)) :=
  sctp_decoder_run_go fuel dec []

/-- Loop of the legacy global-state `sctp_decoder_run` (decoder.c of the
callback-only build): it dispatches on the header itself instead of calling
`sctp_decoder_next`, hands fixed-width scalars and vectors to the handler as
pointers into the source buffer, and returns without a final EOF callback
when the buffer is exhausted without an explicit EOF header. -/
def sctp_decoder_run_global_go (fuel : Nat) (dec : sctp_decoder) (acc : List event) :
    Option (Except SctpErr (List event × sctp_decoder)) :=
  match fuel with
  | 0 => none
  | fuel + 1 =>
    if dec.position < dec.size then
      match _sctp_decoder_read_byte dec with
      | none => some (Except.ok (acc, dec))
      | some (header, dec0) =>
        let ty := header &&& 0x0F
        let meta := (header &&& 0xF0) >>> 4
        match ty with
        | 15 => some (Except.ok (acc ++ [⟨15, hptr.null, 0⟩], dec0))
        | 8 =>
          match _sctp_decoder_read_uleb128 dec0 with
          | Except.error e => some (Except.error e)
          | Except.ok (v, d) =>
            sctp_decoder_run_global_go fuel d (acc ++ [⟨8, hptr.tempU64 v, 8⟩])
        | 9 =>
          match _sctp_decoder_read_sleb128 dec0 with
          | Except.error e => some (Except.error e)
          | Except.ok (v, d) =>
            sctp_decoder_run_global_go fuel d (acc ++ [⟨9, hptr.tempI64 v, 8⟩])
        | 12 =>
          sctp_decoder_run_global_go fuel dec0
            (acc ++ [⟨12, hptr.tempVal (sctp_value.as_short meta), 1⟩])
        | 13 =>
          match (if meta = 15 then
                   match _sctp_decoder_read_uleb128 dec0 with
                   | Except.error e => Except.error e
                   | Except.ok (v, d) => Except.ok (v % SIZE_MOD, d)
                 else Except.ok (meta, dec0) : Except SctpErr (Nat × sctp_decoder)) with
          | Except.error e => some (Except.error e)
          | Except.ok (len, d2) =>
            match _sctp_decoder_read_data d2 len with
            | Except.error e => some (Except.error e)
            | Except.ok (off, d3) =>
              sctp_decoder_run_global_go fuel d3 (acc ++ [⟨13, hptr.inBuf off, len⟩])
        | 0 | 1 | 2 | 3 | 4 | 5 | 6 | 7 | 10 | 11 =>
          match _sctp_decoder_read_data dec0 (fixedWidth ty) with
          | Except.error e => some (Except.error e)
          | Except.ok (off, d) =>
            sctp_decoder_run_global_go fuel d (acc ++ [⟨ty, hptr.inBuf off, fixedWidth ty⟩])
        | _ => some (Except.error SctpErr.UnknownType)
    else some (Except.ok (acc, dec))

/-- Legacy global-state `sctp_decoder_run` (src/decoder.c). -/
def sctp_decoder_run_global (fuel : Nat) (dec : sctp_decoder) :
    Option (Except SctpErr (List event × sctp_decoder)) :=
  sctp_decoder_run_global_go fuel dec []

/-- Encoder state `struct sctp_encoder`.  The buffer is allocated once at
`capacity` bytes (its initial contents are whatever `malloc` returned). -/
structure sctp_encoder where
  buffer : List Nat
  capacity : Nat
  position : Nat
deriving DecidableEq, Repr

/-- `_sctp_encoder_ensure_capacity`: the check
`enc->position + additional_bytes > enc->capacity` in 32-bit `size_t`
arithmetic. -/
def _sctp_encoder_ensure_capacity (enc : sctp_encoder) (n : Nat) : Except SctpErr Unit :=
  if (enc.position + n) % SIZE_MOD > enc.capacity then Except.error SctpErr.CapacityExceeded
  else Except.ok ()

/-- `_sctp_encoder_write_byte`: `enc->buffer[enc->position++] = byte` after
the capacity check (the store into the `uint8_t` array truncates mod 256). -/
def _sctp_encoder_write_byte (enc : sctp_encoder) (b : Nat) : Except SctpErr sctp_encoder :=
  match _sctp_encoder_ensure_capacity enc 1 with
  | Except.error e => Except.error e
  | Except.ok _ =>
    Except.ok { enc with
      buffer := enc.buffer.set enc.position (b % 256),
      position := (enc.position + 1) % SIZE_MOD }

/-- `_sctp_encoder_write_header`: `header = (uint8_t)type | (meta << 4)`. -/
def _sctp_encoder_write_header (enc : sctp_encoder) (ty meta : Nat) :
    Except SctpErr sctp_encoder :=
  _sctp_encoder_write_byte enc (ty ||| (meta <<< 4))

/-- `memcpy(enc->buffer + pos, bs, bs.length)` on the model buffer. -/
def writeBytes (buf : List Nat) (pos : Nat) : List Nat → List Nat
  | [] => buf
  | b :: bs => writeBytes (buf.set pos (b % 256)) (pos + 1) bs

/-- `_sctp_encoder_write_data`: capacity check, `memcpy`, advance. -/
def _sctp_encoder_write_data (enc : sctp_encoder) (bs : List Nat) :
    Except SctpErr sctp_encoder :=
  match _sctp_encoder_ensure_capacity enc bs.length with
  | Except.error e => Except.error e
  | Except.ok _ =>
    Except.ok { enc with
      buffer := writeBytes enc.buffer enc.position bs,
      position := (enc.position + bs.length) % SIZE_MOD }

/-- `_sctp_encoder_write_uleb128`: the do/while loop emitting 7-bit groups,
least significant first, continuation bit 0x80 on all but the last. -/
def _sctp_encoder_write_uleb128 (enc : sctp_encoder) (value : Nat) :
    Except SctpErr sctp_encoder :=
  match _sctp_encoder_write_byte enc
      (if value >>> 7 ≠ 0 then (value &&& 0x7F) ||| 0x80 else value &&& 0x7F) with
  | Except.error e => Except.error e
  | Except.ok enc' =>
    if _h : value >>> 7 = 0 then Except.ok enc'
    else _sctp_encoder_write_uleb128 enc' (value >>> 7)
termination_by value
decreasing_by
  simp only [Nat.shiftRight_eq_div_pow] at *
  omega

/-- Continuation condition of the `_sctp_encoder_write_sleb128` loop: the C
`more = !((value == 0 && !(byte & 0x40)) || (value == -1 && (byte & 0x40)))`
evaluated on the already-shifted value and the just-extracted group. -/
def slebMore (value' : Int) (byte : Nat) : Prop :=
  ¬ ((value' = 0 ∧ byte &&& 0x40 = 0) ∨ (value' = -1 ∧ byte &&& 0x40 ≠ 0))

instance (value' : Int) (byte : Nat) : Decidable (slebMore value' byte) := by
  unfold slebMore; infer_instance

/-- `_sctp_encoder_write_sleb128`: the do/while loop of the classic signed
LEB128 encoder.  `value & 0x7F` on an `int64_t` is `value % 128` (emod) and
the arithmetic shift `value >>= 7` is flooring division by 128, which is what
`/` on `Int` computes for a positive divisor. -/
def _sctp_encoder_write_sleb128 (enc : sctp_encoder) (value : Int) :
    Except SctpErr sctp_encoder :=
  match _sctp_encoder_write_byte enc
      (if slebMore (value / 128) (value % 128).toNat
       then (value % 128).toNat ||| 0x80 else (value % 128).toNat) with
  | Except.error e => Except.error e
  | Except.ok enc' =>
    if h : slebMore (value / 128) (value % 128).toNat then
      _sctp_encoder_write_sleb128 enc' (value / 128)
    else Except.ok enc'
termination_by (2 * value + 1).natAbs
decreasing_by
  unfold slebMore at h
  have h128 : (value % 128).toNat < 128 := by omega
  have h64 : ((value % 128).toNat &&& 64 = 0) ↔ (value % 128).toNat < 64 := by
    revert h128; generalize (value % 128).toNat = n; revert n; decide
  omega

/-- Little-endian byte decomposition: `width` bytes of `n`. -/
def leBytes : Nat → Nat → List Nat
  | 0, _ => []
  | w + 1, n => (n % 256) :: leBytes w (n / 256)

/-- `sctp_encoder_add_vector`: header with the literal length as metadata for
`length < 15`, otherwise metadata 15 followed by `ULEB128(length)`; then the
payload span of `length` bytes is reserved and its offset (the returned
writable pointer) handed back.  `enc->position += length` is 32-bit
`size_t` arithmetic. -/
def sctp_encoder_add_vector (enc : sctp_encoder) (length : Nat) :
    Except SctpErr (Nat × sctp_encoder) :=
  match (if length < 15 then _sctp_encoder_write_header enc 13 length
         else match _sctp_encoder_write_header enc 13 15 with
              | Except.error e => Except.error e
              | Except.ok e1 => _sctp_encoder_write_uleb128 e1 length) with
  | Except.error e => Except.error e
  | Except.ok e2 =>
    match _sctp_encoder_ensure_capacity e2 length with
    | Except.error e => Except.error e
    | Except.ok _ =>
      Except.ok (e2.position, { e2 with position := (e2.position + length) % SIZE_MOD })

/-- `sctp_encoder_add_short`: value must be ≤ 15, else the abort
`"short value must be <= 15"` (InvalidArgument); on success one header byte
with the value as metadata, no payload. -/
def sctp_encoder_add_short (enc : sctp_encoder) (value : Nat) :
    Except SctpErr sctp_encoder :=
  if value > 15 then Except.error SctpErr.InvalidArgument
  else _sctp_encoder_write_header enc 12 value

/-- `sctp_encoder_add_eof`: a single header byte, type 15, metadata 0. -/
def sctp_encoder_add_eof (enc : sctp_encoder) : Except SctpErr sctp_encoder :=
  _sctp_encoder_write_header enc 15 0

/-- Shared body of the `DEFINE_ENCODER_ADD_TYPE` family: header (metadata 0)
followed by the value's `width` bytes in little-endian order; `pat` is the
value's unsigned `width`-byte pattern. -/
def sctp_encoder_add_fixed (enc : sctp_encoder) (ty width pat : Nat) :
    Except SctpErr sctp_encoder :=
  match _sctp_encoder_write_header enc ty 0 with
  | Except.error e => Except.error e
  | Except.ok e1 => _sctp_encoder_write_data e1 (leBytes width pat)

/-- `sctp_encoder_add_int8` (two's-complement object representation). -/
def sctp_encoder_add_int8 (enc : sctp_encoder) (v : Int) : Except SctpErr sctp_encoder :=
  sctp_encoder_add_fixed enc 0 1 (v % (2 ^ 8)).toNat

/-- `sctp_encoder_add_uint8`. -/
def sctp_encoder_add_uint8 (enc : sctp_encoder) (v : Nat) : Except SctpErr sctp_encoder :=
  sctp_encoder_add_fixed enc 1 1 (v % 2 ^ 8)

/-- `sctp_encoder_add_int16`. -/
def sctp_encoder_add_int16 (enc : sctp_encoder) (v : Int) : Except SctpErr sctp_encoder :=
  sctp_encoder_add_fixed enc 2 2 (v % (2 ^ 16)).toNat

/-- `sctp_encoder_add_uint16`. -/
def sctp_encoder_add_uint16 (enc : sctp_encoder) (v : Nat) : Except SctpErr sctp_encoder :=
  sctp_encoder_add_fixed enc 3 2 (v % 2 ^ 16)

/-- `sctp_encoder_add_int32`. -/
def sctp_encoder_add_int32 (enc : sctp_encoder) (v : Int) : Except SctpErr sctp_encoder :=
  sctp_encoder_add_fixed enc 4 4 (v % (2 ^ 32)).toNat

/-- `sctp_encoder_add_uint32`. -/
def sctp_encoder_add_uint32 (enc : sctp_encoder) (v : Nat) : Except SctpErr sctp_encoder :=
  sctp_encoder_add_fixed enc 5 4 (v % 2 ^ 32)

/-- `sctp_encoder_add_int64`. -/
def sctp_encoder_add_int64 (enc : sctp_encoder) (v : Int) : Except SctpErr sctp_encoder :=
  sctp_encoder_add_fixed enc 6 8 (v % (2 ^ 64)).toNat

/-- `sctp_encoder_add_uint64`. -/
def sctp_encoder_add_uint64 (enc : sctp_encoder) (v : Nat) : Except SctpErr sctp_encoder :=
  sctp_encoder_add_fixed enc 7 8 (v % 2 ^ 64)

/-- `sctp_encoder_add_float32` (value given by its IEEE-754 bit pattern). -/
def sctp_encoder_add_float32 (enc : sctp_encoder) (bits : Nat) : Except SctpErr sctp_encoder :=
  sctp_encoder_add_fixed enc 10 4 (bits % 2 ^ 32)

/-- `sctp_encoder_add_float64` (value given by its IEEE-754 bit pattern). -/
def sctp_encoder_add_float64 (enc : sctp_encoder) (bits : Nat) : Except SctpErr sctp_encoder :=
  sctp_encoder_add_fixed enc 11 8 (bits % 2 ^ 64)

/-- `sctp_encoder_add_uleb128`: header (type 8, metadata 0) then the ULEB128
groups of the value. -/
def sctp_encoder_add_uleb128 (enc : sctp_encoder) (v : Nat) : Except SctpErr sctp_encoder :=
  match _sctp_encoder_write_header enc 8 0 with
  | Except.error e => Except.error e
  | Except.ok e1 => _sctp_encoder_write_uleb128 e1 (v % 2 ^ 64)

/-- `sctp_encoder_add_sleb128`: header (type 9, metadata 0) then the SLEB128
groups of the value. -/
def sctp_encoder_add_sleb128 (enc : sctp_encoder) (v : Int) : Except SctpErr sctp_encoder :=
  match _sctp_encoder_write_header enc 9 0 with
  | Except.error e => Except.error e
  | Except.ok e1 => _sctp_encoder_write_sleb128 e1 v

/-- A fresh encoder as produced by `sctp_encoder_init cap` (buffer contents
indeterminate after `malloc`; we expose them as a parameter). -/
def sctp_encoder_init (cap : Nat) (initial : List Nat) : sctp_encoder :=
  { buffer := initial, capacity := cap, position := 0 }

/-- The bytes the encoder has produced so far
(`sctp_encoder_data` up to `sctp_encoder_size`). -/
def bytesOut (enc : sctp_encoder) : List Nat := enc.buffer.take enc.position

/-- The byte list `_sctp_encoder_write_uleb128` emits for a value (pure
mirror of the loop). -/
def uleb_bytes (value : Nat) : List Nat :=
  if h : value >>> 7 = 0 then [value &&& 0x7F]
  else ((value &&& 0x7F) ||| 0x80) :: uleb_bytes (value >>> 7)
termination_by value
decreasing_by
  simp only [Nat.shiftRight_eq_div_pow] at *
  omega

/-- The byte list `_sctp_encoder_write_sleb128` emits for a value (pure
mirror of the loop). -/
def sleb_bytes (value : Int) : List Nat :=
  if h : slebMore (value / 128) (value % 128).toNat then
    ((value % 128).toNat ||| 0x80) :: sleb_bytes (value / 128)
  else [(value % 128).toNat]
termination_by (2 * value + 1).natAbs
decreasing_by
  unfold slebMore at h
  have h128 : (value % 128).toNat < 128 := by omega
  have h64 : ((value % 128).toNat &&& 64 = 0) ↔ (value % 128).toNat < 64 := by
    revert h128; generalize (value % 128).toNat = n; revert n; decide
  omega

/-- A header byte as stored by `_sctp_encoder_write_header`. -/
def headerByte (ty meta : Nat) : Nat := (ty ||| (meta <<< 4)) % 256

/-- One value-carrying field, as handed to the encoder: the 8 fixed-width
integers, the 2 floats (by bit pattern), the two LEB128 kinds, SHORT and
VECTOR. -/
inductive fieldv where
  | fInt8 (v : Int)
  | fUInt8 (v : Nat)
  | fInt16 (v : Int)
  | fUInt16 (v : Nat)
  | fInt32 (v : Int)
  | fUInt32 (v : Nat)
  | fInt64 (v : Int)
  | fUInt64 (v : Nat)
  | fFloat32 (bits : Nat)
  | fFloat64 (bits : Nat)
  | fUleb (v : Nat)
  | fSleb (v : Int)
  | fShort (v : Nat)
  | fVector (bs : List Nat)
deriving DecidableEq, Repr

/-- The value is legal for its field type (ranges of the C parameter types;
vector payload entries are bytes). -/
def legalField : fieldv → Prop
  | fieldv.fInt8 v => -(2 ^ 7) ≤ v ∧ v < 2 ^ 7
  | fieldv.fUInt8 v => v < 2 ^ 8
  | fieldv.fInt16 v => -(2 ^ 15) ≤ v ∧ v < 2 ^ 15
  | fieldv.fUInt16 v => v < 2 ^ 16
  | fieldv.fInt32 v => -(2 ^ 31) ≤ v ∧ v < 2 ^ 31
  | fieldv.fUInt32 v => v < 2 ^ 32
  | fieldv.fInt64 v => -(2 ^ 63) ≤ v ∧ v < 2 ^ 63
  | fieldv.fUInt64 v => v < 2 ^ 64
  | fieldv.fFloat32 bits => bits < 2 ^ 32
  | fieldv.fFloat64 bits => bits < 2 ^ 64
  | fieldv.fUleb v => v < 2 ^ 64
  | fieldv.fSleb v => -(2 ^ 63) ≤ v ∧ v < 2 ^ 63
  | fieldv.fShort v => v ≤ 15
  | fieldv.fVector bs => ∀ b ∈ bs, b < 256

/-- Type id of a field. -/
def tagOf : fieldv → Nat
  | fieldv.fInt8 _ => 0
  | fieldv.fUInt8 _ => 1
  | fieldv.fInt16 _ => 2
  | fieldv.fUInt16 _ => 3
  | fieldv.fInt32 _ => 4
  | fieldv.fUInt32 _ => 5
  | fieldv.fInt64 _ => 6
  | fieldv.fUInt64 _ => 7
  | fieldv.fFloat32 _ => 10
  | fieldv.fFloat64 _ => 11
  | fieldv.fUleb _ => 8
  | fieldv.fSleb _ => 9
  | fieldv.fShort _ => 12
  | fieldv.fVector _ => 13

/-- The wire bytes of one field: header byte, then length prefix (large
vectors) and payload. -/
def fieldBytes : fieldv → List Nat
  | fieldv.fInt8 v => headerByte 0 0 :: leBytes 1 (v % (2 ^ 8)).toNat
  | fieldv.fUInt8 v => headerByte 1 0 :: leBytes 1 (v % 2 ^ 8)
  | fieldv.fInt16 v => headerByte 2 0 :: leBytes 2 (v % (2 ^ 16)).toNat
  | fieldv.fUInt16 v => headerByte 3 0 :: leBytes 2 (v % 2 ^ 16)
  | fieldv.fInt32 v => headerByte 4 0 :: leBytes 4 (v % (2 ^ 32)).toNat
  | fieldv.fUInt32 v => headerByte 5 0 :: leBytes 4 (v % 2 ^ 32)
  | fieldv.fInt64 v => headerByte 6 0 :: leBytes 8 (v % (2 ^ 64)).toNat
  | fieldv.fUInt64 v => headerByte 7 0 :: leBytes 8 (v % 2 ^ 64)
  | fieldv.fFloat32 bits => headerByte 10 0 :: leBytes 4 (bits % 2 ^ 32)
  | fieldv.fFloat64 bits => headerByte 11 0 :: leBytes 8 (bits % 2 ^ 64)
  | fieldv.fUleb v => headerByte 8 0 :: uleb_bytes (v % 2 ^ 64)
  | fieldv.fSleb v => headerByte 9 0 :: sleb_bytes v
  | fieldv.fShort v => [headerByte 12 v]
  | fieldv.fVector bs =>
    (if bs.length < 15 then [headerByte 13 bs.length]
     else headerByte 13 15 :: uleb_bytes bs.length) ++ bs

/-- Total wire size of a field. -/
def wireSize (f : fieldv) : Nat := (fieldBytes f).length

/-- Number of bytes before a field's payload (header plus a large vector's
length prefix). -/
def headerSize (f : fieldv) : Nat :=
  match f with
  | fieldv.fVector bs => if bs.length < 15 then 1 else 1 + (uleb_bytes bs.length).length
  | _ => 1

/-- `last_size` after the instance-based decoder has decoded the field. -/
def decodedSize : fieldv → Nat
  | fieldv.fUleb _ => 8
  | fieldv.fSleb _ => 8
  | fieldv.fShort _ => 1
  | fieldv.fVector bs => bs.length
  | f => fixedWidth (tagOf f)

/-- `last_value` after the instance-based decoder has decoded the field
(`off` is the offset of the field's first byte in the buffer; only vectors
use it). -/
def decodedValue (f : fieldv) (off : Nat) : sctp_value :=
  match f with
  | fieldv.fInt8 v => sctp_value.as_int8 v
  | fieldv.fUInt8 v => sctp_value.as_uint8 v
  | fieldv.fInt16 v => sctp_value.as_int16 v
  | fieldv.fUInt16 v => sctp_value.as_uint16 v
  | fieldv.fInt32 v => sctp_value.as_int32 v
  | fieldv.fUInt32 v => sctp_value.as_uint32 v
  | fieldv.fInt64 v => sctp_value.as_int64 v
  | fieldv.fUInt64 v => sctp_value.as_uint64 v
  | fieldv.fFloat32 bits => sctp_value.as_float32 bits
  | fieldv.fFloat64 bits => sctp_value.as_float64 bits
  | fieldv.fUleb v => sctp_value.as_uleb128 v
  | fieldv.fSleb v => sctp_value.as_sleb128 v
  | fieldv.fShort v => sctp_value.as_short v
  | fieldv.fVector bs => sctp_value.as_ptr (off + headerSize (fieldv.fVector bs))

/-- Encode one field, including (for vectors) the caller's `memcpy` of the
payload into the span returned by `sctp_encoder_add_vector`. -/
def encodeField (enc : sctp_encoder) : fieldv → Except SctpErr sctp_encoder
  | fieldv.fInt8 v => sctp_encoder_add_int8 enc v
  | fieldv.fUInt8 v => sctp_encoder_add_uint8 enc v
  | fieldv.fInt16 v => sctp_encoder_add_int16 enc v
  | fieldv.fUInt16 v => sctp_encoder_add_uint16 enc v
  | fieldv.fInt32 v => sctp_encoder_add_int32 enc v
  | fieldv.fUInt32 v => sctp_encoder_add_uint32 enc v
  | fieldv.fInt64 v => sctp_encoder_add_int64 enc v
  | fieldv.fUInt64 v => sctp_encoder_add_uint64 enc v
  | fieldv.fFloat32 bits => sctp_encoder_add_float32 enc bits
  | fieldv.fFloat64 bits => sctp_encoder_add_float64 enc bits
  | fieldv.fUleb v => sctp_encoder_add_uleb128 enc v
  | fieldv.fSleb v => sctp_encoder_add_sleb128 enc v
  | fieldv.fShort v => sctp_encoder_add_short enc v
  | fieldv.fVector bs =>
    match sctp_encoder_add_vector enc bs.length with
    | Except.error e => Except.error e
    | Except.ok (off, e1) => Except.ok { e1 with buffer := writeBytes e1.buffer off bs }

/-- Wire bytes of a whole stream of fields. -/
def streamBytes (fs : List fieldv) : List Nat := (fs.map fieldBytes).flatten

/-- The handler invocation the instance-based `sctp_decoder_run` makes for a
field whose first byte is at `off` (fixed-width scalars are handed out via
the decoder's value union, vectors as zero-copy slices, LEB128 values as
materialized temporaries). -/
def eventOfNew (f : fieldv) (off : Nat) : event :=
  match f with
  | fieldv.fUleb v => ⟨8, hptr.tempU64 v, 8⟩
  | fieldv.fSleb v => ⟨9, hptr.tempI64 v, 8⟩
  | fieldv.fVector bs => ⟨13, hptr.inBuf (off + headerSize (fieldv.fVector bs)), bs.length⟩
  | f => ⟨tagOf f, hptr.tempVal (decodedValue f off), decodedSize f⟩

/-- The handler invocation the legacy `sctp_decoder_run` makes for a field
whose first byte is at `off` (fixed-width scalars and vectors are handed out
as pointers into the source buffer, LEB128 values as materialized
temporaries, SHORT as the address of a local copy of the metadata). -/
def eventOfOld (f : fieldv) (off : Nat) : event :=
  match f with
  | fieldv.fUleb v => ⟨8, hptr.tempU64 v, 8⟩
  | fieldv.fSleb v => ⟨9, hptr.tempI64 v, 8⟩
  | fieldv.fShort v => ⟨12, hptr.tempVal (sctp_value.as_short v), 1⟩
  | fieldv.fVector bs => ⟨13, hptr.inBuf (off + headerSize (fieldv.fVector bs)), bs.length⟩
  | f => ⟨tagOf f, hptr.inBuf (off + 1), fixedWidth (tagOf f)⟩

/-- Handler invocations of a stream, instance-based run (without the final
EOF invocation); `off` is the offset of the first field. -/
def streamEventsNew : List fieldv → Nat → List event
  | [], _ => []
  | f :: fs, off => eventOfNew f off :: streamEventsNew fs (off + wireSize f)

/-- Handler invocations of a stream, legacy run (without any EOF
invocation). -/
def streamEventsOld : List fieldv → Nat → List event
  | [], _ => []
  | f :: fs, off => eventOfOld f off :: streamEventsOld fs (off + wireSize f)

/-- Every field of the stream is legal. -/
def legalStream (fs : List fieldv) : Prop := ∀ f ∈ fs, legalField f

/-- Well-formedness of an encoder state: the buffer really has `capacity`
bytes, the write cursor is inside it, and the buffer is small enough to
exist in the 4 GiB wasm32 address space alongside the allocator's and
encoder struct's own bookkeeping. -/
def encWF (enc : sctp_encoder) : Prop :=
  enc.buffer.length = enc.capacity ∧ enc.position ≤ enc.capacity ∧
    enc.capacity + 16 ≤ SIZE_MOD

/-- An encoder operation of claim C10: one of the `sctp_encoder_add_*`
family (a value-carrying field or the EOF marker). -/
inductive encOp where
  | opField (f : fieldv)
  | opEof
deriving DecidableEq, Repr

/-- Run one add operation, discarding the returned span offset for vectors
(the payload `memcpy` is the caller's business, not the add operation's). -/
def applyOp (enc : sctp_encoder) : encOp → Except SctpErr sctp_encoder
  | encOp.opField (fieldv.fVector bs) =>
    match sctp_encoder_add_vector enc bs.length with
    | Except.error e => Except.error e
    | Except.ok (_, e1) => Except.ok e1
  | encOp.opField f => encodeField enc f
  | encOp.opEof => sctp_encoder_add_eof enc

/-- Wire size of one add operation: one header byte plus payload bytes /
length prefix / reserved vector span. -/
def opWireSize : encOp → Nat
  | encOp.opField f => wireSize f
  | encOp.opEof => 1

/-- The ULEB128 accumulator the decoder builds from `k` groups of `data`
starting at position `p` with initial shift `s` (7-bit groups ORed into
increasing bit positions, each truncated to the `uint64_t` range). -/
def uleb_sum (data : List Nat) (p s : Nat) : Nat → Nat
  | 0 => 0
  | k + 1 =>
    (((data.getD p 0 &&& 0x7F) <<< s) % U64_MOD) ||| uleb_sum data (p + 1) (s + 7) k

/-! ## Bit-level helper lemmas -/

theorem lor_shiftLeft_eq_add {a b s : Nat} (h : a < 2 ^ s) :
    a ||| (b <<< s) = a + b <<< s := by
  apply Nat.eq_of_testBit_eq
  intro j
  have hadd : a + b <<< s = 2 ^ s * b + a := by
    rw [Nat.shiftLeft_eq_mul_pow]; ring
  rw [hadd, Nat.testBit_mul_pow_two_add b h j, Nat.testBit_lor, Nat.shiftLeft_eq_mul_pow,
      Nat.mul_comm, Nat.testBit_mul_pow_two]
  by_cases hj : j < s
  · simp [hj, Nat.not_le_of_lt hj]
  · have hf : a.testBit j = false :=
      Nat.testBit_lt_two_pow
        (lt_of_lt_of_le h (Nat.pow_le_pow_right (by norm_num) (Nat.le_of_not_lt hj)))
    simp [hj, hf, Nat.le_of_not_lt hj]

theorem shiftLeft_mod_u64 {g s : Nat} (hs : s ≤ 64) :
    (g <<< s) % U64_MOD = (g % 2 ^ (64 - s)) <<< s := by
  rw [Nat.shiftLeft_eq_mul_pow, Nat.shiftLeft_eq_mul_pow, U64_MOD]
  have h : (2 : Nat) ^ 64 = 2 ^ (64 - s) * 2 ^ s := by
    rw [← pow_add]; congr 1; omega
  rw [h, Nat.mul_mod_mul_right]

theorem land127_lt (v : Nat) : v &&& 0x7F < 128 := by
  have : v &&& 0x7F ≤ 0x7F := Nat.and_le_right
  omega

theorem lt128_land127 : ∀ g, g < 128 → g &&& 0x7F = g := by decide

theorem lt128_land128 : ∀ g, g < 128 → g &&& 0x80 = 0 := by decide

theorem or128_land127 : ∀ g, g < 128 → (g ||| 0x80) &&& 0x7F = g := by decide

theorem or128_land128 : ∀ g, g < 128 → (g ||| 0x80) &&& 0x80 = 128 := by decide

theorem or128_lt_256 : ∀ g, g < 128 → (g ||| 0x80) < 256 := by decide

theorem land64_eq_zero_iff : ∀ g, g < 128 → (g &&& 0x40 = 0 ↔ g < 64) := by decide

theorem headerByte_spec : ∀ ty, ty < 16 → ∀ meta, meta < 16 →
    headerByte ty meta &&& 0x0F = ty ∧ (headerByte ty meta &&& 0xF0) >>> 4 = meta ∧
      headerByte ty meta < 256 := by decide

/-! ## Facts about the pure LEB128 byte lists -/

theorem uleb_bytes_byte_lt (v : Nat) : ∀ b ∈ uleb_bytes v, b < 256 := by
  induction v using uleb_bytes.induct with
  | case1 v h =>
    rw [uleb_bytes, dif_pos h]
    intro b hb
    simp only [List.mem_singleton] at hb
    subst hb
    exact lt_trans (land127_lt v) (by norm_num)
  | case2 v h ih =>
    rw [uleb_bytes, dif_neg h]
    intro b hb
    rcases List.mem_cons.mp hb with hb | hb
    · subst hb
      exact or128_lt_256 _ (land127_lt v)
    · exact ih b hb

theorem uleb_bytes_length_pos (v : Nat) : 1 ≤ (uleb_bytes v).length := by
  rw [uleb_bytes]
  split <;> simp

theorem uleb_bytes_minimal (v : Nat) :
    v < 2 ^ (7 * (uleb_bytes v).length) ∧
      ((uleb_bytes v).length = 1 ∨ 2 ^ (7 * ((uleb_bytes v).length - 1)) ≤ v) := by
  induction v using uleb_bytes.induct with
  | case1 v h =>
    rw [uleb_bytes, dif_pos h]
    simp only [Nat.shiftRight_eq_div_pow] at h
    norm_num at h
    simp only [List.length_singleton]
    norm_num
    omega
  | case2 v h ih =>
    rw [uleb_bytes, dif_neg h]
    obtain ⟨ih1, ih2⟩ := ih
    have hdiv : v >>> 7 = v / 128 := by
      rw [Nat.shiftRight_eq_div_pow]
    rw [hdiv] at h ih1 ih2
    simp only [List.length_cons, hdiv]
    set n := (uleb_bytes (v / 128)).length with hn
    have hpos : 1 ≤ n := uleb_bytes_length_pos _
    have hp : (2 : Nat) ^ (7 * (n + 1)) = 2 ^ (7 * n) * 128 := by
      rw [show 7 * (n + 1) = 7 * n + 7 by ring, pow_add]; norm_num
    constructor
    · omega
    · right
      simp only [Nat.add_sub_cancel]
      rcases ih2 with h1 | h1
      · rw [h1]
        norm_num
        omega
      · have h2 := Nat.mul_le_mul_right 128 h1
        have hp2 : (2 : Nat) ^ (7 * n) = 2 ^ (7 * (n - 1)) * 128 := by
          rw [show 7 * n = 7 * (n - 1) + 7 by omega, pow_add]; norm_num
        omega

/-! ## Stream reader lemmas -/

theorem getD_at_length (pre : List Nat) (x : Nat) (rest : List Nat) :
    (pre ++ x :: rest).getD pre.length 0 = x := by
  rw [List.getD_append_right pre (x :: rest) 0 pre.length (le_refl _)]
  simp

theorem read_byte_at (dec : sctp_decoder) (pre : List Nat) (x : Nat) (l2 : List Nat)
    (hdata : dec.data = pre ++ x :: l2) (hsz : dec.size = dec.data.length)
    (hpos : dec.position = pre.length) :
    _sctp_decoder_read_byte dec = some (x, { dec with position := dec.position + 1 }) := by
  unfold _sctp_decoder_read_byte
  rw [if_neg]
  · rw [hdata, hpos, getD_at_length]
  · rw [hsz, hdata, hpos]
    simp only [List.length_append, List.length_cons]
    omega

theorem read_data_ok (dec : sctp_decoder) (sz : Nat)
    (h : dec.position + sz ≤ dec.size) (h2 : dec.size < SIZE_MOD) :
    _sctp_decoder_read_data dec sz =
      Except.ok (dec.position, { dec with position := dec.position + sz }) := by
  unfold _sctp_decoder_read_data
  have hm : (dec.position + sz) % SIZE_MOD = dec.position + sz := Nat.mod_eq_of_lt (by omega)
  rw [hm, if_neg (by omega)]

/-- Decoding `uleb_bytes v` embedded at the cursor returns exactly `v`
(shifted into the bits above `s` on top of the accumulator) and advances the
cursor over the encoding. -/
theorem read_uleb128_go_spec (v : Nat) : ∀ (s acc : Nat) (pre rest : List Nat)
    (dec : sctp_decoder), s ≤ 63 → acc < 2 ^ s → v < 2 ^ (64 - s) →
    dec.data = pre ++ uleb_bytes v ++ rest → dec.size = dec.data.length →
    dec.position = pre.length →
    _sctp_decoder_read_uleb128_go dec acc s =
      Except.ok (acc + v * 2 ^ s,
        { dec with position := pre.length + (uleb_bytes v).length }) := by
  induction v using uleb_bytes.induct with
  | case1 v h =>
    intro s acc pre rest dec hs hacc hv hdata hsz hpos
    have hv128 : v < 128 := by
      simp only [Nat.shiftRight_eq_div_pow] at h
      omega
    rw [uleb_bytes, dif_pos h] at hdata ⊢
    rw [lt128_land127 v hv128] at hdata ⊢
    simp only [List.append_assoc, List.singleton_append] at hdata
    have hshift : (v <<< s) % U64_MOD = v <<< s := by
      apply Nat.mod_eq_of_lt
      rw [Nat.shiftLeft_eq_mul_pow, U64_MOD]
      calc v * 2 ^ s < 2 ^ (64 - s) * 2 ^ s :=
            mul_lt_mul_of_pos_right hv (by positivity)
        _ = 2 ^ 64 := by rw [← pow_add]; congr 1; omega
    rw [_sctp_decoder_read_uleb128_go]
    simp only [read_byte_at dec pre v rest hdata hsz hpos, lt128_land127 v hv128,
               lt128_land128 v hv128, if_true, hshift, lor_shiftLeft_eq_add hacc]
    rw [Nat.shiftLeft_eq_mul_pow, hpos]
    simp [List.length_singleton]
  | case2 v h ih =>
    intro s acc pre rest dec hs hacc hv hdata hsz hpos
    have hv128 : 128 ≤ v := by
      simp only [Nat.shiftRight_eq_div_pow] at h
      rcases Nat.lt_or_ge v 128 with h1 | h1
      · exact absurd (Nat.div_eq_of_lt (by omega)) h
      · exact h1
    have hs56 : s ≤ 56 := by
      by_contra hgt
      have h1 : 64 - s ≤ 7 := by omega
      have h2 : (2 : Nat) ^ (64 - s) ≤ 2 ^ 7 := Nat.pow_le_pow_right (by norm_num) h1
      omega
    have hg : v &&& 0x7F < 128 := land127_lt v
    have hns : ¬ (64 ≤ s + 7) := by omega
    have hand : v &&& 0x7F = v % 128 := by
      have h127 : (0x7F : Nat) = 2 ^ 7 - 1 := by norm_num
      rw [h127, Nat.and_pow_two_sub_one_eq_mod]
    rw [uleb_bytes, dif_neg h] at hdata ⊢
    rw [hand] at hdata ⊢
    simp only [List.append_assoc, List.cons_append] at hdata
    have hg2 : v % 128 < 128 := Nat.mod_lt v (by norm_num)
    have hcont : (v % 128 ||| 0x80) &&& 0x80 = 128 := or128_land128 _ hg2
    have hshift : ((v % 128) <<< s) % U64_MOD = (v % 128) <<< s := by
      apply Nat.mod_eq_of_lt
      rw [Nat.shiftLeft_eq_mul_pow, U64_MOD]
      have h1 : v % 128 < 2 ^ 7 := by omega
      calc v % 128 * 2 ^ s < 2 ^ 7 * 2 ^ s :=
            mul_lt_mul_of_pos_right h1 (by positivity)
        _ ≤ 2 ^ 64 := by
            rw [← pow_add]
            exact Nat.pow_le_pow_right (by norm_num) (by omega)
    rw [_sctp_decoder_read_uleb128_go]
    simp only [read_byte_at dec pre (v % 128 ||| 0x80) (uleb_bytes (v >>> 7) ++ rest)
                 hdata hsz hpos,
               hcont, or128_land127 _ hg2, hshift, lor_shiftLeft_eq_add hacc, hns,
               dite_false, if_false
               ]
    rw [if_neg (show ¬ (128 = 0) by norm_num)]
    have hacc' : acc + (v % 128) <<< s < 2 ^ (s + 7) := by
      rw [Nat.shiftLeft_eq_mul_pow]
      have hb : (2 : Nat) ^ (s + 7) = 2 ^ s * 128 := by rw [pow_add]; norm_num
      have h1 : v % 128 ≤ 127 := by omega
      have h2 : (v % 128) * 2 ^ s ≤ 127 * 2 ^ s := Nat.mul_le_mul_right _ h1
      have h3 : (0 : Nat) < 2 ^ s := by positivity
      omega
    have hv' : v >>> 7 < 2 ^ (64 - (s + 7)) := by
      have hb : (2 : Nat) ^ (64 - s) = 2 ^ (64 - (s + 7)) * 128 := by
        rw [show (64 - s) = (64 - (s + 7)) + 7 by omega, pow_add]; norm_num
      have hdv : v >>> 7 = v / 128 := by rw [Nat.shiftRight_eq_div_pow]
      rw [hdv]
      omega
    rw [ih (s + 7) (acc + (v % 128) <<< s) (pre ++ [v % 128 ||| 0x80]) rest
         { dec with position := dec.position + 1 } (by omega) hacc' hv'
         (by simp [hdata]) (by simp [hsz]) (by simp [hpos])]
    have hsl : (v % 128) <<< s = v % 128 * 2 ^ s := Nat.shiftLeft_eq_mul_pow _ _
    have hb : (2 : Nat) ^ (s + 7) = 2 ^ s * 128 := by rw [pow_add]; norm_num
    have hdv : v >>> 7 = v / 128 := by rw [Nat.shiftRight_eq_div_pow]
    have hmd : v % 128 + 128 * (v / 128) = v := Nat.mod_add_div v 128
    have hval : acc + (v % 128) <<< s + v >>> 7 * 2 ^ (s + 7) = acc + v * 2 ^ s := by
      rw [hsl, hdv, hb]
      have hkey : v % 128 * 2 ^ s + v / 128 * (2 ^ s * 128) = v * 2 ^ s := by
        calc v % 128 * 2 ^ s + v / 128 * (2 ^ s * 128)
            = (v % 128 + 128 * (v / 128)) * 2 ^ s := by ring
          _ = v * 2 ^ s := by rw [hmd]
      omega
    rw [hval]
    congr 2
    simp only [List.length_append, List.length_singleton, List.length_cons, List.length_nil]
    congr 1
    omega

/-- Top-level `_sctp_decoder_read_uleb128` on an embedded minimal encoding. -/
theorem read_uleb128_spec (v : Nat) (pre rest : List Nat) (dec : sctp_decoder)
    (hv : v < 2 ^ 64) (hdata : dec.data = pre ++ uleb_bytes v ++ rest)
    (hsz : dec.size = dec.data.length) (hpos : dec.position = pre.length) :
    _sctp_decoder_read_uleb128 dec =
      Except.ok (v, { dec with position := pre.length + (uleb_bytes v).length }) := by
  have h := read_uleb128_go_spec v 0 0 pre rest dec (by norm_num) (by norm_num)
    (by simpa using hv) hdata hsz hpos
  unfold _sctp_decoder_read_uleb128
  simpa using h

/-! ## Stream writer lemmas -/

theorem take_set_succ (l : List Nat) (i : Nat) (x : Nat) (h : i < l.length) :
    (l.set i x).take (i + 1) = l.take i ++ [x] := by
  induction l generalizing i with
  | nil => simp at h
  | cons a as ih =>
    cases i with
    | zero => simp
    | succ n =>
      simp only [List.set_cons_succ, List.take_succ_cons, List.cons_append]
      rw [ih n (by simpa using h)]

theorem take_set_of_le (l : List Nat) (i n : Nat) (x : Nat) (h : n ≤ i) :
    (l.set i x).take n = l.take n := by
  induction l generalizing i n with
  | nil => simp
  | cons a as ih =>
    cases i with
    | zero =>
      have : n = 0 := by omega
      simp [this]
    | succ m =>
      cases n with
      | zero => simp
      | succ k =>
        simp only [List.set_cons_succ, List.take_succ_cons]
        rw [ih m k (by omega)]

theorem getD_set_of_lt (l : List Nat) (i j : Nat) (x : Nat) (h : i < j) :
    (l.set j x).getD i 0 = l.getD i 0 := by
  induction l generalizing i j with
  | nil => simp
  | cons a as ih =>
    cases j with
    | zero => omega
    | succ m =>
      cases i with
      | zero => simp
      | succ k =>
        simp only [List.set_cons_succ, List.getD_cons_succ]
        exact ih k m (by omega)

theorem writeBytes_length (bs : List Nat) : ∀ (buf : List Nat) (pos : Nat),
    (writeBytes buf pos bs).length = buf.length := by
  induction bs with
  | nil => intro buf pos; rfl
  | cons b rest ih =>
    intro buf pos
    rw [writeBytes, ih, List.length_set]

theorem writeBytes_take_prefix (bs : List Nat) : ∀ (buf : List Nat) (pos n : Nat),
    n ≤ pos → (writeBytes buf pos bs).take n = buf.take n := by
  induction bs with
  | nil => intro buf pos n _; rfl
  | cons b rest ih =>
    intro buf pos n h
    rw [writeBytes, ih _ _ _ (by omega), take_set_of_le _ _ _ _ h]

theorem writeBytes_getD_lt (bs : List Nat) : ∀ (buf : List Nat) (pos i : Nat),
    i < pos → (writeBytes buf pos bs).getD i 0 = buf.getD i 0 := by
  induction bs with
  | nil => intro buf pos i _; rfl
  | cons b rest ih =>
    intro buf pos i h
    rw [writeBytes, ih _ _ _ (by omega), getD_set_of_lt _ _ _ _ h]

theorem writeBytes_take (bs : List Nat) : ∀ (buf : List Nat) (pos : Nat),
    pos + bs.length ≤ buf.length →
    (writeBytes buf pos bs).take (pos + bs.length) =
      buf.take pos ++ bs.map (fun b => b % 256) := by
  induction bs with
  | nil => intro buf pos _; simp [writeBytes]
  | cons b rest ih =>
    intro buf pos h
    simp only [List.length_cons] at h
    rw [writeBytes, show pos + (b :: rest).length = (pos + 1) + rest.length by
      simp only [List.length_cons]; omega]
    rw [ih (buf.set pos (b % 256)) (pos + 1) (by rw [List.length_set]; omega),
        take_set_succ _ _ _ (by omega)]
    simp [List.append_assoc]

theorem write_byte_ok (enc : sctp_encoder) (b : Nat)
    (hpos : enc.position < enc.capacity) (hcap : enc.capacity < SIZE_MOD) :
    _sctp_encoder_write_byte enc b =
      Except.ok { enc with
        buffer := enc.buffer.set enc.position (b % 256),
        position := enc.position + 1 } := by
  unfold _sctp_encoder_write_byte _sctp_encoder_ensure_capacity
  have h1 : (enc.position + 1) % SIZE_MOD = enc.position + 1 := Nat.mod_eq_of_lt (by omega)
  rw [h1, if_neg (by omega)]

theorem write_header_ok (enc : sctp_encoder) (ty meta : Nat)
    (hpos : enc.position < enc.capacity) (hcap : enc.capacity < SIZE_MOD) :
    _sctp_encoder_write_header enc ty meta =
      Except.ok { enc with
        buffer := enc.buffer.set enc.position (headerByte ty meta),
        position := enc.position + 1 } := by
  unfold _sctp_encoder_write_header headerByte
  rw [write_byte_ok enc _ hpos hcap]

theorem write_data_ok (enc : sctp_encoder) (bs : List Nat)
    (hpos : enc.position + bs.length ≤ enc.capacity) (hcap : enc.capacity < SIZE_MOD) :
    _sctp_encoder_write_data enc bs =
      Except.ok { enc with
        buffer := writeBytes enc.buffer enc.position bs,
        position := enc.position + bs.length } := by
  unfold _sctp_encoder_write_data _sctp_encoder_ensure_capacity
  have h1 : (enc.position + bs.length) % SIZE_MOD = enc.position + bs.length :=
    Nat.mod_eq_of_lt (by omega)
  rw [h1, if_neg (by omega)]

theorem write_uleb128_ok (value : Nat) : ∀ (enc : sctp_encoder),
    enc.position + (uleb_bytes value).length ≤ enc.capacity → enc.capacity < SIZE_MOD →
    _sctp_encoder_write_uleb128 enc value =
      Except.ok { enc with
        buffer := writeBytes enc.buffer enc.position (uleb_bytes value),
        position := enc.position + (uleb_bytes value).length } := by
  induction value using uleb_bytes.induct with
  | case1 v h =>
    intro enc hcap hsm
    rw [uleb_bytes, dif_pos h] at hcap ⊢
    simp only [List.length_singleton] at hcap
    rw [_sctp_encoder_write_uleb128, if_neg (by simpa using h),
        write_byte_ok enc _ (by omega) hsm]
    simp only [dif_pos h]
    simp [writeBytes, List.length_singleton]
  | case2 v h ih =>
    intro enc hcap hsm
    rw [uleb_bytes, dif_neg h] at hcap ⊢
    simp only [List.length_cons] at hcap
    rw [_sctp_encoder_write_uleb128, if_pos (by simpa using h),
        write_byte_ok enc _ (by omega) hsm]
    simp only [dif_neg h]
    rw [ih { enc with
          buffer := enc.buffer.set enc.position (((v &&& 0x7F) ||| 0x80) % 256),
          position := enc.position + 1 }
        (by show enc.position + 1 + _ ≤ enc.capacity
            omega) hsm]
    simp only [writeBytes, List.length_cons]
    congr 2
    omega

theorem write_sleb128_ok (value : Int) : ∀ (enc : sctp_encoder),
    enc.position + (sleb_bytes value).length ≤ enc.capacity → enc.capacity < SIZE_MOD →
    _sctp_encoder_write_sleb128 enc value =
      Except.ok { enc with
        buffer := writeBytes enc.buffer enc.position (sleb_bytes value),
        position := enc.position + (sleb_bytes value).length } := by
  induction value using sleb_bytes.induct with
  | case1 v h ih =>
    intro enc hcap hsm
    rw [sleb_bytes, dif_pos h] at hcap ⊢
    simp only [List.length_cons] at hcap
    rw [_sctp_encoder_write_sleb128, if_pos h, write_byte_ok enc _ (by omega) hsm]
    simp only [dif_pos h]
    rw [ih { enc with
          buffer := enc.buffer.set enc.position (((v % 128).toNat ||| 0x80) % 256),
          position := enc.position + 1 }
        (by show enc.position + 1 + _ ≤ enc.capacity
            omega) hsm]
    simp only [writeBytes, List.length_cons]
    congr 2
    omega
  | case2 v h =>
    intro enc hcap hsm
    rw [sleb_bytes, dif_neg h] at hcap ⊢
    simp only [List.length_singleton] at hcap
    rw [_sctp_encoder_write_sleb128, if_neg h, write_byte_ok enc _ (by omega) hsm]
    simp only [dif_neg h]
    simp [writeBytes, List.length_singleton]

/-! ## Integer division helpers for the SLEB128 proofs -/

theorem int_ediv_ediv (w : Int) {a b : Int} (ha : 0 < a) (hb : 0 < b) :
    w / a / b = w / (a * b) := by
  have hab : (0 : Int) < a * b := by positivity
  have hr0 : 0 ≤ w % (a * b) := Int.emod_nonneg w (by omega)
  have hrlt : w % (a * b) < a * b := Int.emod_lt_of_pos w hab
  have h1 : a * b * (w / (a * b)) + w % (a * b) = w := Int.ediv_add_emod w (a * b)
  have h2 : w / a = w % (a * b) / a + b * (w / (a * b)) := by
    conv_lhs => rw [← h1]
    rw [show a * b * (w / (a * b)) + w % (a * b)
          = w % (a * b) + (b * (w / (a * b))) * a by ring]
    exact Int.add_mul_ediv_right _ _ (by omega)
  have hra0 : 0 ≤ w % (a * b) / a := Int.ediv_nonneg hr0 (le_of_lt ha)
  have hralt : w % (a * b) / a < b := by
    rw [Int.ediv_lt_iff_lt_mul ha]
    calc w % (a * b) < a * b := hrlt
      _ = b * a := by ring
  rw [h2, show w % (a * b) / a + b * (w / (a * b))
        = w % (a * b) / a + (w / (a * b)) * b by ring,
      Int.add_mul_ediv_right _ _ (by omega : b ≠ 0),
      Int.ediv_eq_zero_of_lt hra0 hralt, Int.zero_add]

theorem int_emod_mul_decomp (w : Int) {a : Int} (ha : 0 < a) :
    w % (a * 128) = w % a + a * (w / a % 128) := by
  have h1 : a * (w / a) + w % a = w := Int.ediv_add_emod w a
  have h2 : 128 * (w / a / 128) + w / a % 128 = w / a := Int.ediv_add_emod (w / a) 128
  have hr1 : 0 ≤ w % a := Int.emod_nonneg w (by omega)
  have hr1' : w % a < a := Int.emod_lt_of_pos w ha
  have hr2 : 0 ≤ w / a % 128 := Int.emod_nonneg _ (by omega)
  have hr2' : w / a % 128 < 128 := Int.emod_lt_of_pos _ (by omega)
  have hw : w = (w % a + a * (w / a % 128)) + (a * 128) * (w / a / 128) := by
    calc w = a * (w / a) + w % a := h1.symm
      _ = a * (128 * (w / a / 128) + w / a % 128) + w % a := by rw [h2]
      _ = (w % a + a * (w / a % 128)) + (a * 128) * (w / a / 128) := by ring
  conv_lhs => rw [hw, Int.add_mul_emod_self_left]
  exact Int.emod_eq_of_lt (by positivity) (by nlinarith)

/-- Reinterpreting a 64-bit pattern that equals `w` or `w + 2^64` as a signed
value gives back an int64 `w`. -/
theorem toSigned64_eq (n : Nat) (w : Int)
    (h1 : (n : Int) = w ∨ (n : Int) = w + 2 ^ 64)
    (hlo : -(2 ^ 63) ≤ w) (hhi : w < 2 ^ 63) (hn : n < 2 ^ 64) :
    toSigned 64 n = w := by
  unfold toSigned
  norm_num
  split <;> omega

theorem u64_signext (t : Nat) (ht : t ≤ 64) :
    U64_MOD - 1 <<< t = (2 ^ (64 - t) - 1) <<< t := by
  rw [Nat.shiftLeft_eq_mul_pow, Nat.shiftLeft_eq_mul_pow, U64_MOD, Nat.sub_mul, one_mul,
      ← pow_add]
  congr 2
  omega

theorem cast_two_pow (n : Nat) : (((2 ^ n : Nat) : Int)) = (2 : Int) ^ n := by
  push_cast
  ring

/-- Decoding `sleb_bytes (w / 2^(7k))` at the cursor, with the low `7k` bits
of `w` already accumulated, returns exactly the int64 `w` and advances the
cursor over the encoding. -/
theorem read_sleb128_go_spec (q : Int) : ∀ (k : Nat) (w : Int) (acc : Nat)
    (pre rest : List Nat) (dec : sctp_decoder),
    k ≤ 9 → -(2 ^ 63) ≤ w → w < 2 ^ 63 →
    q = w / (2 : Int) ^ (7 * k) → (acc : Int) = w % (2 : Int) ^ (7 * k) →
    dec.data = pre ++ sleb_bytes q ++ rest → dec.size = dec.data.length →
    dec.position = pre.length →
    _sctp_decoder_read_sleb128_go dec acc (7 * k) =
      Except.ok (w, { dec with position := pre.length + (sleb_bytes q).length }) := by
  induction q using sleb_bytes.induct with
  | case2 v h =>
    intro k w acc pre rest dec hk hwlo hwhi hq hacc hdata hsz hpos
    have hterm : (v / 128 = 0 ∧ (v % 128).toNat &&& 0x40 = 0) ∨
        (v / 128 = -1 ∧ (v % 128).toNat &&& 0x40 ≠ 0) := by
      unfold slebMore at h
      exact of_not_not h
    have hb0 : (0 : Int) ≤ v % 128 := Int.emod_nonneg v (by norm_num)
    have hb1 : v % 128 < 128 := Int.emod_lt_of_pos v (by norm_num)
    have hbb : (((v % 128).toNat : Int)) = v % 128 := Int.toNat_of_nonneg hb0
    have hb128 : (v % 128).toNat < 128 := by omega
    have hpowpos : (0 : Int) < (2 : Int) ^ (7 * k) := by positivity
    have haccI0 : (0 : Int) ≤ w % (2 : Int) ^ (7 * k) := Int.emod_nonneg w (by omega)
    have haccIlt : w % (2 : Int) ^ (7 * k) < (2 : Int) ^ (7 * k) :=
      Int.emod_lt_of_pos w hpowpos
    have haccN : acc < 2 ^ (7 * k) := by
      have hc := cast_two_pow (7 * k)
      omega
    have hwd : (2 : Int) ^ (7 * k) * v + w % (2 : Int) ^ (7 * k) = w := by
      rw [hq]
      exact Int.ediv_add_emod w _
    rw [sleb_bytes, dif_neg h] at hdata ⊢
    simp only [List.append_assoc, List.singleton_append] at hdata
    rw [_sctp_decoder_read_sleb128_go,
        read_byte_at dec pre ((v % 128).toNat) rest hdata hsz hpos]
    simp only [lt128_land127 _ hb128, lt128_land128 _ hb128, eq_self_iff_true, if_true,
               List.length_singleton]
    rw [hpos]
    congr 2
    rcases hterm with ⟨hq0, hb6⟩ | ⟨hqm1, hb6⟩
    · -- positive terminator: v in [0, 64)
      have hb64 : (v % 128).toNat < 64 := (land64_eq_zero_iff _ hb128).mp hb6
      have hvr : 0 ≤ v ∧ v < 64 := by omega
      have hvm : v % 128 = v := Int.emod_eq_of_lt hvr.1 (by omega)
      rw [if_neg (by simp [hb6])]
      rcases Nat.lt_or_ge k 9 with hk8 | hk9
      · have hblt : (v % 128).toNat < 2 ^ (64 - 7 * k) := by
          have h7 : (2 : Nat) ^ 7 ≤ 2 ^ (64 - 7 * k) :=
            Nat.pow_le_pow_right (by norm_num) (by omega)
          omega
        rw [shiftLeft_mod_u64 (by omega), Nat.mod_eq_of_lt hblt,
            lor_shiftLeft_eq_add haccN]
        have hnI : ((acc + (v % 128).toNat <<< (7 * k) : Nat) : Int) = w := by
          push_cast [Nat.shiftLeft_eq_mul_pow]
          rw [hacc, hbb, hvm]
          linear_combination hwd
        apply toSigned64_eq _ w (Or.inl hnI) hwlo hwhi
        omega
      · have hk9' : k = 9 := by omega
        subst hk9'
        have hv0 : v = 0 := by omega
        have hbz : (v % 128).toNat = 0 := by omega
        rw [hbz]
        have hg : (0 : Nat) <<< (7 * 9) % U64_MOD = 0 := by decide
        rw [hg, Nat.or_zero]
        have hnI : ((acc : Nat) : Int) = w := by omega
        apply toSigned64_eq _ w (Or.inl hnI) hwlo hwhi
        omega
    · -- negative terminator: v in [-64, -1]
      have hb64 : ¬ ((v % 128).toNat < 64) := by
        intro hlt
        exact hb6 ((land64_eq_zero_iff _ hb128).mpr hlt)
      have hvr : -128 ≤ v ∧ v < 0 := by omega
      have hbv : ((v % 128).toNat : Int) = v + 128 := by omega
      rcases Nat.lt_or_ge k 9 with hk8 | hk9
      · -- k ≤ 8: sign extension is applied
        rw [if_pos ⟨by omega, hb6⟩]
        have hblt : (v % 128).toNat < 2 ^ (64 - 7 * k) := by
          have h7 : (2 : Nat) ^ 7 ≤ 2 ^ (64 - 7 * k) :=
            Nat.pow_le_pow_right (by norm_num) (by omega)
          omega
        rw [shiftLeft_mod_u64 (by omega), Nat.mod_eq_of_lt hblt,
            lor_shiftLeft_eq_add haccN, u64_signext _ (by omega)]
        have hnlt : acc + (v % 128).toNat <<< (7 * k) < 2 ^ (7 * k + 7) := by
          rw [Nat.shiftLeft_eq_mul_pow]
          have hbm : (v % 128).toNat * 2 ^ (7 * k) ≤ 127 * 2 ^ (7 * k) :=
            Nat.mul_le_mul_right _ (by omega)
          have hp : (2 : Nat) ^ (7 * k + 7) = 2 ^ (7 * k) * 128 := by
            rw [pow_add]; norm_num
          omega
        have hsub : (2 ^ (64 - (7 * k + 7)) - 1) <<< (7 * k + 7) =
            2 ^ 64 - 2 ^ (7 * k + 7) := by
          rw [Nat.shiftLeft_eq_mul_pow, Nat.sub_mul, one_mul, ← pow_add]
          congr 2
          omega
        rw [lor_shiftLeft_eq_add hnlt, hsub]
        have hle : (2 : Nat) ^ (7 * k + 7) ≤ 18446744073709551616 := by
          calc (2 : Nat) ^ (7 * k + 7) ≤ 2 ^ 64 :=
                Nat.pow_le_pow_right (by norm_num) (by omega)
            _ = 18446744073709551616 := by norm_num
        have hfI : ((acc + (v % 128).toNat <<< (7 * k) + (2 ^ 64 - 2 ^ (7 * k + 7)) : Nat) :
            Int) = w + 2 ^ 64 := by
          rw [show (2 : Nat) ^ 64 = 18446744073709551616 by norm_num]
          push_cast [Nat.shiftLeft_eq_mul_pow, Nat.cast_sub hle]
          rw [hacc, hbv]
          rw [show ((2 : Int) ^ (7 * k + 7)) = 2 ^ (7 * k) * 128 by rw [pow_add]; norm_num]
          linear_combination hwd
        have hAv : (2 : Int) ^ (7 * k) * v ≤ (2 : Int) ^ (7 * k) * (-1) :=
          mul_le_mul_of_nonneg_left (by omega) (le_of_lt hpowpos)
        rw [mul_neg_one] at hAv
        have hwneg : w < 0 := by linarith [hwd, haccIlt, hAv]
        apply toSigned64_eq _ w (Or.inr hfI) hwlo hwhi
        omega
      · -- k = 9: the 10th byte, no sign extension (shift would be 70)
        have hk9' : k = 9 := by omega
        subst hk9'
        have hvm1 : v = -1 := by omega
        have hb127 : (v % 128).toNat = 127 := by omega
        rw [if_neg (by omega), hb127]
        have hg : (127 : Nat) <<< (7 * 9) % U64_MOD = 1 <<< 63 := by decide
        have haccN9 : acc < 2 ^ 63 := by omega
        rw [hg, lor_shiftLeft_eq_add haccN9]
        have hfI : ((acc + 1 <<< 63 : Nat) : Int) = w + 2 ^ 64 := by
          push_cast
          omega
        apply toSigned64_eq _ w (Or.inr hfI) hwlo hwhi
        omega
  | case1 v h ih =>
    intro k w acc pre rest dec hk hwlo hwhi hq hacc hdata hsz hpos
    have hb0 : (0 : Int) ≤ v % 128 := Int.emod_nonneg v (by norm_num)
    have hb1 : v % 128 < 128 := Int.emod_lt_of_pos v (by norm_num)
    have hbb : (((v % 128).toNat : Int)) = v % 128 := Int.toNat_of_nonneg hb0
    have hb128 : (v % 128).toNat < 128 := by omega
    have hpowpos : (0 : Int) < (2 : Int) ^ (7 * k) := by positivity
    have haccI0 : (0 : Int) ≤ w % (2 : Int) ^ (7 * k) := Int.emod_nonneg w (by omega)
    have haccIlt : w % (2 : Int) ^ (7 * k) < (2 : Int) ^ (7 * k) :=
      Int.emod_lt_of_pos w hpowpos
    have haccN : acc < 2 ^ (7 * k) := by
      have hc := cast_two_pow (7 * k)
      omega
    have hwd : (2 : Int) ^ (7 * k) * v + w % (2 : Int) ^ (7 * k) = w := by
      rw [hq]
      exact Int.ediv_add_emod w _
    have hk8 : k ≤ 8 := by
      by_contra hgt
      have hk9 : k = 9 := by omega
      subst hk9
      have hv01 : v = 0 ∨ v = -1 := by omega
      rcases hv01 with hv | hv <;> subst hv <;> exact absurd h (by decide)
    have hns : ¬ (64 ≤ 7 * k + 7) := by omega
    rw [sleb_bytes, dif_pos h] at hdata ⊢
    simp only [List.append_assoc, List.cons_append] at hdata
    have hcont : ((v % 128).toNat ||| 0x80) &&& 0x80 = 128 := or128_land128 _ hb128
    rw [_sctp_decoder_read_sleb128_go,
        read_byte_at dec pre ((v % 128).toNat ||| 0x80) (sleb_bytes (v / 128) ++ rest)
          hdata hsz hpos]
    simp only [hcont, or128_land127 _ hb128, hns, dite_false]
    rw [if_neg (show ¬ (128 = 0) by norm_num)]
    have hblt : (v % 128).toNat < 2 ^ (64 - 7 * k) := by
      have h7 : (2 : Nat) ^ 7 ≤ 2 ^ (64 - 7 * k) :=
        Nat.pow_le_pow_right (by norm_num) (by omega)
      omega
    rw [shiftLeft_mod_u64 (by omega), Nat.mod_eq_of_lt hblt, lor_shiftLeft_eq_add haccN]
    have hq' : v / 128 = w / (2 : Int) ^ (7 * (k + 1)) := by
      rw [hq, int_ediv_ediv w hpowpos (by norm_num : (0 : Int) < 128)]
      congr 1
      rw [show (7 * (k + 1)) = 7 * k + 7 by ring, pow_add]
      norm_num
    have hacc' : (((acc + (v % 128).toNat <<< (7 * k) : Nat)) : Int)
        = w % (2 : Int) ^ (7 * (k + 1)) := by
      push_cast [Nat.shiftLeft_eq_mul_pow]
      rw [hacc, hbb]
      rw [show (7 * (k + 1)) = 7 * k + 7 by ring, pow_add,
          show ((2 : Int) ^ 7) = 128 by norm_num]
      rw [int_emod_mul_decomp w hpowpos, ← hq]
      ring
    have hrec := ih (k + 1) w (acc + (v % 128).toNat <<< (7 * k))
        (pre ++ [(v % 128).toNat ||| 0x80]) rest
        { dec with position := dec.position + 1 }
        (by omega) hwlo hwhi hq' hacc'
        (by simp [hdata]) (by simp [hsz]) (by simp [hpos])
    rw [show (7 * (k + 1)) = 7 * k + 7 by ring] at hrec
    rw [hrec]
    congr 2
    simp only [List.length_append, List.length_singleton, List.length_cons, List.length_nil]
    congr 1
    omega

/-- Top-level `_sctp_decoder_read_sleb128` on an embedded minimal encoding. -/
theorem read_sleb128_spec (w : Int) (pre rest : List Nat) (dec : sctp_decoder)
    (hwlo : -(2 ^ 63) ≤ w) (hwhi : w < 2 ^ 63)
    (hdata : dec.data = pre ++ sleb_bytes w ++ rest)
    (hsz : dec.size = dec.data.length) (hpos : dec.position = pre.length) :
    _sctp_decoder_read_sleb128 dec =
      Except.ok (w, { dec with position := pre.length + (sleb_bytes w).length }) := by
  have h := read_sleb128_go_spec w 0 w 0 pre rest dec (by norm_num) hwlo hwhi
    (by simp) (by simp) hdata hsz hpos
  unfold _sctp_decoder_read_sleb128
  simpa using h

theorem sleb_bytes_byte_lt (v : Int) : ∀ b ∈ sleb_bytes v, b < 256 := by
  induction v using sleb_bytes.induct with
  | case1 v h ih =>
    rw [sleb_bytes, dif_pos h]
    intro b hb
    rcases List.mem_cons.mp hb with hb | hb
    · subst hb
      exact or128_lt_256 _ (by
        have h1 : (0 : Int) ≤ v % 128 := Int.emod_nonneg v (by norm_num)
        have h2 : v % 128 < 128 := Int.emod_lt_of_pos v (by norm_num)
        omega)
    · exact ih b hb
  | case2 v h =>
    rw [sleb_bytes, dif_neg h]
    intro b hb
    simp only [List.mem_singleton] at hb
    subst hb
    have h1 : (0 : Int) ≤ v % 128 := Int.emod_nonneg v (by norm_num)
    have h2 : v % 128 < 128 := Int.emod_lt_of_pos v (by norm_num)
    omega

theorem sleb_bytes_length_pos (v : Int) : 1 ≤ (sleb_bytes v).length := by
  rw [sleb_bytes]
  split <;> simp

/-- The SLEB128 encoder emits the minimal-length encoding: the value fits in
`7·len − 1` bits plus sign, and (unless the encoding is a single byte) does
not fit in seven fewer bits. -/
theorem sleb_bytes_minimal (w : Int) :
    -(2 ^ (7 * (sleb_bytes w).length - 1)) ≤ w ∧
      w < 2 ^ (7 * (sleb_bytes w).length - 1) ∧
      ((sleb_bytes w).length = 1 ∨
        ¬(-(2 ^ (7 * ((sleb_bytes w).length - 1) - 1)) ≤ w ∧
           w < 2 ^ (7 * ((sleb_bytes w).length - 1) - 1))) := by
  induction w using sleb_bytes.induct with
  | case2 v h =>
    rw [sleb_bytes, dif_neg h]
    simp only [List.length_singleton]
    have hterm : (v / 128 = 0 ∧ (v % 128).toNat &&& 0x40 = 0) ∨
        (v / 128 = -1 ∧ (v % 128).toNat &&& 0x40 ≠ 0) := by
      unfold slebMore at h
      exact of_not_not h
    have hb0 : (0 : Int) ≤ v % 128 := Int.emod_nonneg v (by norm_num)
    have hb1 : v % 128 < 128 := Int.emod_lt_of_pos v (by norm_num)
    have hl : ((v % 128).toNat &&& 0x40 = 0) ↔ (v % 128).toNat < 64 :=
      land64_eq_zero_iff _ (by omega)
    have hg : (2 : Int) ^ (7 * 1 - 1) = 64 := by norm_num
    refine ⟨by omega, by omega, Or.inl (by simp)⟩
  | case1 v h ih =>
    rw [sleb_bytes, dif_pos h]
    simp only [List.length_cons, Nat.add_sub_cancel]
    obtain ⟨ih1, ih2, ih3⟩ := ih
    have hpos : 1 ≤ (sleb_bytes (v / 128)).length := sleb_bytes_length_pos _
    set n := (sleb_bytes (v / 128)).length with hn
    have hp1 : (2 : Int) ^ (7 * (n + 1) - 1) = 2 ^ (7 * n - 1) * 128 := by
      rw [show (7 * (n + 1) - 1) = (7 * n - 1) + 7 by omega, pow_add]
      norm_num
    constructor
    · omega
    constructor
    · omega
    · right
      intro hin
      have hb0 : (0 : Int) ≤ v % 128 := Int.emod_nonneg v (by norm_num)
      have hb1 : v % 128 < 128 := Int.emod_lt_of_pos v (by norm_num)
      have hl : ((v % 128).toNat &&& 0x40 = 0) ↔ (v % 128).toNat < 64 :=
        land64_eq_zero_iff _ (by omega)
      unfold slebMore at h
      rcases ih3 with h1 | h1
      · rw [h1] at hin
        have hg : (2 : Int) ^ (7 * 1 - 1) = 64 := by norm_num
        rw [hg] at hin
        apply h
        omega
      · apply h1
        have hn2 : 2 ≤ n := by
          by_contra h2
          push_neg at h2
          interval_cases n
          rw [show (7 * 1 - 1) = 6 by norm_num] at hin
          have hg : (2 : Int) ^ 6 = 64 := by norm_num
          apply h
          omega
        have hp2 : (2 : Int) ^ (7 * n - 1) = 2 ^ (7 * (n - 1) - 1) * 128 := by
          rw [show (7 * n - 1) = (7 * (n - 1) - 1) + 7 by omega, pow_add]
          norm_num
        omega

/-! ## Little-endian scalar lemmas -/

theorem leBytes_length (w : Nat) : ∀ n, (leBytes w n).length = w := by
  induction w with
  | zero => intro n; rfl
  | succ w ih => intro n; simp [leBytes, ih]

theorem leBytes_byte_lt (w : Nat) : ∀ n, ∀ b ∈ leBytes w n, b < 256 := by
  induction w with
  | zero => intro n b hb; simp [leBytes] at hb
  | succ w ih =>
    intro n b hb
    rw [leBytes] at hb
    rcases List.mem_cons.mp hb with hb | hb
    · subst hb; exact Nat.mod_lt _ (by norm_num)
    · exact ih _ b hb

theorem leVal_shift (x : Nat) (l : List Nat) (w : Nat) : ∀ (off : Nat),
    leVal (x :: l) (off + 1) w = leVal l off w := by
  induction w with
  | zero => intro off; rfl
  | succ w ih =>
    intro off
    rw [leVal, leVal, List.getD_cons_succ, ih (off + 1)]

theorem leVal_append (pre : List Nat) (l : List Nat) (w : Nat) :
    leVal (pre ++ l) pre.length w = leVal l 0 w := by
  induction pre with
  | nil => rfl
  | cons a as ih =>
    simp only [List.cons_append, List.length_cons]
    rw [leVal_shift a (as ++ l) w as.length, ih]

theorem leVal_leBytes (w : Nat) : ∀ (n : Nat) (rest : List Nat), n < 2 ^ (8 * w) →
    leVal (leBytes w n ++ rest) 0 w = n := by
  induction w with
  | zero =>
    intro n rest h
    simp only [Nat.mul_zero, pow_zero, Nat.lt_one_iff] at h
    simp [leVal, h]
  | succ w ih =>
    intro n rest h
    rw [leBytes, leVal]
    simp only [List.cons_append, List.getD_cons_zero]
    rw [show (0 + 1) = 1 from rfl, leVal_shift _ _ _ 0, ih (n / 256) rest (by
      have hp : (2 : Nat) ^ (8 * (w + 1)) = 2 ^ (8 * w) * 256 := by
        rw [show 8 * (w + 1) = 8 * w + 8 by ring, pow_add]
        norm_num
      omega)]
    omega

/-- Two's-complement reinterpretation undoes the encoder's `v mod 2^bits`. -/
theorem toSigned_emod (bits : Nat) (hb : 1 ≤ bits) (v : Int)
    (hlo : -(2 ^ (bits - 1)) ≤ v) (hhi : v < 2 ^ (bits - 1)) :
    toSigned bits (v % (2 ^ bits : Nat) : Int).toNat = v := by
  unfold toSigned
  have hc1 := cast_two_pow (bits - 1)
  have hc2 := cast_two_pow bits
  have hp : (2 : Int) ^ bits = 2 ^ (bits - 1) * 2 := by
    conv_lhs => rw [show bits = (bits - 1) + 1 by omega]
    rw [pow_succ]
  have hpos : (0 : Int) < ((2 ^ bits : Nat) : Int) := by
    rw [hc2]; positivity
  have h1 : (0 : Int) ≤ v % ((2 ^ bits : Nat) : Int) := Int.emod_nonneg v (by omega)
  have h2 : v % ((2 ^ bits : Nat) : Int) < ((2 ^ bits : Nat) : Int) :=
    Int.emod_lt_of_pos v hpos
  have h3 : v % ((2 ^ bits : Nat) : Int) = v ∨
      v % ((2 ^ bits : Nat) : Int) = v + ((2 ^ bits : Nat) : Int) := by
    rcases Int.lt_or_le v 0 with hv | hv
    · right
      have h4 : (v + ((2 ^ bits : Nat) : Int) * 1) % ((2 ^ bits : Nat) : Int)
          = v % ((2 ^ bits : Nat) : Int) := Int.add_mul_emod_self_left v _ 1
      rw [mul_one] at h4
      rw [← h4]
      exact Int.emod_eq_of_lt (by omega) (by omega)
    · left
      exact Int.emod_eq_of_lt hv (by omega)
  split <;> omega

theorem leVal_at (pre : List Nat) (hdr : Nat) (w pat : Nat) (rest : List Nat)
    (data : List Nat) (hdata : data = pre ++ hdr :: (leBytes w pat ++ rest))
    (hpat : pat < 2 ^ (8 * w)) :
    leVal data (pre.length + 1) w = pat := by
  subst hdata
  have h : pre ++ hdr :: (leBytes w pat ++ rest) =
      (pre ++ [hdr]) ++ (leBytes w pat ++ rest) := by simp
  rw [h, show pre.length + 1 = (pre ++ [hdr]).length by simp, leVal_append,
      leVal_leBytes w pat rest hpat]

/-- `read_data_ok` with the cursor and the final position given as
explicitly chosen terms. -/
theorem read_data_at (dec : sctp_decoder) (sz p q : Nat)
    (hp : dec.position = p) (hq : p + sz = q)
    (h : p + sz ≤ dec.size) (h2 : dec.size < SIZE_MOD) :
    _sctp_decoder_read_data dec sz = Except.ok (p, { dec with position := q }) := by
  subst hq
  have := read_data_ok dec sz (by omega) h2
  rw [this, hp]

/-- `read_uleb128_spec` with the final position given as an explicitly
chosen term. -/
theorem read_uleb128_at (v : Nat) (pre rest : List Nat) (dec : sctp_decoder) (q : Nat)
    (hv : v < 2 ^ 64) (hdata : dec.data = pre ++ uleb_bytes v ++ rest)
    (hsz : dec.size = dec.data.length) (hpos : dec.position = pre.length)
    (hq : pre.length + (uleb_bytes v).length = q) :
    _sctp_decoder_read_uleb128 dec = Except.ok (v, { dec with position := q }) := by
  subst hq
  exact read_uleb128_spec v pre rest dec hv hdata hsz hpos

/-- `read_sleb128_spec` with the final position given as an explicitly
chosen term. -/
theorem read_sleb128_at (w : Int) (pre rest : List Nat) (dec : sctp_decoder) (q : Nat)
    (hwlo : -(2 ^ 63) ≤ w) (hwhi : w < 2 ^ 63)
    (hdata : dec.data = pre ++ sleb_bytes w ++ rest)
    (hsz : dec.size = dec.data.length) (hpos : dec.position = pre.length)
    (hq : pre.length + (sleb_bytes w).length = q) :
    _sctp_decoder_read_sleb128 dec = Except.ok (w, { dec with position := q }) := by
  subst hq
  exact read_sleb128_spec w pre rest dec hwlo hwhi hdata hsz hpos

set_option maxHeartbeats 3200000 in
/-- Decoding one encoded field embedded at the cursor: `sctp_decoder_next`
returns the field's type id and fills `last_type`, `last_value` and
`last_size` accordingly, advancing the cursor over the field's wire
bytes. -/
theorem next_field_spec (f : fieldv) (pre rest : List Nat) (dec : sctp_decoder)
    (hf : legalField f)
    (hdata : dec.data = pre ++ fieldBytes f ++ rest)
    (hsz : dec.size = dec.data.length) (hpos : dec.position = pre.length)
    (hlen : dec.data.length < SIZE_MOD) :
    sctp_decoder_next dec =
      Except.ok (tagOf f, { dec with
        position := pre.length + wireSize f,
        last_type := tagOf f,
        last_value := decodedValue f pre.length,
        last_size := decodedSize f }) := by
  cases f with
  | fInt8 v =>
    simp only [legalField] at hf
    obtain ⟨hlo, hhi⟩ := hf
    simp only [tagOf, decodedValue, decodedSize, wireSize, fieldBytes, fixedWidth,
      List.length_cons, leBytes_length]
    simp only [fieldBytes, List.append_assoc, List.cons_append] at hdata
    have hh := headerByte_spec 0 (by norm_num) 0 (by norm_num)
    have hlen1 : dec.data.length = pre.length + 1 + (1 + rest.length) := by
      rw [hdata]
      simp [leBytes_length]
      omega
    have hb1 : dec.position + 1 + 1 ≤ dec.size := by
      rw [hpos, hsz]; omega
    have hb2 : dec.size < SIZE_MOD := by
      rw [hsz]; omega
    rw [sctp_decoder_next, if_neg (by rw [hpos, hsz]; omega)]
    rw [read_byte_at dec pre (headerByte 0 0)
        (leBytes 1 (v % (2 ^ 8 : Nat) : Int).toNat ++ rest) hdata hsz hpos]
    simp only [hh.1, hh.2.1, fixedWidth]
    rw [read_data_ok { dec with position := dec.position + 1, last_type := 0 } 1 hb1 hb2]
    have hval : leVal dec.data (dec.position + 1) 1 = (v % (2 ^ 8 : Nat) : Int).toNat := by
      rw [hpos]
      exact leVal_at pre (headerByte 0 0) 1 _ rest dec.data hdata (by
        have h1 : (0 : Int) ≤ v % ((2 ^ 8 : Nat) : Int) := Int.emod_nonneg v (by positivity)
        have h2 : v % ((2 ^ 8 : Nat) : Int) < ((2 ^ 8 : Nat) : Int) :=
          Int.emod_lt_of_pos v (by positivity)
        omega)
    simp only [hval, fixedValue]
    rw [toSigned_emod 8 (by norm_num) v (by norm_num; omega) (by norm_num; omega)]
    rw [hpos]
  | fInt16 v =>
    simp only [legalField] at hf
    obtain ⟨hlo, hhi⟩ := hf
    simp only [tagOf, decodedValue, decodedSize, wireSize, fieldBytes, fixedWidth,
      List.length_cons, leBytes_length]
    simp only [fieldBytes, List.append_assoc, List.cons_append] at hdata
    have hh := headerByte_spec 2 (by norm_num) 0 (by norm_num)
    have hlen1 : dec.data.length = pre.length + 1 + (2 + rest.length) := by
      rw [hdata]
      simp [leBytes_length]
      omega
    have hb1 : dec.position + 1 + 2 ≤ dec.size := by
      rw [hpos, hsz]; omega
    have hb2 : dec.size < SIZE_MOD := by
      rw [hsz]; omega
    rw [sctp_decoder_next, if_neg (by rw [hpos, hsz]; omega)]
    rw [read_byte_at dec pre (headerByte 2 0)
        (leBytes 2 (v % (2 ^ 16 : Nat) : Int).toNat ++ rest) hdata hsz hpos]
    simp only [hh.1, hh.2.1, fixedWidth]
    rw [read_data_ok { dec with position := dec.position + 1, last_type := 2 } 2 hb1 hb2]
    have hval : leVal dec.data (dec.position + 1) 2 = (v % (2 ^ 16 : Nat) : Int).toNat := by
      rw [hpos]
      exact leVal_at pre (headerByte 2 0) 2 _ rest dec.data hdata (by
        have h1 : (0 : Int) ≤ v % ((2 ^ 16 : Nat) : Int) := Int.emod_nonneg v (by positivity)
        have h2 : v % ((2 ^ 16 : Nat) : Int) < ((2 ^ 16 : Nat) : Int) :=
          Int.emod_lt_of_pos v (by positivity)
        omega)
    simp only [hval, fixedValue]
    rw [toSigned_emod 16 (by norm_num) v (by norm_num; omega) (by norm_num; omega)]
    rw [hpos]
  | fInt32 v =>
    simp only [legalField] at hf
    obtain ⟨hlo, hhi⟩ := hf
    simp only [tagOf, decodedValue, decodedSize, wireSize, fieldBytes, fixedWidth,
      List.length_cons, leBytes_length]
    simp only [fieldBytes, List.append_assoc, List.cons_append] at hdata
    have hh := headerByte_spec 4 (by norm_num) 0 (by norm_num)
    have hlen1 : dec.data.length = pre.length + 1 + (4 + rest.length) := by
      rw [hdata]
      simp [leBytes_length]
      omega
    have hb1 : dec.position + 1 + 4 ≤ dec.size := by
      rw [hpos, hsz]; omega
    have hb2 : dec.size < SIZE_MOD := by
      rw [hsz]; omega
    rw [sctp_decoder_next, if_neg (by rw [hpos, hsz]; omega)]
    rw [read_byte_at dec pre (headerByte 4 0)
        (leBytes 4 (v % (2 ^ 32 : Nat) : Int).toNat ++ rest) hdata hsz hpos]
    simp only [hh.1, hh.2.1, fixedWidth]
    rw [read_data_ok { dec with position := dec.position + 1, last_type := 4 } 4 hb1 hb2]
    have hval : leVal dec.data (dec.position + 1) 4 = (v % (2 ^ 32 : Nat) : Int).toNat := by
      rw [hpos]
      exact leVal_at pre (headerByte 4 0) 4 _ rest dec.data hdata (by
        have h1 : (0 : Int) ≤ v % ((2 ^ 32 : Nat) : Int) := Int.emod_nonneg v (by positivity)
        have h2 : v % ((2 ^ 32 : Nat) : Int) < ((2 ^ 32 : Nat) : Int) :=
          Int.emod_lt_of_pos v (by positivity)
        omega)
    simp only [hval, fixedValue]
    rw [toSigned_emod 32 (by norm_num) v (by norm_num; omega) (by norm_num; omega)]
    rw [hpos]
  | fInt64 v =>
    simp only [legalField] at hf
    obtain ⟨hlo, hhi⟩ := hf
    simp only [tagOf, decodedValue, decodedSize, wireSize, fieldBytes, fixedWidth,
      List.length_cons, leBytes_length]
    simp only [fieldBytes, List.append_assoc, List.cons_append] at hdata
    have hh := headerByte_spec 6 (by norm_num) 0 (by norm_num)
    have hlen1 : dec.data.length = pre.length + 1 + (8 + rest.length) := by
      rw [hdata]
      simp [leBytes_length]
      omega
    have hb1 : dec.position + 1 + 8 ≤ dec.size := by
      rw [hpos, hsz]; omega
    have hb2 : dec.size < SIZE_MOD := by
      rw [hsz]; omega
    rw [sctp_decoder_next, if_neg (by rw [hpos, hsz]; omega)]
    rw [read_byte_at dec pre (headerByte 6 0)
        (leBytes 8 (v % (2 ^ 64 : Nat) : Int).toNat ++ rest) hdata hsz hpos]
    simp only [hh.1, hh.2.1, fixedWidth]
    rw [read_data_ok { dec with position := dec.position + 1, last_type := 6 } 8 hb1 hb2]
    have hval : leVal dec.data (dec.position + 1) 8 = (v % (2 ^ 64 : Nat) : Int).toNat := by
      rw [hpos]
      exact leVal_at pre (headerByte 6 0) 8 _ rest dec.data hdata (by
        have h1 : (0 : Int) ≤ v % ((2 ^ 64 : Nat) : Int) := Int.emod_nonneg v (by positivity)
        have h2 : v % ((2 ^ 64 : Nat) : Int) < ((2 ^ 64 : Nat) : Int) :=
          Int.emod_lt_of_pos v (by positivity)
        omega)
    simp only [hval, fixedValue]
    rw [toSigned_emod 64 (by norm_num) v (by norm_num; omega) (by norm_num; omega)]
    rw [hpos]
  | fUInt8 v =>
    simp only [legalField] at hf
    simp only [tagOf, decodedValue, decodedSize, wireSize, fieldBytes, fixedWidth,
      List.length_cons, leBytes_length]
    simp only [fieldBytes, List.append_assoc, List.cons_append] at hdata
    have hh := headerByte_spec 1 (by norm_num) 0 (by norm_num)
    have hlen1 : dec.data.length = pre.length + 1 + (1 + rest.length) := by
      rw [hdata]
      simp [leBytes_length]
      omega
    have hb1 : dec.position + 1 + 1 ≤ dec.size := by
      rw [hpos, hsz]; omega
    have hb2 : dec.size < SIZE_MOD := by
      rw [hsz]; omega
    rw [sctp_decoder_next, if_neg (by rw [hpos, hsz]; omega)]
    rw [read_byte_at dec pre (headerByte 1 0) (leBytes 1 (v % 2 ^ 8) ++ rest) hdata hsz hpos]
    simp only [hh.1, hh.2.1, fixedWidth]
    rw [read_data_ok { dec with position := dec.position + 1, last_type := 1 } 1 hb1 hb2]
    have hval : leVal dec.data (dec.position + 1) 1 = v := by
      rw [hpos]
      have h := leVal_at pre (headerByte 1 0) 1 (v % 2 ^ 8) rest dec.data hdata
        (by simpa using Nat.mod_lt v (show 0 < 2 ^ 8 by norm_num))
      rw [h]
      omega
    simp only [hval, fixedValue]
    rw [hpos]
  | fUInt16 v =>
    simp only [legalField] at hf
    simp only [tagOf, decodedValue, decodedSize, wireSize, fieldBytes, fixedWidth,
      List.length_cons, leBytes_length]
    simp only [fieldBytes, List.append_assoc, List.cons_append] at hdata
    have hh := headerByte_spec 3 (by norm_num) 0 (by norm_num)
    have hlen1 : dec.data.length = pre.length + 1 + (2 + rest.length) := by
      rw [hdata]
      simp [leBytes_length]
      omega
    have hb1 : dec.position + 1 + 2 ≤ dec.size := by
      rw [hpos, hsz]; omega
    have hb2 : dec.size < SIZE_MOD := by
      rw [hsz]; omega
    rw [sctp_decoder_next, if_neg (by rw [hpos, hsz]; omega)]
    rw [read_byte_at dec pre (headerByte 3 0) (leBytes 2 (v % 2 ^ 16) ++ rest) hdata hsz hpos]
    simp only [hh.1, hh.2.1, fixedWidth]
    rw [read_data_ok { dec with position := dec.position + 1, last_type := 3 } 2 hb1 hb2]
    have hval : leVal dec.data (dec.position + 1) 2 = v := by
      rw [hpos]
      have h := leVal_at pre (headerByte 3 0) 2 (v % 2 ^ 16) rest dec.data hdata
        (by simpa using Nat.mod_lt v (show 0 < 2 ^ 16 by norm_num))
      rw [h]
      omega
    simp only [hval, fixedValue]
    rw [hpos]
  | fUInt32 v =>
    simp only [legalField] at hf
    simp only [tagOf, decodedValue, decodedSize, wireSize, fieldBytes, fixedWidth,
      List.length_cons, leBytes_length]
    simp only [fieldBytes, List.append_assoc, List.cons_append] at hdata
    have hh := headerByte_spec 5 (by norm_num) 0 (by norm_num)
    have hlen1 : dec.data.length = pre.length + 1 + (4 + rest.length) := by
      rw [hdata]
      simp [leBytes_length]
      omega
    have hb1 : dec.position + 1 + 4 ≤ dec.size := by
      rw [hpos, hsz]; omega
    have hb2 : dec.size < SIZE_MOD := by
      rw [hsz]; omega
    rw [sctp_decoder_next, if_neg (by rw [hpos, hsz]; omega)]
    rw [read_byte_at dec pre (headerByte 5 0) (leBytes 4 (v % 2 ^ 32) ++ rest) hdata hsz hpos]
    simp only [hh.1, hh.2.1, fixedWidth]
    rw [read_data_ok { dec with position := dec.position + 1, last_type := 5 } 4 hb1 hb2]
    have hval : leVal dec.data (dec.position + 1) 4 = v := by
      rw [hpos]
      have h := leVal_at pre (headerByte 5 0) 4 (v % 2 ^ 32) rest dec.data hdata
        (by simpa using Nat.mod_lt v (show 0 < 2 ^ 32 by norm_num))
      rw [h]
      omega
    simp only [hval, fixedValue]
    rw [hpos]
  | fUInt64 v =>
    simp only [legalField] at hf
    simp only [tagOf, decodedValue, decodedSize, wireSize, fieldBytes, fixedWidth,
      List.length_cons, leBytes_length]
    simp only [fieldBytes, List.append_assoc, List.cons_append] at hdata
    have hh := headerByte_spec 7 (by norm_num) 0 (by norm_num)
    have hlen1 : dec.data.length = pre.length + 1 + (8 + rest.length) := by
      rw [hdata]
      simp [leBytes_length]
      omega
    have hb1 : dec.position + 1 + 8 ≤ dec.size := by
      rw [hpos, hsz]; omega
    have hb2 : dec.size < SIZE_MOD := by
      rw [hsz]; omega
    rw [sctp_decoder_next, if_neg (by rw [hpos, hsz]; omega)]
    rw [read_byte_at dec pre (headerByte 7 0) (leBytes 8 (v % 2 ^ 64) ++ rest) hdata hsz hpos]
    simp only [hh.1, hh.2.1, fixedWidth]
    rw [read_data_ok { dec with position := dec.position + 1, last_type := 7 } 8 hb1 hb2]
    have hval : leVal dec.data (dec.position + 1) 8 = v := by
      rw [hpos]
      have h := leVal_at pre (headerByte 7 0) 8 (v % 2 ^ 64) rest dec.data hdata
        (by simpa using Nat.mod_lt v (show 0 < 2 ^ 64 by norm_num))
      rw [h]
      omega
    simp only [hval, fixedValue]
    rw [hpos]
  | fFloat32 v =>
    simp only [legalField] at hf
    simp only [tagOf, decodedValue, decodedSize, wireSize, fieldBytes, fixedWidth,
      List.length_cons, leBytes_length]
    simp only [fieldBytes, List.append_assoc, List.cons_append] at hdata
    have hh := headerByte_spec 10 (by norm_num) 0 (by norm_num)
    have hlen1 : dec.data.length = pre.length + 1 + (4 + rest.length) := by
      rw [hdata]
      simp [leBytes_length]
      omega
    have hb1 : dec.position + 1 + 4 ≤ dec.size := by
      rw [hpos, hsz]; omega
    have hb2 : dec.size < SIZE_MOD := by
      rw [hsz]; omega
    rw [sctp_decoder_next, if_neg (by rw [hpos, hsz]; omega)]
    rw [read_byte_at dec pre (headerByte 10 0) (leBytes 4 (v % 2 ^ 32) ++ rest) hdata hsz hpos]
    simp only [hh.1, hh.2.1, fixedWidth]
    rw [read_data_ok { dec with position := dec.position + 1, last_type := 10 } 4 hb1 hb2]
    have hval : leVal dec.data (dec.position + 1) 4 = v := by
      rw [hpos]
      have h := leVal_at pre (headerByte 10 0) 4 (v % 2 ^ 32) rest dec.data hdata
        (by simpa using Nat.mod_lt v (show 0 < 2 ^ 32 by norm_num))
      rw [h]
      omega
    simp only [hval, fixedValue]
    rw [hpos]
  | fFloat64 v =>
    simp only [legalField] at hf
    simp only [tagOf, decodedValue, decodedSize, wireSize, fieldBytes, fixedWidth,
      List.length_cons, leBytes_length]
    simp only [fieldBytes, List.append_assoc, List.cons_append] at hdata
    have hh := headerByte_spec 11 (by norm_num) 0 (by norm_num)
    have hlen1 : dec.data.length = pre.length + 1 + (8 + rest.length) := by
      rw [hdata]
      simp [leBytes_length]
      omega
    have hb1 : dec.position + 1 + 8 ≤ dec.size := by
      rw [hpos, hsz]; omega
    have hb2 : dec.size < SIZE_MOD := by
      rw [hsz]; omega
    rw [sctp_decoder_next, if_neg (by rw [hpos, hsz]; omega)]
    rw [read_byte_at dec pre (headerByte 11 0) (leBytes 8 (v % 2 ^ 64) ++ rest) hdata hsz hpos]
    simp only [hh.1, hh.2.1, fixedWidth]
    rw [read_data_ok { dec with position := dec.position + 1, last_type := 11 } 8 hb1 hb2]
    have hval : leVal dec.data (dec.position + 1) 8 = v := by
      rw [hpos]
      have h := leVal_at pre (headerByte 11 0) 8 (v % 2 ^ 64) rest dec.data hdata
        (by simpa using Nat.mod_lt v (show 0 < 2 ^ 64 by norm_num))
      rw [h]
      omega
    simp only [hval, fixedValue]
    rw [hpos]
  | fUleb v =>
    simp only [legalField] at hf
    have hmod : v % 2 ^ 64 = v := Nat.mod_eq_of_lt hf
    simp only [tagOf, decodedValue, decodedSize, wireSize, fieldBytes, hmod, List.length_cons]
    simp only [fieldBytes, hmod, List.append_assoc, List.cons_append] at hdata
    have hh := headerByte_spec 8 (by norm_num) 0 (by norm_num)
    have hlen1 : dec.data.length = pre.length + 1 + ((uleb_bytes v).length + rest.length) := by
      rw [hdata]
      simp
      omega
    rw [sctp_decoder_next, if_neg (by rw [hpos, hsz]; omega)]
    rw [read_byte_at dec pre (headerByte 8 0) (uleb_bytes v ++ rest) hdata hsz hpos]
    simp only [hh.1, hh.2.1]
    rw [read_uleb128_at v (pre ++ [headerByte 8 0]) rest
        { dec with position := dec.position + 1, last_type := 8 }
        (pre.length + ((uleb_bytes v).length + 1)) hf
        (by simpa using hdata) hsz (by simp [hpos])
        (by simp only [List.length_append, List.length_singleton]; omega)]
  | fSleb v =>
    simp only [legalField] at hf
    obtain ⟨hlo, hhi⟩ := hf
    simp only [tagOf, decodedValue, decodedSize, wireSize, fieldBytes, List.length_cons]
    simp only [fieldBytes, List.append_assoc, List.cons_append] at hdata
    have hh := headerByte_spec 9 (by norm_num) 0 (by norm_num)
    have hlen1 : dec.data.length = pre.length + 1 + ((sleb_bytes v).length + rest.length) := by
      rw [hdata]
      simp
      omega
    rw [sctp_decoder_next, if_neg (by rw [hpos, hsz]; omega)]
    rw [read_byte_at dec pre (headerByte 9 0) (sleb_bytes v ++ rest) hdata hsz hpos]
    simp only [hh.1, hh.2.1]
    rw [read_sleb128_at v (pre ++ [headerByte 9 0]) rest
        { dec with position := dec.position + 1, last_type := 9 }
        (pre.length + ((sleb_bytes v).length + 1)) hlo hhi
        (by simpa using hdata) hsz (by simp [hpos])
        (by simp only [List.length_append, List.length_singleton]; omega)]
  | fShort v =>
    simp only [legalField] at hf
    simp only [tagOf, decodedValue, decodedSize, wireSize, fieldBytes, List.length_singleton]
    simp only [fieldBytes, List.append_assoc, List.singleton_append, List.cons_append] at hdata
    have hh := headerByte_spec 12 (by norm_num) v (by omega)
    have hlen1 : dec.data.length = pre.length + 1 + rest.length := by
      rw [hdata]
      simp
      omega
    rw [sctp_decoder_next, if_neg (by rw [hpos, hsz]; omega)]
    rw [read_byte_at dec pre (headerByte 12 v) rest hdata hsz hpos]
    simp only [hh.1, hh.2.1]
    rw [hpos]
  | fVector bs =>
    simp only [legalField] at hf
    have hS : SIZE_MOD = 2 ^ 32 := rfl
    rcases Nat.lt_or_ge bs.length 15 with hsm | hlg
    · simp only [tagOf, decodedValue, decodedSize, wireSize, headerSize, fieldBytes,
        if_pos hsm, List.length_append, List.length_singleton, List.singleton_append,
        List.length_cons]
      simp only [fieldBytes, if_pos hsm, List.append_assoc, List.singleton_append,
        List.cons_append] at hdata
      have hh := headerByte_spec 13 (by norm_num) bs.length (by omega)
      have hlen1 : dec.data.length = pre.length + 1 + (bs.length + rest.length) := by
        rw [hdata]
        simp
        omega
      rw [sctp_decoder_next, if_neg (by rw [hpos, hsz]; omega)]
      rw [read_byte_at dec pre (headerByte 13 bs.length) (bs ++ rest) hdata hsz hpos]
      simp only [hh.1, hh.2.1, if_neg (show ¬bs.length = 15 by omega),
        read_data_at { dec with position := dec.position + 1, last_type := 13 } bs.length
          (pre.length + 1) (pre.length + (bs.length + 1))
          (by rw [hpos]) (by omega)
          (show pre.length + 1 + bs.length ≤ dec.size by rw [hsz]; omega)
          (show dec.size < SIZE_MOD by rw [hsz]; omega)]
    · simp only [tagOf, decodedValue, decodedSize, wireSize, headerSize, fieldBytes,
        if_neg (show ¬bs.length < 15 by omega), List.length_append, List.length_cons,
        List.cons_append]
      simp only [fieldBytes, if_neg (show ¬bs.length < 15 by omega), List.append_assoc,
        List.cons_append] at hdata
      have hh := headerByte_spec 13 (by norm_num) 15 (by norm_num)
      have hlen1 : dec.data.length
          = pre.length + 1 + ((uleb_bytes bs.length).length + (bs.length + rest.length)) := by
        rw [hdata]
        simp
        omega
      rw [sctp_decoder_next, if_neg (by rw [hpos, hsz]; omega)]
      rw [read_byte_at dec pre (headerByte 13 15) (uleb_bytes bs.length ++ (bs ++ rest))
        hdata hsz hpos]
      simp only [hh.1, hh.2.1, if_pos rfl, if_true,
        read_uleb128_at bs.length (pre ++ [headerByte 13 15]) (bs ++ rest)
          { dec with position := dec.position + 1, last_type := 13 }
          (pre.length + (1 + (uleb_bytes bs.length).length))
          (by omega) (by simpa using hdata) hsz (by simp [hpos])
          (by simp only [List.length_append, List.length_singleton]; omega),
        Nat.mod_eq_of_lt (show bs.length < SIZE_MOD by omega),
        read_data_at
          { dec with
            position := pre.length + (1 + (uleb_bytes bs.length).length),
            last_type := 13 } bs.length
          (pre.length + (1 + (uleb_bytes bs.length).length))
          (pre.length + ((uleb_bytes bs.length).length + bs.length + 1))
          rfl (by omega)
          (show pre.length + (1 + (uleb_bytes bs.length).length) + bs.length ≤ dec.size by
            rw [hsz]; omega)
          (show dec.size < SIZE_MOD by rw [hsz]; omega)]


/-- `_sctp_decoder_read_byte` at an arbitrary in-bounds cursor. -/
theorem read_byte_any (dec : sctp_decoder) (h : dec.position < dec.size) :
    _sctp_decoder_read_byte dec =
      some (dec.data.getD dec.position 0, { dec with position := dec.position + 1 }) := by
  unfold _sctp_decoder_read_byte
  rw [if_neg (by omega)]

/-- ULEB128 loop, success: `k` continuation bytes then a terminating byte,
all in bounds, with the shift staying below 64 — the result is the OR of the
7-bit groups at increasing shifts. -/
theorem uleb_go_stops (k : Nat) : ∀ (s acc : Nat) (dec : sctp_decoder),
    s + 7 * k ≤ 63 →
    dec.size = dec.data.length →
    dec.position + k < dec.size →
    (∀ i, i < k → dec.data.getD (dec.position + i) 0 &&& 0x80 ≠ 0) →
    dec.data.getD (dec.position + k) 0 &&& 0x80 = 0 →
    _sctp_decoder_read_uleb128_go dec acc s =
      Except.ok (acc ||| uleb_sum dec.data dec.position s (k + 1),
        { dec with position := dec.position + (k + 1) }) := by
  induction k with
  | zero =>
    intro s acc dec hs hsz hin hcont hstop
    rw [_sctp_decoder_read_uleb128_go, read_byte_any dec (by omega)]
    simp only [Nat.add_zero] at hstop
    simp only [hstop, if_true, uleb_sum, Nat.or_zero]
  | succ k ih =>
    intro s acc dec hs hsz hin hcont hstop
    rw [_sctp_decoder_read_uleb128_go, read_byte_any dec (by omega)]
    have hc0 : ¬ (dec.data.getD dec.position 0 &&& 0x80 = 0) := by
      have := hcont 0 (by omega)
      simpa using this
    simp only [if_neg hc0, dif_neg (show ¬ 64 ≤ s + 7 by omega)]
    have hrec := ih (s + 7)
      (acc ||| ((dec.data.getD dec.position 0 &&& 0x7F) <<< s) % U64_MOD)
      { dec with position := dec.position + 1 }
      (by omega) hsz (by
        show dec.position + 1 + k < dec.size
        omega)
      (by intro i hi
          simpa [show dec.position + 1 + i = dec.position + (i + 1) from by omega]
            using hcont (i + 1) (by omega))
      (by simpa [show dec.position + 1 + k = dec.position + (k + 1) from by omega]
            using hstop)
    conv_rhs => rw [uleb_sum]
    rw [hrec, Nat.or_assoc,
      show dec.position + 1 + (k + 1) = dec.position + (k + 1 + 1) from by omega]

/-- ULEB128 loop, overflow: every byte up to the point where the shift
reaches 64 carries the continuation bit and is in bounds — the loop fails
with Overflow. -/
theorem uleb_go_overflows (k : Nat) : ∀ (s acc : Nat) (dec : sctp_decoder),
    s + 7 * k ≤ 63 → 63 < s + 7 * (k + 1) →
    dec.size = dec.data.length →
    dec.position + k < dec.size →
    (∀ i, i ≤ k → dec.data.getD (dec.position + i) 0 &&& 0x80 ≠ 0) →
    _sctp_decoder_read_uleb128_go dec acc s = Except.error SctpErr.Overflow := by
  induction k with
  | zero =>
    intro s acc dec hs hs2 hsz hin hcont
    rw [_sctp_decoder_read_uleb128_go, read_byte_any dec (by omega)]
    have hc0 : ¬ (dec.data.getD dec.position 0 &&& 0x80 = 0) := by
      have := hcont 0 (by omega)
      simpa using this
    simp only [if_neg hc0, dif_pos (show 64 ≤ s + 7 from by omega)]
  | succ k ih =>
    intro s acc dec hs hs2 hsz hin hcont
    rw [_sctp_decoder_read_uleb128_go, read_byte_any dec (by omega)]
    have hc0 : ¬ (dec.data.getD dec.position 0 &&& 0x80 = 0) := by
      have := hcont 0 (by omega)
      simpa using this
    simp only [if_neg hc0, dif_neg (show ¬ 64 ≤ s + 7 from by omega)]
    exact ih (s + 7) _ { dec with position := dec.position + 1 }
      (by omega) (by omega) hsz
      (by show dec.position + 1 + k < dec.size
          omega)
      (by intro i hi
          simpa [show dec.position + 1 + i = dec.position + (i + 1) from by omega]
            using hcont (i + 1) (by omega))

/-- ULEB128 loop, truncation: the buffer ends `k` bytes after the cursor,
all of them continuation bytes, before the shift reaches 64 — the loop fails
with Truncated. -/
theorem uleb_go_truncates (k : Nat) : ∀ (s acc : Nat) (dec : sctp_decoder),
    s + 7 * k ≤ 63 →
    dec.size = dec.data.length →
    dec.position + k = dec.size →
    (∀ i, i < k → dec.data.getD (dec.position + i) 0 &&& 0x80 ≠ 0) →
    _sctp_decoder_read_uleb128_go dec acc s = Except.error SctpErr.Truncated := by
  induction k with
  | zero =>
    intro s acc dec hs hsz hend hcont
    rw [_sctp_decoder_read_uleb128_go]
    unfold _sctp_decoder_read_byte
    rw [if_pos (by omega)]
  | succ k ih =>
    intro s acc dec hs hsz hend hcont
    rw [_sctp_decoder_read_uleb128_go, read_byte_any dec (by omega)]
    have hc0 : ¬ (dec.data.getD dec.position 0 &&& 0x80 = 0) := by
      have := hcont 0 (by omega)
      simpa using this
    simp only [if_neg hc0, dif_neg (show ¬ 64 ≤ s + 7 from by omega)]
    exact ih (s + 7) _ { dec with position := dec.position + 1 }
      (by omega) hsz
      (by show dec.position + 1 + k = dec.size
          omega)
      (by intro i hi
          simpa [show dec.position + 1 + i = dec.position + (i + 1) from by omega]
            using hcont (i + 1) (by omega))

/-- `write_header_ok` with cursor and result position as chosen terms. -/
theorem write_header_at (enc : sctp_encoder) (ty meta p q : Nat)
    (hp : enc.position = p) (hq : p + 1 = q)
    (hcap : p < enc.capacity) (hM : enc.capacity < SIZE_MOD) :
    _sctp_encoder_write_header enc ty meta =
      Except.ok { enc with
        buffer := enc.buffer.set p (headerByte ty meta),
        position := q } := by
  subst hq
  rw [write_header_ok enc ty meta (by omega) hM, hp]

/-- `write_data_ok` with cursor and result position as chosen terms. -/
theorem write_data_at (enc : sctp_encoder) (bs : List Nat) (p q : Nat)
    (hp : enc.position = p) (hq : p + bs.length = q)
    (hcap : p + bs.length ≤ enc.capacity) (hM : enc.capacity < SIZE_MOD) :
    _sctp_encoder_write_data enc bs =
      Except.ok { enc with
        buffer := writeBytes enc.buffer p bs,
        position := q } := by
  subst hq
  rw [write_data_ok enc bs (by omega) hM, hp]

/-- `write_uleb128_ok` with cursor and result position as chosen terms. -/
theorem write_uleb128_at (enc : sctp_encoder) (v : Nat) (p q : Nat)
    (hp : enc.position = p) (hq : p + (uleb_bytes v).length = q)
    (hcap : p + (uleb_bytes v).length ≤ enc.capacity) (hM : enc.capacity < SIZE_MOD) :
    _sctp_encoder_write_uleb128 enc v =
      Except.ok { enc with
        buffer := writeBytes enc.buffer p (uleb_bytes v),
        position := q } := by
  subst hq
  rw [write_uleb128_ok v enc (by omega) hM, hp]

/-- `write_sleb128_ok` with cursor and result position as chosen terms. -/
theorem write_sleb128_at (enc : sctp_encoder) (v : Int) (p q : Nat)
    (hp : enc.position = p) (hq : p + (sleb_bytes v).length = q)
    (hcap : p + (sleb_bytes v).length ≤ enc.capacity) (hM : enc.capacity < SIZE_MOD) :
    _sctp_encoder_write_sleb128 enc v =
      Except.ok { enc with
        buffer := writeBytes enc.buffer p (sleb_bytes v),
        position := q } := by
  subst hq
  rw [write_sleb128_ok v enc (by omega) hM, hp]

/-- A header byte is already reduced modulo 256. -/
theorem headerByte_mod (ty meta : Nat) : headerByte ty meta % 256 = headerByte ty meta :=
  Nat.mod_mod_of_dvd _ dvd_rfl

/-- `memcpy` of a concatenation is two consecutive `memcpy`s. -/
theorem writeBytes_append (l1 : List Nat) : ∀ (l2 buf : List Nat) (pos : Nat),
    writeBytes buf pos (l1 ++ l2) = writeBytes (writeBytes buf pos l1) (pos + l1.length) l2 := by
  induction l1 with
  | nil => intro l2 buf pos; simp [writeBytes]
  | cons b bs ih =>
    intro l2 buf pos
    rw [List.cons_append, writeBytes, ih, writeBytes]
    rw [show pos + 1 + bs.length = pos + (b :: bs).length from by
      simp only [List.length_cons]; omega]

set_option maxHeartbeats 3200000 in
/-- Encoding one legal field into an encoder with room for it: the add
operation succeeds, writes exactly the field's wire bytes at the cursor and
advances the cursor by the wire size. -/
theorem encodeField_ok (f : fieldv) (enc : sctp_encoder) (hf : legalField f)
    (hcap : enc.position + wireSize f ≤ enc.capacity) (hM : enc.capacity < SIZE_MOD) :
    encodeField enc f = Except.ok { enc with
      buffer := writeBytes enc.buffer enc.position (fieldBytes f),
      position := enc.position + wireSize f } := by
  cases f with
  | fInt8 v =>
    have hw : enc.position + (1 + 1) ≤ enc.capacity := by
      simpa [wireSize, fieldBytes, leBytes_length] using hcap
    simp only [encodeField, sctp_encoder_add_int8, sctp_encoder_add_fixed,
      write_header_at enc 0 0 enc.position (enc.position + 1) rfl rfl (by omega) hM,
      write_data_at
        { enc with
          buffer := enc.buffer.set enc.position (headerByte 0 0),
          position := enc.position + 1 } (leBytes 1 ((v % (2 ^ 8)).toNat))
        (enc.position + 1) (enc.position + wireSize (fieldv.fInt8 v))
        rfl
        (by simp only [wireSize, fieldBytes, List.length_cons, leBytes_length])
        (by show enc.position + 1 + (leBytes 1 ((v % (2 ^ 8)).toNat)).length ≤ enc.capacity
            simp only [leBytes_length]
            omega) hM]
    rfl
  | fInt16 v =>
    have hw : enc.position + (2 + 1) ≤ enc.capacity := by
      simpa [wireSize, fieldBytes, leBytes_length] using hcap
    simp only [encodeField, sctp_encoder_add_int16, sctp_encoder_add_fixed,
      write_header_at enc 2 0 enc.position (enc.position + 1) rfl rfl (by omega) hM,
      write_data_at
        { enc with
          buffer := enc.buffer.set enc.position (headerByte 2 0),
          position := enc.position + 1 } (leBytes 2 ((v % (2 ^ 16)).toNat))
        (enc.position + 1) (enc.position + wireSize (fieldv.fInt16 v))
        rfl
        (by simp only [wireSize, fieldBytes, List.length_cons, leBytes_length])
        (by show enc.position + 1 + (leBytes 2 ((v % (2 ^ 16)).toNat)).length ≤ enc.capacity
            simp only [leBytes_length]
            omega) hM]
    rfl
  | fInt32 v =>
    have hw : enc.position + (4 + 1) ≤ enc.capacity := by
      simpa [wireSize, fieldBytes, leBytes_length] using hcap
    simp only [encodeField, sctp_encoder_add_int32, sctp_encoder_add_fixed,
      write_header_at enc 4 0 enc.position (enc.position + 1) rfl rfl (by omega) hM,
      write_data_at
        { enc with
          buffer := enc.buffer.set enc.position (headerByte 4 0),
          position := enc.position + 1 } (leBytes 4 ((v % (2 ^ 32)).toNat))
        (enc.position + 1) (enc.position + wireSize (fieldv.fInt32 v))
        rfl
        (by simp only [wireSize, fieldBytes, List.length_cons, leBytes_length])
        (by show enc.position + 1 + (leBytes 4 ((v % (2 ^ 32)).toNat)).length ≤ enc.capacity
            simp only [leBytes_length]
            omega) hM]
    rfl
  | fInt64 v =>
    have hw : enc.position + (8 + 1) ≤ enc.capacity := by
      simpa [wireSize, fieldBytes, leBytes_length] using hcap
    simp only [encodeField, sctp_encoder_add_int64, sctp_encoder_add_fixed,
      write_header_at enc 6 0 enc.position (enc.position + 1) rfl rfl (by omega) hM,
      write_data_at
        { enc with
          buffer := enc.buffer.set enc.position (headerByte 6 0),
          position := enc.position + 1 } (leBytes 8 ((v % (2 ^ 64)).toNat))
        (enc.position + 1) (enc.position + wireSize (fieldv.fInt64 v))
        rfl
        (by simp only [wireSize, fieldBytes, List.length_cons, leBytes_length])
        (by show enc.position + 1 + (leBytes 8 ((v % (2 ^ 64)).toNat)).length ≤ enc.capacity
            simp only [leBytes_length]
            omega) hM]
    rfl
  | fUInt8 v =>
    have hw : enc.position + (1 + 1) ≤ enc.capacity := by
      simpa [wireSize, fieldBytes, leBytes_length] using hcap
    simp only [encodeField, sctp_encoder_add_uint8, sctp_encoder_add_fixed,
      write_header_at enc 1 0 enc.position (enc.position + 1) rfl rfl (by omega) hM,
      write_data_at
        { enc with
          buffer := enc.buffer.set enc.position (headerByte 1 0),
          position := enc.position + 1 } (leBytes 1 (v % 2 ^ 8))
        (enc.position + 1) (enc.position + wireSize (fieldv.fUInt8 v))
        rfl
        (by simp only [wireSize, fieldBytes, List.length_cons, leBytes_length])
        (by show enc.position + 1 + (leBytes 1 (v % 2 ^ 8)).length ≤ enc.capacity
            simp only [leBytes_length]
            omega) hM]
    rfl
  | fUInt16 v =>
    have hw : enc.position + (2 + 1) ≤ enc.capacity := by
      simpa [wireSize, fieldBytes, leBytes_length] using hcap
    simp only [encodeField, sctp_encoder_add_uint16, sctp_encoder_add_fixed,
      write_header_at enc 3 0 enc.position (enc.position + 1) rfl rfl (by omega) hM,
      write_data_at
        { enc with
          buffer := enc.buffer.set enc.position (headerByte 3 0),
          position := enc.position + 1 } (leBytes 2 (v % 2 ^ 16))
        (enc.position + 1) (enc.position + wireSize (fieldv.fUInt16 v))
        rfl
        (by simp only [wireSize, fieldBytes, List.length_cons, leBytes_length])
        (by show enc.position + 1 + (leBytes 2 (v % 2 ^ 16)).length ≤ enc.capacity
            simp only [leBytes_length]
            omega) hM]
    rfl
  | fUInt32 v =>
    have hw : enc.position + (4 + 1) ≤ enc.capacity := by
      simpa [wireSize, fieldBytes, leBytes_length] using hcap
    simp only [encodeField, sctp_encoder_add_uint32, sctp_encoder_add_fixed,
      write_header_at enc 5 0 enc.position (enc.position + 1) rfl rfl (by omega) hM,
      write_data_at
        { enc with
          buffer := enc.buffer.set enc.position (headerByte 5 0),
          position := enc.position + 1 } (leBytes 4 (v % 2 ^ 32))
        (enc.position + 1) (enc.position + wireSize (fieldv.fUInt32 v))
        rfl
        (by simp only [wireSize, fieldBytes, List.length_cons, leBytes_length])
        (by show enc.position + 1 + (leBytes 4 (v % 2 ^ 32)).length ≤ enc.capacity
            simp only [leBytes_length]
            omega) hM]
    rfl
  | fUInt64 v =>
    have hw : enc.position + (8 + 1) ≤ enc.capacity := by
      simpa [wireSize, fieldBytes, leBytes_length] using hcap
    simp only [encodeField, sctp_encoder_add_uint64, sctp_encoder_add_fixed,
      write_header_at enc 7 0 enc.position (enc.position + 1) rfl rfl (by omega) hM,
      write_data_at
        { enc with
          buffer := enc.buffer.set enc.position (headerByte 7 0),
          position := enc.position + 1 } (leBytes 8 (v % 2 ^ 64))
        (enc.position + 1) (enc.position + wireSize (fieldv.fUInt64 v))
        rfl
        (by simp only [wireSize, fieldBytes, List.length_cons, leBytes_length])
        (by show enc.position + 1 + (leBytes 8 (v % 2 ^ 64)).length ≤ enc.capacity
            simp only [leBytes_length]
            omega) hM]
    rfl
  | fFloat32 v =>
    have hw : enc.position + (4 + 1) ≤ enc.capacity := by
      simpa [wireSize, fieldBytes, leBytes_length] using hcap
    simp only [encodeField, sctp_encoder_add_float32, sctp_encoder_add_fixed,
      write_header_at enc 10 0 enc.position (enc.position + 1) rfl rfl (by omega) hM,
      write_data_at
        { enc with
          buffer := enc.buffer.set enc.position (headerByte 10 0),
          position := enc.position + 1 } (leBytes 4 (v % 2 ^ 32))
        (enc.position + 1) (enc.position + wireSize (fieldv.fFloat32 v))
        rfl
        (by simp only [wireSize, fieldBytes, List.length_cons, leBytes_length])
        (by show enc.position + 1 + (leBytes 4 (v % 2 ^ 32)).length ≤ enc.capacity
            simp only [leBytes_length]
            omega) hM]
    rfl
  | fFloat64 v =>
    have hw : enc.position + (8 + 1) ≤ enc.capacity := by
      simpa [wireSize, fieldBytes, leBytes_length] using hcap
    simp only [encodeField, sctp_encoder_add_float64, sctp_encoder_add_fixed,
      write_header_at enc 11 0 enc.position (enc.position + 1) rfl rfl (by omega) hM,
      write_data_at
        { enc with
          buffer := enc.buffer.set enc.position (headerByte 11 0),
          position := enc.position + 1 } (leBytes 8 (v % 2 ^ 64))
        (enc.position + 1) (enc.position + wireSize (fieldv.fFloat64 v))
        rfl
        (by simp only [wireSize, fieldBytes, List.length_cons, leBytes_length])
        (by show enc.position + 1 + (leBytes 8 (v % 2 ^ 64)).length ≤ enc.capacity
            simp only [leBytes_length]
            omega) hM]
    rfl
  | fUleb v =>
    have hw : enc.position + ((uleb_bytes (v % 2 ^ 64)).length + 1) ≤ enc.capacity := by
      simpa [wireSize, fieldBytes, List.length_cons] using hcap
    simp only [encodeField, sctp_encoder_add_uleb128,
      write_header_at enc 8 0 enc.position (enc.position + 1) rfl rfl (by omega) hM,
      write_uleb128_at
        { enc with
          buffer := enc.buffer.set enc.position (headerByte 8 0),
          position := enc.position + 1 } (v % 2 ^ 64)
        (enc.position + 1) (enc.position + wireSize (fieldv.fUleb v))
        rfl
        (by simp only [wireSize, fieldBytes, List.length_cons]
            omega)
        (by show enc.position + 1 + (uleb_bytes (v % 2 ^ 64)).length ≤ enc.capacity
            omega) hM]
    rfl
  | fSleb v =>
    have hw : enc.position + ((sleb_bytes v).length + 1) ≤ enc.capacity := by
      simpa [wireSize, fieldBytes, List.length_cons] using hcap
    simp only [encodeField, sctp_encoder_add_sleb128,
      write_header_at enc 9 0 enc.position (enc.position + 1) rfl rfl (by omega) hM,
      write_sleb128_at
        { enc with
          buffer := enc.buffer.set enc.position (headerByte 9 0),
          position := enc.position + 1 } v
        (enc.position + 1) (enc.position + wireSize (fieldv.fSleb v))
        rfl
        (by simp only [wireSize, fieldBytes, List.length_cons]
            omega)
        (by show enc.position + 1 + (sleb_bytes v).length ≤ enc.capacity
            omega) hM]
    rfl
  | fShort v =>
    simp only [legalField] at hf
    have hw : enc.position + 1 ≤ enc.capacity := by
      simpa [wireSize, fieldBytes] using hcap
    simp only [encodeField, sctp_encoder_add_short, if_neg (show ¬ v > 15 by omega),
      write_header_at enc 12 v enc.position (enc.position + wireSize (fieldv.fShort v))
        rfl (by simp [wireSize, fieldBytes]) (by omega) hM,
      writeBytes, headerByte_mod]
  | fVector bs =>
    rcases Nat.lt_or_ge bs.length 15 with hsm | hlg
    · have hw : enc.position + (bs.length + 1) ≤ enc.capacity := by
        simpa [wireSize, fieldBytes, if_pos hsm] using hcap
      simp only [encodeField, sctp_encoder_add_vector, if_pos hsm,
        write_header_at enc 13 bs.length enc.position (enc.position + 1) rfl rfl (by omega) hM,
        _sctp_encoder_ensure_capacity,
        Nat.mod_eq_of_lt (show enc.position + 1 + bs.length < SIZE_MOD from by omega),
        if_neg (show ¬ enc.position + 1 + bs.length > enc.capacity from by omega),
        wireSize, fieldBytes, List.singleton_append, List.length_cons,
        writeBytes, headerByte_mod]
      rw [show enc.position + 1 + bs.length = enc.position + (bs.length + 1) from by omega]
    · have hw : enc.position + ((uleb_bytes bs.length).length + bs.length + 1) ≤ enc.capacity := by
        simpa [wireSize, fieldBytes, if_neg (show ¬ bs.length < 15 from by omega),
          List.length_cons, List.length_append] using hcap
      simp only [encodeField, sctp_encoder_add_vector,
        if_neg (show ¬ bs.length < 15 from by omega),
        write_header_at enc 13 15 enc.position (enc.position + 1) rfl rfl (by omega) hM,
        write_uleb128_at
          { enc with
            buffer := enc.buffer.set enc.position (headerByte 13 15),
            position := enc.position + 1 } bs.length
          (enc.position + 1) (enc.position + 1 + (uleb_bytes bs.length).length)
          rfl rfl
          (by show enc.position + 1 + (uleb_bytes bs.length).length ≤ enc.capacity
              omega) hM,
        _sctp_encoder_ensure_capacity,
        Nat.mod_eq_of_lt (show enc.position + 1 + (uleb_bytes bs.length).length + bs.length
          < SIZE_MOD from by omega),
        if_neg (show ¬ enc.position + 1 + (uleb_bytes bs.length).length + bs.length
          > enc.capacity from by omega),
        wireSize, fieldBytes, List.length_cons, List.length_append]
      rw [writeBytes_append, writeBytes]
      simp only [writeBytes, headerByte_mod, List.length_cons]
      rw [show enc.position + ((uleb_bytes bs.length).length + 1) =
            enc.position + 1 + (uleb_bytes bs.length).length from by omega,
          show enc.position + 1 + (uleb_bytes bs.length).length + bs.length =
            enc.position + ((uleb_bytes bs.length).length + 1 + bs.length) from by omega]


/-- No value-carrying field has the EOF type id. -/
theorem tagOf_ne_15 (f : fieldv) : tagOf f ≠ 15 := by
  cases f <;> simp [tagOf]

/-- `streamBytes` of a cons. -/
theorem streamBytes_cons (f : fieldv) (fs : List fieldv) :
    streamBytes (f :: fs) = fieldBytes f ++ streamBytes fs := by
  simp [streamBytes]

/-- The handler invocation the instance-based run assembles from the decoder
state `sctp_decoder_next` leaves behind is `eventOfNew`. -/
theorem eventOfNew_run (f : fieldv) (off p : Nat) (dec : sctp_decoder) :
    (⟨tagOf f, handlerArg { dec with
        position := p,
        last_type := tagOf f,
        last_value := decodedValue f off,
        last_size := decodedSize f },
      ({ dec with
        position := p,
        last_type := tagOf f,
        last_value := decodedValue f off,
        last_size := decodedSize f } : sctp_decoder).last_size⟩
      : event) = eventOfNew f off := by
  cases f <;> rfl

/-- Instance-based run loop, terminal step on an exhausted buffer: one final
`(EOF, NULL, 0)` handler invocation, then success. -/
theorem run_go_stops_implicit (fuel : Nat) (dec : sctp_decoder) (acc : List event)
    (h : dec.size ≤ dec.position) :
    sctp_decoder_run_go (fuel + 1) dec acc =
      some (Except.ok (acc ++ [⟨15, hptr.null, 0⟩],
        { dec with last_type := 15, last_size := 0 })) := by
  rw [sctp_decoder_run_go, sctp_decoder_next, if_pos (by omega)]
  rfl

/-- Instance-based run loop, terminal step on an explicit EOF header: one
final `(EOF, NULL, 0)` handler invocation, then success. -/
theorem run_go_stops_explicit (fuel : Nat) (pre rest : List Nat) (dec : sctp_decoder)
    (acc : List event)
    (hdata : dec.data = pre ++ headerByte 15 0 :: rest)
    (hsz : dec.size = dec.data.length) (hpos : dec.position = pre.length) :
    sctp_decoder_run_go (fuel + 1) dec acc =
      some (Except.ok (acc ++ [⟨15, hptr.null, 0⟩],
        { dec with position := pre.length + 1, last_type := 15, last_size := 0 })) := by
  have hh := headerByte_spec 15 (by norm_num) 0 (by norm_num)
  rw [sctp_decoder_run_go, sctp_decoder_next,
    if_neg (show ¬ dec.position ≥ dec.size by
      rw [hpos, hsz, hdata]
      simp only [List.length_append, List.length_cons]
      omega),
    read_byte_at dec pre (headerByte 15 0) rest hdata hsz hpos]
  simp only [hh.1, hh.2.1, if_true]
  rw [hpos]

/-- Instance-based run loop over an embedded stream of legal fields: the
loop consumes the fields one by one, appending exactly one `eventOfNew`
invocation per field, and reaches the end of the stream. -/
theorem run_go_new_mid (fs : List fieldv) : ∀ (fuel : Nat) (pre rest : List Nat)
    (dec : sctp_decoder) (acc : List event),
    legalStream fs →
    dec.data = pre ++ streamBytes fs ++ rest →
    dec.size = dec.data.length → dec.position = pre.length →
    dec.data.length < SIZE_MOD →
    ∃ d : sctp_decoder,
      sctp_decoder_run_go (fuel + fs.length) dec acc =
        sctp_decoder_run_go fuel d (acc ++ streamEventsNew fs pre.length) ∧
      d.data = dec.data ∧ d.size = dec.size ∧
      d.position = pre.length + (streamBytes fs).length := by
  induction fs with
  | nil =>
    intro fuel pre rest dec acc hleg hdata hsz hpos hlen
    refine ⟨dec, by simp [streamEventsNew, streamBytes], rfl, rfl, ?_⟩
    rw [hpos]
    simp [streamBytes]
  | cons f fs ih =>
    intro fuel pre rest dec acc hleg hdata hsz hpos hlen
    have hf : legalField f := hleg f (by simp)
    have hfs : legalStream fs := fun g hg => hleg g (by simp [hg])
    have hdata' : dec.data = pre ++ fieldBytes f ++ (streamBytes fs ++ rest) := by
      rw [hdata, streamBytes_cons]
      simp [List.append_assoc]
    have hnext := next_field_spec f pre (streamBytes fs ++ rest) dec hf hdata' hsz hpos hlen
    rw [show fuel + (f :: fs).length = (fuel + fs.length) + 1 from by
      simp only [List.length_cons]; omega]
    rw [sctp_decoder_run_go, hnext]
    simp only [if_neg (tagOf_ne_15 f)]
    rw [eventOfNew_run f pre.length (pre.length + wireSize f) dec]
    have hoff : (pre ++ fieldBytes f).length = pre.length + wireSize f := by
      simp [wireSize]
    obtain ⟨d, hrun, hd1, hd2, hd3⟩ := ih fuel (pre ++ fieldBytes f) rest
      { dec with
        position := pre.length + wireSize f,
        last_type := tagOf f,
        last_value := decodedValue f pre.length,
        last_size := decodedSize f }
      (acc ++ [eventOfNew f pre.length]) hfs
      (by show dec.data = (pre ++ fieldBytes f) ++ streamBytes fs ++ rest
          rw [hdata, streamBytes_cons]
          simp [List.append_assoc])
      hsz
      (by show pre.length + wireSize f = (pre ++ fieldBytes f).length
          rw [hoff])
      hlen
    refine ⟨d, ?_, hd1, hd2, ?_⟩
    · rw [hrun, hoff]
      congr 1
      simp [streamEventsNew]
    · rw [hd3, hoff, streamBytes_cons]
      simp only [List.length_append]
      simp [wireSize]
      omega

set_option maxHeartbeats 3200000 in
/-- One step of the legacy run loop over an embedded legal field: exactly one
handler invocation with the legacy (`eventOfOld`) provenance, then the loop
continues past the field's wire bytes. -/
theorem run_global_go_field (f : fieldv) (fuel : Nat) (pre rest : List Nat)
    (dec : sctp_decoder) (acc : List event)
    (hf : legalField f) (hdata : dec.data = pre ++ fieldBytes f ++ rest)
    (hsz : dec.size = dec.data.length) (hpos : dec.position = pre.length)
    (hlen : dec.data.length < SIZE_MOD) :
    sctp_decoder_run_global_go (fuel + 1) dec acc =
      sctp_decoder_run_global_go fuel { dec with position := pre.length + wireSize f }
        (acc ++ [eventOfOld f pre.length]) := by
  cases f with
  | fInt8 v =>
    simp only [eventOfOld, tagOf, fixedWidth, wireSize, fieldBytes,
      List.length_cons, leBytes_length]
    simp only [fieldBytes, List.append_assoc, List.cons_append] at hdata
    have hh := headerByte_spec 0 (by norm_num) 0 (by norm_num)
    have hlen1 : dec.data.length = pre.length + 1 + (1 + rest.length) := by
      rw [hdata]
      simp [leBytes_length]
      omega
    rw [sctp_decoder_run_global_go, if_pos (by rw [hpos, hsz]; omega)]
    rw [read_byte_at dec pre (headerByte 0 0) (leBytes 1 ((v % (2 ^ 8)).toNat) ++ rest) hdata hsz hpos]
    simp only [hh.1, hh.2.1, fixedWidth,
      read_data_at { dec with position := dec.position + 1 } 1
        (pre.length + 1) (pre.length + 2)
        (by rw [hpos]) (by omega)
        (show pre.length + 1 + 1 ≤ dec.size by rw [hsz]; omega)
        (show dec.size < SIZE_MOD by rw [hsz]; omega)]
  | fInt16 v =>
    simp only [eventOfOld, tagOf, fixedWidth, wireSize, fieldBytes,
      List.length_cons, leBytes_length]
    simp only [fieldBytes, List.append_assoc, List.cons_append] at hdata
    have hh := headerByte_spec 2 (by norm_num) 0 (by norm_num)
    have hlen1 : dec.data.length = pre.length + 1 + (2 + rest.length) := by
      rw [hdata]
      simp [leBytes_length]
      omega
    rw [sctp_decoder_run_global_go, if_pos (by rw [hpos, hsz]; omega)]
    rw [read_byte_at dec pre (headerByte 2 0) (leBytes 2 ((v % (2 ^ 16)).toNat) ++ rest) hdata hsz hpos]
    simp only [hh.1, hh.2.1, fixedWidth,
      read_data_at { dec with position := dec.position + 1 } 2
        (pre.length + 1) (pre.length + 3)
        (by rw [hpos]) (by omega)
        (show pre.length + 1 + 2 ≤ dec.size by rw [hsz]; omega)
        (show dec.size < SIZE_MOD by rw [hsz]; omega)]
  | fInt32 v =>
    simp only [eventOfOld, tagOf, fixedWidth, wireSize, fieldBytes,
      List.length_cons, leBytes_length]
    simp only [fieldBytes, List.append_assoc, List.cons_append] at hdata
    have hh := headerByte_spec 4 (by norm_num) 0 (by norm_num)
    have hlen1 : dec.data.length = pre.length + 1 + (4 + rest.length) := by
      rw [hdata]
      simp [leBytes_length]
      omega
    rw [sctp_decoder_run_global_go, if_pos (by rw [hpos, hsz]; omega)]
    rw [read_byte_at dec pre (headerByte 4 0) (leBytes 4 ((v % (2 ^ 32)).toNat) ++ rest) hdata hsz hpos]
    simp only [hh.1, hh.2.1, fixedWidth,
      read_data_at { dec with position := dec.position + 1 } 4
        (pre.length + 1) (pre.length + 5)
        (by rw [hpos]) (by omega)
        (show pre.length + 1 + 4 ≤ dec.size by rw [hsz]; omega)
        (show dec.size < SIZE_MOD by rw [hsz]; omega)]
  | fInt64 v =>
    simp only [eventOfOld, tagOf, fixedWidth, wireSize, fieldBytes,
      List.length_cons, leBytes_length]
    simp only [fieldBytes, List.append_assoc, List.cons_append] at hdata
    have hh := headerByte_spec 6 (by norm_num) 0 (by norm_num)
    have hlen1 : dec.data.length = pre.length + 1 + (8 + rest.length) := by
      rw [hdata]
      simp [leBytes_length]
      omega
    rw [sctp_decoder_run_global_go, if_pos (by rw [hpos, hsz]; omega)]
    rw [read_byte_at dec pre (headerByte 6 0) (leBytes 8 ((v % (2 ^ 64)).toNat) ++ rest) hdata hsz hpos]
    simp only [hh.1, hh.2.1, fixedWidth,
      read_data_at { dec with position := dec.position + 1 } 8
        (pre.length + 1) (pre.length + 9)
        (by rw [hpos]) (by omega)
        (show pre.length + 1 + 8 ≤ dec.size by rw [hsz]; omega)
        (show dec.size < SIZE_MOD by rw [hsz]; omega)]
  | fUInt8 v =>
    simp only [eventOfOld, tagOf, fixedWidth, wireSize, fieldBytes,
      List.length_cons, leBytes_length]
    simp only [fieldBytes, List.append_assoc, List.cons_append] at hdata
    have hh := headerByte_spec 1 (by norm_num) 0 (by norm_num)
    have hlen1 : dec.data.length = pre.length + 1 + (1 + rest.length) := by
      rw [hdata]
      simp [leBytes_length]
      omega
    rw [sctp_decoder_run_global_go, if_pos (by rw [hpos, hsz]; omega)]
    rw [read_byte_at dec pre (headerByte 1 0) (leBytes 1 (v % 2 ^ 8) ++ rest) hdata hsz hpos]
    simp only [hh.1, hh.2.1, fixedWidth,
      read_data_at { dec with position := dec.position + 1 } 1
        (pre.length + 1) (pre.length + 2)
        (by rw [hpos]) (by omega)
        (show pre.length + 1 + 1 ≤ dec.size by rw [hsz]; omega)
        (show dec.size < SIZE_MOD by rw [hsz]; omega)]
  | fUInt16 v =>
    simp only [eventOfOld, tagOf, fixedWidth, wireSize, fieldBytes,
      List.length_cons, leBytes_length]
    simp only [fieldBytes, List.append_assoc, List.cons_append] at hdata
    have hh := headerByte_spec 3 (by norm_num) 0 (by norm_num)
    have hlen1 : dec.data.length = pre.length + 1 + (2 + rest.length) := by
      rw [hdata]
      simp [leBytes_length]
      omega
    rw [sctp_decoder_run_global_go, if_pos (by rw [hpos, hsz]; omega)]
    rw [read_byte_at dec pre (headerByte 3 0) (leBytes 2 (v % 2 ^ 16) ++ rest) hdata hsz hpos]
    simp only [hh.1, hh.2.1, fixedWidth,
      read_data_at { dec with position := dec.position + 1 } 2
        (pre.length + 1) (pre.length + 3)
        (by rw [hpos]) (by omega)
        (show pre.length + 1 + 2 ≤ dec.size by rw [hsz]; omega)
        (show dec.size < SIZE_MOD by rw [hsz]; omega)]
  | fUInt32 v =>
    simp only [eventOfOld, tagOf, fixedWidth, wireSize, fieldBytes,
      List.length_cons, leBytes_length]
    simp only [fieldBytes, List.append_assoc, List.cons_append] at hdata
    have hh := headerByte_spec 5 (by norm_num) 0 (by norm_num)
    have hlen1 : dec.data.length = pre.length + 1 + (4 + rest.length) := by
      rw [hdata]
      simp [leBytes_length]
      omega
    rw [sctp_decoder_run_global_go, if_pos (by rw [hpos, hsz]; omega)]
    rw [read_byte_at dec pre (headerByte 5 0) (leBytes 4 (v % 2 ^ 32) ++ rest) hdata hsz hpos]
    simp only [hh.1, hh.2.1, fixedWidth,
      read_data_at { dec with position := dec.position + 1 } 4
        (pre.length + 1) (pre.length + 5)
        (by rw [hpos]) (by omega)
        (show pre.length + 1 + 4 ≤ dec.size by rw [hsz]; omega)
        (show dec.size < SIZE_MOD by rw [hsz]; omega)]
  | fUInt64 v =>
    simp only [eventOfOld, tagOf, fixedWidth, wireSize, fieldBytes,
      List.length_cons, leBytes_length]
    simp only [fieldBytes, List.append_assoc, List.cons_append] at hdata
    have hh := headerByte_spec 7 (by norm_num) 0 (by norm_num)
    have hlen1 : dec.data.length = pre.length + 1 + (8 + rest.length) := by
      rw [hdata]
      simp [leBytes_length]
      omega
    rw [sctp_decoder_run_global_go, if_pos (by rw [hpos, hsz]; omega)]
    rw [read_byte_at dec pre (headerByte 7 0) (leBytes 8 (v % 2 ^ 64) ++ rest) hdata hsz hpos]
    simp only [hh.1, hh.2.1, fixedWidth,
      read_data_at { dec with position := dec.position + 1 } 8
        (pre.length + 1) (pre.length + 9)
        (by rw [hpos]) (by omega)
        (show pre.length + 1 + 8 ≤ dec.size by rw [hsz]; omega)
        (show dec.size < SIZE_MOD by rw [hsz]; omega)]
  | fFloat32 v =>
    simp only [eventOfOld, tagOf, fixedWidth, wireSize, fieldBytes,
      List.length_cons, leBytes_length]
    simp only [fieldBytes, List.append_assoc, List.cons_append] at hdata
    have hh := headerByte_spec 10 (by norm_num) 0 (by norm_num)
    have hlen1 : dec.data.length = pre.length + 1 + (4 + rest.length) := by
      rw [hdata]
      simp [leBytes_length]
      omega
    rw [sctp_decoder_run_global_go, if_pos (by rw [hpos, hsz]; omega)]
    rw [read_byte_at dec pre (headerByte 10 0) (leBytes 4 (v % 2 ^ 32) ++ rest) hdata hsz hpos]
    simp only [hh.1, hh.2.1, fixedWidth,
      read_data_at { dec with position := dec.position + 1 } 4
        (pre.length + 1) (pre.length + 5)
        (by rw [hpos]) (by omega)
        (show pre.length + 1 + 4 ≤ dec.size by rw [hsz]; omega)
        (show dec.size < SIZE_MOD by rw [hsz]; omega)]
  | fFloat64 v =>
    simp only [eventOfOld, tagOf, fixedWidth, wireSize, fieldBytes,
      List.length_cons, leBytes_length]
    simp only [fieldBytes, List.append_assoc, List.cons_append] at hdata
    have hh := headerByte_spec 11 (by norm_num) 0 (by norm_num)
    have hlen1 : dec.data.length = pre.length + 1 + (8 + rest.length) := by
      rw [hdata]
      simp [leBytes_length]
      omega
    rw [sctp_decoder_run_global_go, if_pos (by rw [hpos, hsz]; omega)]
    rw [read_byte_at dec pre (headerByte 11 0) (leBytes 8 (v % 2 ^ 64) ++ rest) hdata hsz hpos]
    simp only [hh.1, hh.2.1, fixedWidth,
      read_data_at { dec with position := dec.position + 1 } 8
        (pre.length + 1) (pre.length + 9)
        (by rw [hpos]) (by omega)
        (show pre.length + 1 + 8 ≤ dec.size by rw [hsz]; omega)
        (show dec.size < SIZE_MOD by rw [hsz]; omega)]
  | fUleb v =>
    simp only [legalField] at hf
    have hmod : v % 2 ^ 64 = v := Nat.mod_eq_of_lt hf
    simp only [eventOfOld, wireSize, fieldBytes, hmod, List.length_cons]
    simp only [fieldBytes, hmod, List.append_assoc, List.cons_append] at hdata
    have hh := headerByte_spec 8 (by norm_num) 0 (by norm_num)
    have hlen1 : dec.data.length = pre.length + 1 + ((uleb_bytes v).length + rest.length) := by
      rw [hdata]
      simp
      omega
    rw [sctp_decoder_run_global_go, if_pos (by rw [hpos, hsz]; omega)]
    rw [read_byte_at dec pre (headerByte 8 0) (uleb_bytes v ++ rest) hdata hsz hpos]
    simp only [hh.1, hh.2.1,
      read_uleb128_at v (pre ++ [headerByte 8 0]) rest
        { dec with position := dec.position + 1 }
        (pre.length + ((uleb_bytes v).length + 1)) hf
        (by simpa using hdata) hsz (by simp [hpos])
        (by simp only [List.length_append, List.length_singleton]; omega)]
  | fSleb v =>
    simp only [legalField] at hf
    obtain ⟨hlo, hhi⟩ := hf
    simp only [eventOfOld, wireSize, fieldBytes, List.length_cons]
    simp only [fieldBytes, List.append_assoc, List.cons_append] at hdata
    have hh := headerByte_spec 9 (by norm_num) 0 (by norm_num)
    have hlen1 : dec.data.length = pre.length + 1 + ((sleb_bytes v).length + rest.length) := by
      rw [hdata]
      simp
      omega
    rw [sctp_decoder_run_global_go, if_pos (by rw [hpos, hsz]; omega)]
    rw [read_byte_at dec pre (headerByte 9 0) (sleb_bytes v ++ rest) hdata hsz hpos]
    simp only [hh.1, hh.2.1,
      read_sleb128_at v (pre ++ [headerByte 9 0]) rest
        { dec with position := dec.position + 1 }
        (pre.length + ((sleb_bytes v).length + 1)) hlo hhi
        (by simpa using hdata) hsz (by simp [hpos])
        (by simp only [List.length_append, List.length_singleton]; omega)]
  | fShort v =>
    simp only [legalField] at hf
    simp only [eventOfOld, wireSize, fieldBytes, List.length_singleton]
    simp only [fieldBytes, List.append_assoc, List.singleton_append, List.cons_append] at hdata
    have hh := headerByte_spec 12 (by norm_num) v (by omega)
    have hlen1 : dec.data.length = pre.length + 1 + rest.length := by
      rw [hdata]
      simp
      omega
    rw [sctp_decoder_run_global_go, if_pos (by rw [hpos, hsz]; omega)]
    rw [read_byte_at dec pre (headerByte 12 v) rest hdata hsz hpos]
    simp only [hh.1, hh.2.1]
    rw [hpos]
  | fVector bs =>
    simp only [legalField] at hf
    have hS : SIZE_MOD = 2 ^ 32 := rfl
    rcases Nat.lt_or_ge bs.length 15 with hsm | hlg
    · simp only [eventOfOld, headerSize, wireSize, fieldBytes, if_pos hsm,
        List.length_append, List.length_singleton, List.singleton_append, List.length_cons]
      simp only [fieldBytes, if_pos hsm, List.append_assoc, List.singleton_append,
        List.cons_append] at hdata
      have hh := headerByte_spec 13 (by norm_num) bs.length (by omega)
      have hlen1 : dec.data.length = pre.length + 1 + (bs.length + rest.length) := by
        rw [hdata]
        simp
        omega
      rw [sctp_decoder_run_global_go, if_pos (by rw [hpos, hsz]; omega)]
      rw [read_byte_at dec pre (headerByte 13 bs.length) (bs ++ rest) hdata hsz hpos]
      simp only [hh.1, hh.2.1, if_neg (show ¬bs.length = 15 by omega),
        read_data_at { dec with position := dec.position + 1 } bs.length
          (pre.length + 1) (pre.length + (bs.length + 1))
          (by rw [hpos]) (by omega)
          (show pre.length + 1 + bs.length ≤ dec.size by rw [hsz]; omega)
          (show dec.size < SIZE_MOD by rw [hsz]; omega)]
    · simp only [eventOfOld, headerSize, wireSize, fieldBytes,
        if_neg (show ¬bs.length < 15 by omega), List.length_append, List.length_cons,
        List.cons_append]
      simp only [fieldBytes, if_neg (show ¬bs.length < 15 by omega), List.append_assoc,
        List.cons_append] at hdata
      have hh := headerByte_spec 13 (by norm_num) 15 (by norm_num)
      have hlen1 : dec.data.length
          = pre.length + 1 + ((uleb_bytes bs.length).length + (bs.length + rest.length)) := by
        rw [hdata]
        simp
        omega
      rw [sctp_decoder_run_global_go, if_pos (by rw [hpos, hsz]; omega)]
      rw [read_byte_at dec pre (headerByte 13 15) (uleb_bytes bs.length ++ (bs ++ rest))
        hdata hsz hpos]
      simp only [hh.1, hh.2.1, if_pos rfl, if_true,
        read_uleb128_at bs.length (pre ++ [headerByte 13 15]) (bs ++ rest)
          { dec with position := dec.position + 1 }
          (pre.length + (1 + (uleb_bytes bs.length).length))
          (by omega) (by simpa using hdata) hsz (by simp [hpos])
          (by simp only [List.length_append, List.length_singleton]; omega),
        Nat.mod_eq_of_lt (show bs.length < SIZE_MOD by omega),
        read_data_at
          { dec with position := pre.length + (1 + (uleb_bytes bs.length).length) } bs.length
          (pre.length + (1 + (uleb_bytes bs.length).length))
          (pre.length + ((uleb_bytes bs.length).length + bs.length + 1))
          rfl (by omega)
          (show pre.length + (1 + (uleb_bytes bs.length).length) + bs.length ≤ dec.size by
            rw [hsz]; omega)
          (show dec.size < SIZE_MOD by rw [hsz]; omega)]


/-- Legacy run loop, buffer exhausted: the loop returns success WITHOUT a
terminal EOF handler invocation. -/
theorem run_global_go_stops_implicit (fuel : Nat) (dec : sctp_decoder) (acc : List event)
    (h : dec.size ≤ dec.position) :
    sctp_decoder_run_global_go (fuel + 1) dec acc = some (Except.ok (acc, dec)) := by
  rw [sctp_decoder_run_global_go, if_neg (by omega)]

/-- Legacy run loop, explicit EOF header: one final `(EOF, NULL, 0)` handler
invocation, then success. -/
theorem run_global_go_stops_explicit (fuel : Nat) (pre rest : List Nat)
    (dec : sctp_decoder) (acc : List event)
    (hdata : dec.data = pre ++ headerByte 15 0 :: rest)
    (hsz : dec.size = dec.data.length) (hpos : dec.position = pre.length) :
    sctp_decoder_run_global_go (fuel + 1) dec acc =
      some (Except.ok (acc ++ [⟨15, hptr.null, 0⟩],
        { dec with position := pre.length + 1 })) := by
  have hh := headerByte_spec 15 (by norm_num) 0 (by norm_num)
  rw [sctp_decoder_run_global_go,
    if_pos (show dec.position < dec.size by
      rw [hpos, hsz, hdata]
      simp only [List.length_append, List.length_cons]
      omega),
    read_byte_at dec pre (headerByte 15 0) rest hdata hsz hpos]
  simp only [hh.1, hh.2.1]
  rw [hpos]

/-- Legacy run loop over an embedded stream of legal fields: one handler
invocation per field with the legacy provenance. -/
theorem run_global_go_mid (fs : List fieldv) : ∀ (fuel : Nat) (pre rest : List Nat)
    (dec : sctp_decoder) (acc : List event),
    legalStream fs →
    dec.data = pre ++ streamBytes fs ++ rest →
    dec.size = dec.data.length → dec.position = pre.length →
    dec.data.length < SIZE_MOD →
    sctp_decoder_run_global_go (fuel + fs.length) dec acc =
      sctp_decoder_run_global_go fuel
        { dec with position := pre.length + (streamBytes fs).length }
        (acc ++ streamEventsOld fs pre.length) := by
  induction fs with
  | nil =>
    intro fuel pre rest dec acc hleg hdata hsz hpos hlen
    simp only [List.length_nil, Nat.add_zero, streamEventsOld, List.append_nil, streamBytes]
    rw [show (([] : List fieldv).map fieldBytes).flatten.length = 0 from rfl]
    rw [show pre.length + 0 = pre.length from rfl, ← hpos]
  | cons f fs ih =>
    intro fuel pre rest dec acc hleg hdata hsz hpos hlen
    have hf : legalField f := hleg f (by simp)
    have hfs : legalStream fs := fun g hg => hleg g (by simp [hg])
    have hdata' : dec.data = pre ++ fieldBytes f ++ (streamBytes fs ++ rest) := by
      rw [hdata, streamBytes_cons]
      simp [List.append_assoc]
    rw [show fuel + (f :: fs).length = (fuel + fs.length) + 1 from by
      simp only [List.length_cons]; omega]
    rw [run_global_go_field f (fuel + fs.length) pre (streamBytes fs ++ rest) dec acc
      hf hdata' hsz hpos hlen]
    have hoff : (pre ++ fieldBytes f).length = pre.length + wireSize f := by
      simp [wireSize]
    rw [ih fuel (pre ++ fieldBytes f) rest
      { dec with position := pre.length + wireSize f }
      (acc ++ [eventOfOld f pre.length]) hfs
      (by show dec.data = (pre ++ fieldBytes f) ++ streamBytes fs ++ rest
          rw [hdata, streamBytes_cons]
          simp [List.append_assoc])
      hsz
      (by show pre.length + wireSize f = (pre ++ fieldBytes f).length
          rw [hoff])
      hlen]
    rw [hoff]
    congr 1
    · congr 1
      rw [streamBytes_cons]
      simp only [List.length_append]
      simp [wireSize]
      omega
    · simp [streamEventsOld]

/-- A header byte is below 256. -/
theorem headerByte_lt (ty meta : Nat) : headerByte ty meta < 256 :=
  Nat.mod_lt _ (by norm_num)

/-- All wire bytes of a legal field are bytes. -/
theorem fieldBytes_byte_lt (f : fieldv) (hf : legalField f) :
    ∀ b ∈ fieldBytes f, b < 256 := by
  cases f with
  | fUleb v =>
    intro b hb
    simp only [fieldBytes, List.mem_cons] at hb
    rcases hb with hb | hb
    · subst hb; exact headerByte_lt _ _
    · exact uleb_bytes_byte_lt _ b hb
  | fSleb v =>
    intro b hb
    simp only [fieldBytes, List.mem_cons] at hb
    rcases hb with hb | hb
    · subst hb; exact headerByte_lt _ _
    · exact sleb_bytes_byte_lt _ b hb
  | fShort v =>
    intro b hb
    simp only [fieldBytes, List.mem_singleton] at hb
    subst hb; exact headerByte_lt _ _
  | fVector bs =>
    intro b hb
    simp only [legalField] at hf
    simp only [fieldBytes, List.mem_append] at hb
    rcases hb with hb | hb
    · rcases Nat.lt_or_ge bs.length 15 with hsm | hlg
      · rw [if_pos hsm] at hb
        simp only [List.mem_singleton] at hb
        subst hb; exact headerByte_lt _ _
      · rw [if_neg (by omega)] at hb
        simp only [List.mem_cons] at hb
        rcases hb with hb | hb
        · subst hb; exact headerByte_lt _ _
        · exact uleb_bytes_byte_lt _ b hb
    · exact hf b hb
  | fInt8 v =>
    intro b hb
    simp only [fieldBytes, List.mem_cons] at hb
    rcases hb with hb | hb
    · subst hb; exact headerByte_lt _ _
    · exact leBytes_byte_lt _ _ b hb
  | fUInt8 v =>
    intro b hb
    simp only [fieldBytes, List.mem_cons] at hb
    rcases hb with hb | hb
    · subst hb; exact headerByte_lt _ _
    · exact leBytes_byte_lt _ _ b hb
  | fInt16 v =>
    intro b hb
    simp only [fieldBytes, List.mem_cons] at hb
    rcases hb with hb | hb
    · subst hb; exact headerByte_lt _ _
    · exact leBytes_byte_lt _ _ b hb
  | fUInt16 v =>
    intro b hb
    simp only [fieldBytes, List.mem_cons] at hb
    rcases hb with hb | hb
    · subst hb; exact headerByte_lt _ _
    · exact leBytes_byte_lt _ _ b hb
  | fInt32 v =>
    intro b hb
    simp only [fieldBytes, List.mem_cons] at hb
    rcases hb with hb | hb
    · subst hb; exact headerByte_lt _ _
    · exact leBytes_byte_lt _ _ b hb
  | fUInt32 v =>
    intro b hb
    simp only [fieldBytes, List.mem_cons] at hb
    rcases hb with hb | hb
    · subst hb; exact headerByte_lt _ _
    · exact leBytes_byte_lt _ _ b hb
  | fInt64 v =>
    intro b hb
    simp only [fieldBytes, List.mem_cons] at hb
    rcases hb with hb | hb
    · subst hb; exact headerByte_lt _ _
    · exact leBytes_byte_lt _ _ b hb
  | fUInt64 v =>
    intro b hb
    simp only [fieldBytes, List.mem_cons] at hb
    rcases hb with hb | hb
    · subst hb; exact headerByte_lt _ _
    · exact leBytes_byte_lt _ _ b hb
  | fFloat32 v =>
    intro b hb
    simp only [fieldBytes, List.mem_cons] at hb
    rcases hb with hb | hb
    · subst hb; exact headerByte_lt _ _
    · exact leBytes_byte_lt _ _ b hb
  | fFloat64 v =>
    intro b hb
    simp only [fieldBytes, List.mem_cons] at hb
    rcases hb with hb | hb
    · subst hb; exact headerByte_lt _ _
    · exact leBytes_byte_lt _ _ b hb

/-- Reducing a list of bytes modulo 256 is the identity. -/
theorem map_mod256_eq_self (l : List Nat) (h : ∀ b ∈ l, b < 256) :
    l.map (fun b => b % 256) = l := by
  induction l with
  | nil => rfl
  | cons b bs ih =>
    simp only [List.map_cons, List.cons.injEq]
    exact ⟨Nat.mod_eq_of_lt (h b (by simp)), ih (fun x hx => h x (by simp [hx]))⟩

/-- `sctp_encoder_add_vector`, small case (`length < 15`): one header byte
whose metadata is the length, then the payload span is reserved and its
offset returned. -/
theorem add_vector_small (enc : sctp_encoder) (len : Nat) (hsm : len < 15)
    (hcap : enc.position + 1 + len ≤ enc.capacity) (hM : enc.capacity < SIZE_MOD) :
    sctp_encoder_add_vector enc len =
      Except.ok (enc.position + 1, { enc with
        buffer := enc.buffer.set enc.position (headerByte 13 len),
        position := enc.position + 1 + len }) := by
  simp only [sctp_encoder_add_vector, if_pos hsm,
    write_header_at enc 13 len enc.position (enc.position + 1) rfl rfl (by omega) hM,
    _sctp_encoder_ensure_capacity,
    Nat.mod_eq_of_lt (show enc.position + 1 + len < SIZE_MOD from by omega),
    if_neg (show ¬ enc.position + 1 + len > enc.capacity from by omega)]

/-- `sctp_encoder_add_vector`, large case (`length ≥ 15`): a header byte
with metadata 15, then the ULEB128 length, then the payload span is reserved
and its offset returned. -/
theorem add_vector_large (enc : sctp_encoder) (len : Nat) (hlg : 15 ≤ len)
    (hcap : enc.position + 1 + (uleb_bytes len).length + len ≤ enc.capacity)
    (hM : enc.capacity < SIZE_MOD) :
    sctp_encoder_add_vector enc len =
      Except.ok (enc.position + 1 + (uleb_bytes len).length, { enc with
        buffer := writeBytes enc.buffer enc.position (headerByte 13 15 :: uleb_bytes len),
        position := enc.position + 1 + (uleb_bytes len).length + len }) := by
  simp only [sctp_encoder_add_vector, if_neg (show ¬ len < 15 from by omega),
    write_header_at enc 13 15 enc.position (enc.position + 1) rfl rfl (by omega) hM,
    write_uleb128_at
      { enc with
        buffer := enc.buffer.set enc.position (headerByte 13 15),
        position := enc.position + 1 } len
      (enc.position + 1) (enc.position + 1 + (uleb_bytes len).length)
      rfl rfl
      (by show enc.position + 1 + (uleb_bytes len).length ≤ enc.capacity
          omega) hM,
    _sctp_encoder_ensure_capacity,
    Nat.mod_eq_of_lt
      (show enc.position + 1 + (uleb_bytes len).length + len < SIZE_MOD from by omega),
    if_neg
      (show ¬ enc.position + 1 + (uleb_bytes len).length + len > enc.capacity from by omega),
    writeBytes, headerByte_mod]

/-- C1: REFUTED — the fuzz safety invariant fails. On the 6-byte input
`FD FF FF FF FF 0F` (a VECTOR header with the large-length flag followed by
`ULEB128(4294967295)`), the 32-bit addition `position + size` in
`_sctp_decoder_read_data` wraps around, so the bounds check
`position + size > dec->size` passes and the decoder returns success,
surfacing a 4294967295-byte vector slice starting at offset 6 of a 6-byte
buffer (and leaving the cursor wrapped back inside the buffer, at 5).  The
second conjunct isolates the defeated check: with the cursor at the end of
the 6-byte buffer, a read of 4294967295 bytes is accepted instead of being
rejected as Truncated. -/
theorem C1_read_data_bounds_check_defeated :
    (sctp_decoder_next (sctp_decoder_from_buffer [253, 255, 255, 255, 255, 15]) =
      Except.ok (13, { data := [253, 255, 255, 255, 255, 15], size := 6, position := 5, last_type := 13, last_value := sctp_value.as_ptr 6, last_size := 4294967295 })) ∧
    (_sctp_decoder_read_data
        { data := [253, 255, 255, 255, 255, 15], size := 6, position := 6, last_type := 13, last_value := sctp_value.zero, last_size := 0 } 4294967295 =
      Except.ok (6, { data := [253, 255, 255, 255, 255, 15], size := 6, position := 5, last_type := 13, last_value := sctp_value.zero, last_size := 0 })) ∧
    ¬ (6 + 4294967295 ≤ 6) := by
  refine ⟨?_, by rfl, by omega⟩
  simp [sctp_decoder_next, sctp_decoder_from_buffer, _sctp_decoder_read_byte,
    _sctp_decoder_read_uleb128, _sctp_decoder_read_uleb128_go, _sctp_decoder_read_data,
    SIZE_MOD, U64_MOD]
  rfl

/-- C9: once the cursor has reached or passed the end of the buffer,
`sctp_decoder_next` returns EOF, sets `last_type := EOF` and
`last_size := 0`, leaves the buffer and the cursor unchanged, and the
resulting state is a fixed point of `sctp_decoder_next` — decoding can never
resume producing fields. -/
theorem C9_next_idempotent_after_end (dec : sctp_decoder) (h : dec.size ≤ dec.position) :
    sctp_decoder_next dec =
      Except.ok (15, { dec with last_type := 15, last_size := 0 }) ∧
    sctp_decoder_next { dec with last_type := 15, last_size := 0 } =
      Except.ok (15, { dec with last_type := 15, last_size := 0 }) := by
  constructor
  · rw [sctp_decoder_next, if_pos (by omega)]
  · rw [sctp_decoder_next, if_pos (by show dec.position ≥ dec.size; omega)]

theorem C9_witness :
    sctp_decoder_next (sctp_decoder_from_buffer [204]) = Except.ok (12,
      { data := [204], size := 1, position := 1, last_type := 12, last_value := sctp_value.as_short 12, last_size := 1 }) ∧
    (sctp_decoder_next { data := [204], size := 1, position := 1, last_type := 12, last_value := sctp_value.as_short 12, last_size := 1 } =
      Except.ok (15, { data := [204], size := 1, position := 1, last_type := 15, last_value := sctp_value.as_short 12, last_size := 0 }) ∧
    sctp_decoder_next { data := [204], size := 1, position := 1, last_type := 15, last_value := sctp_value.as_short 12, last_size := 0 } =
      Except.ok (15, { data := [204], size := 1, position := 1, last_type := 15, last_value := sctp_value.as_short 12, last_size := 0 })) :=
  ⟨by rfl,
   C9_next_idempotent_after_end
     { data := [204], size := 1, position := 1, last_type := 12, last_value := sctp_value.as_short 12, last_size := 1 } (by decide)⟩

/-- C6: `sctp_encoder_add_short` succeeds for every value up to 15 (writing
exactly one header byte, type SHORT, metadata the value, no payload) and
fails with InvalidArgument for every value above 15, writing nothing. -/
theorem C6_add_short (enc : sctp_encoder) (v : Nat)
    (hpos : enc.position < enc.capacity) (hM : enc.capacity < SIZE_MOD) :
    (v ≤ 15 →
      sctp_encoder_add_short enc v =
        Except.ok { enc with
          buffer := enc.buffer.set enc.position (headerByte 12 v), position := enc.position + 1 }) ∧
    (15 < v → sctp_encoder_add_short enc v = Except.error SctpErr.InvalidArgument) := by
  constructor
  · intro hv
    rw [sctp_encoder_add_short, if_neg (by omega), write_header_ok enc 12 v hpos hM]
  · intro hv
    rw [sctp_encoder_add_short, if_pos (by omega)]

theorem C6_witness :
    (sctp_encoder_add_short (sctp_encoder_init 1 [0]) 15 =
      Except.ok { buffer := [headerByte 12 15], capacity := 1, position := 1 }) ∧
    (sctp_encoder_add_short (sctp_encoder_init 1 [0]) 16 =
      Except.error SctpErr.InvalidArgument) :=
  ⟨by
    have h := (C6_add_short (sctp_encoder_init 1 [0]) 15 (by norm_num [sctp_encoder_init])
      (by norm_num [sctp_encoder_init, SIZE_MOD])).1 (by omega)
    simpa [sctp_encoder_init] using h,
   (C6_add_short (sctp_encoder_init 1 [0]) 16 (by norm_num [sctp_encoder_init])
      (by norm_num [sctp_encoder_init, SIZE_MOD])).2 (by omega)⟩

/-- C5: `sctp_encoder_add_vector` with `length < 15` writes exactly one
header byte (type VECTOR, metadata the length) and no length field; with
`length ≥ 15` it writes the header with metadata 15 followed by the ULEB128
encoding of the length; in both cases it reserves exactly `length` bytes and
returns the offset of the reserved span (the writable pointer). -/
theorem C5_add_vector (enc : sctp_encoder) (len : Nat)
    (hM : enc.capacity < SIZE_MOD) :
    (len < 15 → enc.position + 1 + len ≤ enc.capacity →
      sctp_encoder_add_vector enc len =
        Except.ok (enc.position + 1, { enc with
          buffer := enc.buffer.set enc.position (headerByte 13 len), position := enc.position + 1 + len })) ∧
    (15 ≤ len → enc.position + 1 + (uleb_bytes len).length + len ≤ enc.capacity →
      sctp_encoder_add_vector enc len =
        Except.ok (enc.position + 1 + (uleb_bytes len).length, { enc with
          buffer := writeBytes enc.buffer enc.position (headerByte 13 15 :: uleb_bytes len), position := enc.position + 1 + (uleb_bytes len).length + len })) :=
  ⟨fun hsm hcap => add_vector_small enc len hsm hcap hM,
   fun hlg hcap => add_vector_large enc len hlg hcap hM⟩

set_option maxRecDepth 4000 in
theorem C5_witness :
    (sctp_encoder_add_vector (sctp_encoder_init 30 (List.replicate 30 0)) 14 =
      Except.ok (1, { buffer := (List.replicate 30 0).set 0 (headerByte 13 14), capacity := 30, position := 15 })) ∧
    (sctp_encoder_add_vector (sctp_encoder_init 30 (List.replicate 30 0)) 15 =
      Except.ok (2, { buffer := writeBytes (List.replicate 30 0) 0 (headerByte 13 15 :: uleb_bytes 15), capacity := 30, position := 17 })) :=
  ⟨by
    have h := (C5_add_vector (sctp_encoder_init 30 (List.replicate 30 0)) 14
      (by norm_num [sctp_encoder_init, SIZE_MOD])).1 (by omega)
      (by norm_num [sctp_encoder_init])
    exact h,
   by
    have hb : uleb_bytes 15 = [15] := by
      rw [uleb_bytes, dif_pos (show (15:Nat) >>> 7 = 0 from by decide)]
      decide
    have h := (C5_add_vector (sctp_encoder_init 30 (List.replicate 30 0)) 15
      (by norm_num [sctp_encoder_init, SIZE_MOD])).2 (by omega)
      (by rw [hb]
          decide)
    rw [hb] at h ⊢
    exact h⟩

/-- C3 (amended): both LEB128 codecs round-trip every value of their range
(decoding the emitted bytes returns exactly the value and consumes exactly
the encoding), and both emit the minimal-length encoding (at least one byte;
the value does not fit in one fewer 7-bit group).  The converse direction of
the original claim — that re-encoding a decoded value reproduces every
accepted byte sequence — is false: the decoder also accepts non-minimal
encodings (see the counterexample). -/
theorem C3_leb128_roundtrip_minimal (v : Nat) (w : Int)
    (hv : v < 2 ^ 64) (hwlo : -(2 ^ 63) ≤ w) (hwhi : w < 2 ^ 63) :
    (_sctp_decoder_read_uleb128 (sctp_decoder_from_buffer (uleb_bytes v)) =
      Except.ok (v, { sctp_decoder_from_buffer (uleb_bytes v) with
        position := (uleb_bytes v).length })) ∧
    (_sctp_decoder_read_sleb128 (sctp_decoder_from_buffer (sleb_bytes w)) =
      Except.ok (w, { sctp_decoder_from_buffer (sleb_bytes w) with
        position := (sleb_bytes w).length })) ∧
    (1 ≤ (uleb_bytes v).length ∧ v < 2 ^ (7 * (uleb_bytes v).length) ∧
      ((uleb_bytes v).length = 1 ∨ 2 ^ (7 * ((uleb_bytes v).length - 1)) ≤ v)) ∧
    (1 ≤ (sleb_bytes w).length ∧
      -(2 ^ (7 * (sleb_bytes w).length - 1)) ≤ w ∧ w < 2 ^ (7 * (sleb_bytes w).length - 1) ∧
      ((sleb_bytes w).length = 1 ∨
        ¬(-(2 ^ (7 * ((sleb_bytes w).length - 1) - 1)) ≤ w ∧
          w < 2 ^ (7 * ((sleb_bytes w).length - 1) - 1)))) := by
  refine ⟨?_, ?_, ⟨uleb_bytes_length_pos v, (uleb_bytes_minimal v).1, (uleb_bytes_minimal v).2⟩,
    ⟨sleb_bytes_length_pos w, (sleb_bytes_minimal w).1, (sleb_bytes_minimal w).2.1,
      (sleb_bytes_minimal w).2.2⟩⟩
  · have h1 := read_uleb128_spec v [] [] (sctp_decoder_from_buffer (uleb_bytes v)) hv
      (by simp only [List.nil_append, List.append_nil]; rfl) rfl rfl
    simpa using h1
  · have h2 := read_sleb128_spec w [] [] (sctp_decoder_from_buffer (sleb_bytes w)) hwlo hwhi
      (by simp only [List.nil_append, List.append_nil]; rfl) rfl rfl
    simpa using h2

theorem C3_witness :
    (_sctp_decoder_read_uleb128 (sctp_decoder_from_buffer (uleb_bytes 624485)) =
      Except.ok (624485, { sctp_decoder_from_buffer (uleb_bytes 624485) with
        position := (uleb_bytes 624485).length })) ∧
    (_sctp_decoder_read_sleb128 (sctp_decoder_from_buffer (sleb_bytes (-123456))) =
      Except.ok (-123456, { sctp_decoder_from_buffer (sleb_bytes (-123456)) with
        position := (sleb_bytes (-123456)).length })) ∧
    (1 ≤ (uleb_bytes 624485).length ∧ 624485 < 2 ^ (7 * (uleb_bytes 624485).length) ∧
      ((uleb_bytes 624485).length = 1 ∨ 2 ^ (7 * ((uleb_bytes 624485).length - 1)) ≤ 624485)) ∧
    (1 ≤ (sleb_bytes (-123456)).length ∧
      -(2 ^ (7 * (sleb_bytes (-123456)).length - 1)) ≤ (-123456 : Int) ∧
      (-123456 : Int) < 2 ^ (7 * (sleb_bytes (-123456)).length - 1) ∧
      ((sleb_bytes (-123456)).length = 1 ∨
        ¬(-(2 ^ (7 * ((sleb_bytes (-123456)).length - 1) - 1)) ≤ (-123456 : Int) ∧
          (-123456 : Int) < 2 ^ (7 * ((sleb_bytes (-123456)).length - 1) - 1)))) :=
  C3_leb128_roundtrip_minimal 624485 (-123456) (by norm_num) (by norm_num) (by norm_num)

/-- C3 counterexample: the ULEB128 decoder also accepts the non-minimal
encoding `80 00` of the value 0, whose re-encoding is the single byte `00`,
so `encode(decode(bytes))` does not reproduce `bytes`. -/
theorem C3_counterexample :
    (_sctp_decoder_read_uleb128 (sctp_decoder_from_buffer [128, 0]) =
      Except.ok (0, { data := [128, 0], size := 2, position := 2, last_type := 15, last_value := sctp_value.zero, last_size := 0 })) ∧
    uleb_bytes 0 = [0] ∧
    [(128 : Nat), 0] ≠ [0] := by
  refine ⟨?_, ?_, by decide⟩
  · simp [_sctp_decoder_read_uleb128, _sctp_decoder_read_uleb128_go, _sctp_decoder_read_byte,
      sctp_decoder_from_buffer, U64_MOD]
    rfl
  · rw [uleb_bytes, dif_pos (show (0 : Nat) >>> 7 = 0 from by decide)]
    decide

/-- C4: the ULEB128 decoder accumulates 7-bit groups at increasing shifts
and (a) stops at the first byte with clear continuation bit, returning the
accumulated value; (b) fails with Overflow exactly when ten continuation
bytes appear before any terminator (the shift would reach 64); (c) fails
with Truncated when the buffer is exhausted before a terminator appears (in
fewer than ten bytes).  In the failure cases only the error is surfaced. -/
theorem C4_uleb_error_taxonomy (dec : sctp_decoder) (k : Nat)
    (hsz : dec.size = dec.data.length) :
    (k ≤ 9 → dec.position + k < dec.size →
      (∀ i, i < k → dec.data.getD (dec.position + i) 0 &&& 0x80 ≠ 0) →
      dec.data.getD (dec.position + k) 0 &&& 0x80 = 0 →
      _sctp_decoder_read_uleb128 dec =
        Except.ok (uleb_sum dec.data dec.position 0 (k + 1),
          { dec with position := dec.position + (k + 1) })) ∧
    (dec.position + 10 ≤ dec.size →
      (∀ i, i < 10 → dec.data.getD (dec.position + i) 0 &&& 0x80 ≠ 0) →
      _sctp_decoder_read_uleb128 dec = Except.error SctpErr.Overflow) ∧
    (dec.position ≤ dec.size → dec.size ≤ dec.position + 9 →
      (∀ i, dec.position + i < dec.size → dec.data.getD (dec.position + i) 0 &&& 0x80 ≠ 0) →
      _sctp_decoder_read_uleb128 dec = Except.error SctpErr.Truncated) := by
  refine ⟨?_, ?_, ?_⟩
  · intro hk hin hcont hstop
    have h := uleb_go_stops k 0 0 dec (by omega) hsz hin hcont hstop
    rw [_sctp_decoder_read_uleb128, h, Nat.zero_or]
  · intro hin hcont
    have h := uleb_go_overflows 9 0 0 dec (by omega) (by omega) hsz (by omega)
      (fun i hi => hcont i (by omega))
    rw [_sctp_decoder_read_uleb128, h]
  · intro hp hend hcont
    have h := uleb_go_truncates (dec.size - dec.position) 0 0 dec (by omega) hsz (by omega)
      (fun i hi => hcont i (by omega))
    rw [_sctp_decoder_read_uleb128, h]

theorem C4_witness :
    (_sctp_decoder_read_uleb128 (sctp_decoder_from_buffer [128, 5]) =
      Except.ok (uleb_sum [128, 5] 0 0 2,
        { data := [128, 5], size := 2, position := 2, last_type := 15, last_value := sctp_value.zero, last_size := 0 })) ∧
    (_sctp_decoder_read_uleb128
        (sctp_decoder_from_buffer [128, 128, 128, 128, 128, 128, 128, 128, 128, 128]) =
      Except.error SctpErr.Overflow) ∧
    (_sctp_decoder_read_uleb128 (sctp_decoder_from_buffer [128]) =
      Except.error SctpErr.Truncated) :=
  ⟨(C4_uleb_error_taxonomy (sctp_decoder_from_buffer [128, 5]) 1 rfl).1
      (by omega) (by decide)
      (by intro i hi
          have : i = 0 := by omega
          subst this
          decide)
      (by decide),
   (C4_uleb_error_taxonomy
        (sctp_decoder_from_buffer [128, 128, 128, 128, 128, 128, 128, 128, 128, 128]) 0
        rfl).2.1 (by decide)
      (by decide),
   (C4_uleb_error_taxonomy (sctp_decoder_from_buffer [128]) 0 rfl).2.2
      (by decide) (by decide)
      (by intro i hi
          simp [sctp_decoder_from_buffer] at hi
          have h0 : i = 0 := by omega
          subst h0
          decide)⟩

/-- `run_go_stops_implicit` for any nonzero fuel. -/
theorem run_go_stops_implicit_any (fuel : Nat) (dec : sctp_decoder) (acc : List event)
    (hf : fuel ≠ 0) (h : dec.size ≤ dec.position) :
    sctp_decoder_run_go fuel dec acc =
      some (Except.ok (acc ++ [⟨15, hptr.null, 0⟩],
        { dec with last_type := 15, last_size := 0 })) := by
  cases fuel with
  | zero => exact absurd rfl hf
  | succ n => exact run_go_stops_implicit n dec acc h

/-- `run_go_stops_explicit` for any nonzero fuel. -/
theorem run_go_stops_explicit_any (fuel : Nat) (pre rest : List Nat) (dec : sctp_decoder)
    (acc : List event) (hf : fuel ≠ 0)
    (hdata : dec.data = pre ++ headerByte 15 0 :: rest)
    (hsz : dec.size = dec.data.length) (hpos : dec.position = pre.length) :
    sctp_decoder_run_go fuel dec acc =
      some (Except.ok (acc ++ [⟨15, hptr.null, 0⟩],
        { dec with position := pre.length + 1, last_type := 15, last_size := 0 })) := by
  cases fuel with
  | zero => exact absurd rfl hf
  | succ n => exact run_go_stops_explicit n pre rest dec acc hdata hsz hpos

/-- `run_global_go_stops_implicit` for any nonzero fuel. -/
theorem run_global_go_stops_implicit_any (fuel : Nat) (dec : sctp_decoder) (acc : List event)
    (hf : fuel ≠ 0) (h : dec.size ≤ dec.position) :
    sctp_decoder_run_global_go fuel dec acc = some (Except.ok (acc, dec)) := by
  cases fuel with
  | zero => exact absurd rfl hf
  | succ n => exact run_global_go_stops_implicit n dec acc h

/-- `run_global_go_stops_explicit` for any nonzero fuel. -/
theorem run_global_go_stops_explicit_any (fuel : Nat) (pre rest : List Nat)
    (dec : sctp_decoder) (acc : List event) (hf : fuel ≠ 0)
    (hdata : dec.data = pre ++ headerByte 15 0 :: rest)
    (hsz : dec.size = dec.data.length) (hpos : dec.position = pre.length) :
    sctp_decoder_run_global_go fuel dec acc =
      some (Except.ok (acc ++ [⟨15, hptr.null, 0⟩],
        { dec with position := pre.length + 1 })) := by
  cases fuel with
  | zero => exact absurd rfl hf
  | succ n => exact run_global_go_stops_explicit n pre rest dec acc hdata hsz hpos

/-- C2: for every value-carrying field type and every legal value, encoding
into a buffer of sufficient capacity succeeds, produces exactly the field's
wire bytes, and decoding the produced bytes with `sctp_decoder_next` yields
the original type tag, value and size (for vectors: a zero-copy slice of the
original length whose bytes — the tail of the produced wire bytes — are the
original contents). -/
theorem C2_roundtrip (f : fieldv) (cap : Nat) (init : List Nat) (hf : legalField f)
    (hinit : init.length = cap) (hcap : wireSize f ≤ cap) (hM : cap < SIZE_MOD) :
    ∃ enc' : sctp_encoder,
      encodeField (sctp_encoder_init cap init) f = Except.ok enc' ∧
      bytesOut enc' = fieldBytes f ∧
      sctp_decoder_next (sctp_decoder_from_buffer (bytesOut enc')) =
        Except.ok (tagOf f, { sctp_decoder_from_buffer (bytesOut enc') with
          position := wireSize f,
          last_type := tagOf f,
          last_value := decodedValue f 0,
          last_size := decodedSize f }) := by
  have henc := encodeField_ok f (sctp_encoder_init cap init) hf
    (by show 0 + wireSize f ≤ cap
        omega)
    (by show cap < SIZE_MOD
        omega)
  have h2 : bytesOut { sctp_encoder_init cap init with
      buffer := writeBytes (sctp_encoder_init cap init).buffer
        (sctp_encoder_init cap init).position (fieldBytes f),
      position := (sctp_encoder_init cap init).position + wireSize f } = fieldBytes f := by
    show (writeBytes init 0 (fieldBytes f)).take (0 + (fieldBytes f).length) = fieldBytes f
    rw [writeBytes_take (fieldBytes f) init 0
      (by have hws : (fieldBytes f).length = wireSize f := rfl
          rw [hinit]
          omega)]
    simp [map_mod256_eq_self (fieldBytes f) (fieldBytes_byte_lt f hf)]
  refine ⟨_, henc, h2, ?_⟩
  rw [h2]
  have hd := next_field_spec f [] [] (sctp_decoder_from_buffer (fieldBytes f)) hf
    (by simp only [List.nil_append, List.append_nil]; rfl) rfl rfl
    (by show (fieldBytes f).length < SIZE_MOD
        have hws : (fieldBytes f).length = wireSize f := rfl
        omega)
  simpa using hd

theorem C2_witness :
    ∃ enc' : sctp_encoder,
      encodeField (sctp_encoder_init 2 [0, 0]) (fieldv.fUInt8 200) = Except.ok enc' ∧
      bytesOut enc' = fieldBytes (fieldv.fUInt8 200) ∧
      sctp_decoder_next (sctp_decoder_from_buffer (bytesOut enc')) =
        Except.ok (tagOf (fieldv.fUInt8 200),
          { sctp_decoder_from_buffer (bytesOut enc') with
            position := wireSize (fieldv.fUInt8 200),
            last_type := tagOf (fieldv.fUInt8 200),
            last_value := decodedValue (fieldv.fUInt8 200) 0,
            last_size := decodedSize (fieldv.fUInt8 200) }) :=
  C2_roundtrip (fieldv.fUInt8 200) 2 [0, 0]
    (by show (200 : Nat) < 2 ^ 8
        norm_num)
    rfl (by decide) (by decide)

/-- C7 (amended): an empty buffer decodes to immediate EOF with zero fields
(`sctp_decoder_next` reports EOF and the legacy run returns success after
zero handler invocations).  For the legacy `sctp_decoder_run` the claim's
cited function (src/decoder.c) - ending the buffer without an explicit EOF
header is NOT observably identical to appending one: the per-field handler
invocations agree, but the terminal `(EOF, NULL, 0)` invocation is made only
when an explicit EOF byte is present (see the counterexample).  The claimed
equivalence does hold for the newer instance-based `sctp_decoder_run`
(api_reference.md), which produces exactly the same invocation sequence in
both termination modes. -/
theorem C7_eof_termination (fs : List fieldv) (hfs : legalStream fs)
    (hlen : (streamBytes fs).length + 1 < SIZE_MOD) :
    (sctp_decoder_next (sctp_decoder_from_buffer []) =
      Except.ok (15, sctp_decoder_from_buffer [])) ∧
    (sctp_decoder_run_global 1 (sctp_decoder_from_buffer []) =
      some (Except.ok ([], sctp_decoder_from_buffer []))) ∧
    (∃ d1 : sctp_decoder, sctp_decoder_run_global (fs.length + 1)
        (sctp_decoder_from_buffer (streamBytes fs)) =
      some (Except.ok (streamEventsOld fs 0, d1))) ∧
    (∃ d2 : sctp_decoder, sctp_decoder_run_global (fs.length + 1)
        (sctp_decoder_from_buffer (streamBytes fs ++ [headerByte 15 0])) =
      some (Except.ok (streamEventsOld fs 0 ++ [⟨15, hptr.null, 0⟩], d2))) ∧
    (∃ d3 d4 : sctp_decoder,
      sctp_decoder_run (fs.length + 1) (sctp_decoder_from_buffer (streamBytes fs)) =
        some (Except.ok (streamEventsNew fs 0 ++ [⟨15, hptr.null, 0⟩], d3)) ∧
      sctp_decoder_run (fs.length + 1)
          (sctp_decoder_from_buffer (streamBytes fs ++ [headerByte 15 0])) =
        some (Except.ok (streamEventsNew fs 0 ++ [⟨15, hptr.null, 0⟩], d4))) := by
  refine ⟨rfl, rfl, ?_, ?_, ?_⟩
  · rw [sctp_decoder_run_global, show fs.length + 1 = 1 + fs.length from by omega,
      run_global_go_mid fs 1 [] []
        (sctp_decoder_from_buffer (streamBytes fs)) [] hfs
        (by simp only [List.nil_append, List.append_nil]; rfl) rfl rfl
        (by show (streamBytes fs).length < SIZE_MOD
            omega),
      run_global_go_stops_implicit_any 1 _ _ (by omega)
        (by show (streamBytes fs).length ≤ ([] : List Nat).length + (streamBytes fs).length
            simp)]
    exact ⟨{ sctp_decoder_from_buffer (streamBytes fs) with
      position := (streamBytes fs).length }, by simp⟩
  · rw [sctp_decoder_run_global, show fs.length + 1 = 1 + fs.length from by omega,
      run_global_go_mid fs 1 [] [headerByte 15 0]
        (sctp_decoder_from_buffer (streamBytes fs ++ [headerByte 15 0])) [] hfs
        (by simp only [List.nil_append]; rfl) rfl rfl
        (by show (streamBytes fs ++ [headerByte 15 0]).length < SIZE_MOD
            simp only [List.length_append, List.length_singleton]
            omega),
      run_global_go_stops_explicit_any 1 (streamBytes fs) [] _ _ (by omega)
        (by rfl) (by rfl)
        (by show ([] : List Nat).length + (streamBytes fs).length = (streamBytes fs).length
            simp)]
    exact ⟨{ sctp_decoder_from_buffer (streamBytes fs ++ [headerByte 15 0]) with
      position := (streamBytes fs).length + 1 }, by simp⟩
  · obtain ⟨d, hrun, hd1, hd2, hd3⟩ := run_go_new_mid fs 1 [] []
      (sctp_decoder_from_buffer (streamBytes fs)) [] hfs
      (by simp only [List.nil_append, List.append_nil]; rfl) rfl rfl
      (by show (streamBytes fs).length < SIZE_MOD
          omega)
    obtain ⟨d', hrun', hd1', hd2', hd3'⟩ := run_go_new_mid fs 1 [] [headerByte 15 0]
      (sctp_decoder_from_buffer (streamBytes fs ++ [headerByte 15 0])) [] hfs
      (by simp only [List.nil_append]; rfl) rfl rfl
      (by show (streamBytes fs ++ [headerByte 15 0]).length < SIZE_MOD
          simp only [List.length_append, List.length_singleton]
          omega)
    refine ⟨{ d with last_type := 15, last_size := 0 },
      { d' with position := (streamBytes fs).length + 1, last_type := 15, last_size := 0 },
      ?_, ?_⟩
    · rw [sctp_decoder_run, show fs.length + 1 = 1 + fs.length from by omega, hrun,
        run_go_stops_implicit_any 1 d ([] ++ streamEventsNew fs ([] : List Nat).length)
          (by omega)
          (by rw [hd2, hd3]
              show (streamBytes fs).length ≤ ([] : List Nat).length + (streamBytes fs).length
              simp)]
      simp
    · rw [sctp_decoder_run, show fs.length + 1 = 1 + fs.length from by omega, hrun',
        run_go_stops_explicit_any 1 (streamBytes fs) [] d'
          ([] ++ streamEventsNew fs ([] : List Nat).length) (by omega)
          (by rw [hd1']; rfl)
          (by rw [hd2', hd1']; rfl)
          (by rw [hd3']; simp)]
      simp

/-- C7 counterexample: for the legacy `sctp_decoder_run` of src/decoder.c,
the 1-byte buffer `CC` (one SHORT field, no EOF byte) and the 2-byte buffer
`CC 0F` (the same field followed by an explicit EOF header) are NOT
observably identical: the former produces one handler invocation and no
terminal `(EOF, NULL, 0)` invocation, the latter produces two. -/
theorem C7_counterexample :
    (sctp_decoder_run_global 2 (sctp_decoder_from_buffer [204]) =
      some (Except.ok ([⟨12, hptr.tempVal (sctp_value.as_short 12), 1⟩],
        { data := [204], size := 1, position := 1, last_type := 15, last_value := sctp_value.zero, last_size := 0 }))) ∧
    (sctp_decoder_run_global 2 (sctp_decoder_from_buffer [204, 15]) =
      some (Except.ok ([⟨12, hptr.tempVal (sctp_value.as_short 12), 1⟩, ⟨15, hptr.null, 0⟩],
        { data := [204, 15], size := 2, position := 2, last_type := 15, last_value := sctp_value.zero, last_size := 0 }))) ∧
    ([(⟨12, hptr.tempVal (sctp_value.as_short 12), 1⟩ : event)] ≠
      [⟨12, hptr.tempVal (sctp_value.as_short 12), 1⟩, ⟨15, hptr.null, 0⟩]) :=
  ⟨by rfl, by rfl, by decide⟩

/-- C8 (amended): the legacy `sctp_decoder_run` (src/decoder.c) invokes the
handler exactly once per field, in stream order, with the legacy provenance
(fixed-width scalars and vectors as pointers into the source buffer, LEB128
values as materialized temporaries, SHORT as a local copy of the metadata),
and after an explicit EOF header invokes the handler once more with
`(EOF, NULL, 0)` and returns success; but on buffer exhaustion WITHOUT an
explicit EOF header it returns success with NO terminal EOF invocation (the
original claim fails there, see the counterexample).  The newer
instance-based `sctp_decoder_run` (api_reference.md) does deliver the
terminal invocation on plain exhaustion. -/
theorem C8_run_push_model (fs : List fieldv) (hfs : legalStream fs)
    (hlen : (streamBytes fs).length + 1 < SIZE_MOD) :
    (∃ d1 : sctp_decoder, sctp_decoder_run_global (fs.length + 1)
        (sctp_decoder_from_buffer (streamBytes fs ++ [headerByte 15 0])) =
      some (Except.ok (streamEventsOld fs 0 ++ [⟨15, hptr.null, 0⟩], d1))) ∧
    (∃ d2 : sctp_decoder, sctp_decoder_run_global (fs.length + 1)
        (sctp_decoder_from_buffer (streamBytes fs)) =
      some (Except.ok (streamEventsOld fs 0, d2))) ∧
    (∃ d3 : sctp_decoder,
      sctp_decoder_run (fs.length + 1) (sctp_decoder_from_buffer (streamBytes fs)) =
        some (Except.ok (streamEventsNew fs 0 ++ [⟨15, hptr.null, 0⟩], d3))) := by
  refine ⟨?_, ?_, ?_⟩
  · rw [sctp_decoder_run_global, show fs.length + 1 = 1 + fs.length from by omega,
      run_global_go_mid fs 1 [] [headerByte 15 0]
        (sctp_decoder_from_buffer (streamBytes fs ++ [headerByte 15 0])) [] hfs
        (by simp only [List.nil_append]; rfl) rfl rfl
        (by show (streamBytes fs ++ [headerByte 15 0]).length < SIZE_MOD
            simp only [List.length_append, List.length_singleton]
            omega),
      run_global_go_stops_explicit_any 1 (streamBytes fs) [] _ _ (by omega)
        (by rfl) (by rfl)
        (by show ([] : List Nat).length + (streamBytes fs).length = (streamBytes fs).length
            simp)]
    exact ⟨{ sctp_decoder_from_buffer (streamBytes fs ++ [headerByte 15 0]) with
      position := (streamBytes fs).length + 1 }, by simp⟩
  · rw [sctp_decoder_run_global, show fs.length + 1 = 1 + fs.length from by omega,
      run_global_go_mid fs 1 [] []
        (sctp_decoder_from_buffer (streamBytes fs)) [] hfs
        (by simp only [List.nil_append, List.append_nil]; rfl) rfl rfl
        (by show (streamBytes fs).length < SIZE_MOD
            omega),
      run_global_go_stops_implicit_any 1 _ _ (by omega)
        (by show (streamBytes fs).length ≤ ([] : List Nat).length + (streamBytes fs).length
            simp)]
    exact ⟨{ sctp_decoder_from_buffer (streamBytes fs) with
      position := (streamBytes fs).length }, by simp⟩
  · obtain ⟨d, hrun, hd1, hd2, hd3⟩ := run_go_new_mid fs 1 [] []
      (sctp_decoder_from_buffer (streamBytes fs)) [] hfs
      (by simp only [List.nil_append, List.append_nil]; rfl) rfl rfl
      (by show (streamBytes fs).length < SIZE_MOD
          omega)
    rw [sctp_decoder_run, show fs.length + 1 = 1 + fs.length from by omega, hrun,
      run_go_stops_implicit_any 1 d ([] ++ streamEventsNew fs ([] : List Nat).length)
        (by omega)
        (by rw [hd2, hd3]
            show (streamBytes fs).length ≤ ([] : List Nat).length + (streamBytes fs).length
            simp)]
    exact ⟨{ d with last_type := 15, last_size := 0 }, by simp⟩

/-- C8 counterexample: on the 1-byte buffer `CC` (a single SHORT field, no
explicit EOF byte), the legacy run returns success after exactly one handler
invocation — the terminal `(EOF, NULL, 0)` invocation required by the claim
is never made. -/
theorem C8_counterexample :
    (sctp_decoder_run_global 2 (sctp_decoder_from_buffer [204]) =
      some (Except.ok ([⟨12, hptr.tempVal (sctp_value.as_short 12), 1⟩],
        { data := [204], size := 1, position := 1, last_type := 15, last_value := sctp_value.zero, last_size := 0 }))) ∧
    (⟨15, hptr.null, 0⟩ : event) ∉
      [(⟨12, hptr.tempVal (sctp_value.as_short 12), 1⟩ : event)] :=
  ⟨by rfl, by decide⟩

theorem C7_witness :
    (sctp_decoder_next (sctp_decoder_from_buffer []) =
      Except.ok (15, sctp_decoder_from_buffer [])) ∧
    (sctp_decoder_run_global 1 (sctp_decoder_from_buffer []) =
      some (Except.ok ([], sctp_decoder_from_buffer []))) ∧
    (∃ d1 : sctp_decoder, sctp_decoder_run_global ([fieldv.fShort 3].length + 1)
        (sctp_decoder_from_buffer (streamBytes [fieldv.fShort 3])) =
      some (Except.ok (streamEventsOld [fieldv.fShort 3] 0, d1))) ∧
    (∃ d2 : sctp_decoder, sctp_decoder_run_global ([fieldv.fShort 3].length + 1)
        (sctp_decoder_from_buffer (streamBytes [fieldv.fShort 3] ++ [headerByte 15 0])) =
      some (Except.ok (streamEventsOld [fieldv.fShort 3] 0 ++ [⟨15, hptr.null, 0⟩], d2))) ∧
    (∃ d3 d4 : sctp_decoder,
      sctp_decoder_run ([fieldv.fShort 3].length + 1)
          (sctp_decoder_from_buffer (streamBytes [fieldv.fShort 3])) =
        some (Except.ok (streamEventsNew [fieldv.fShort 3] 0 ++ [⟨15, hptr.null, 0⟩], d3)) ∧
      sctp_decoder_run ([fieldv.fShort 3].length + 1)
          (sctp_decoder_from_buffer (streamBytes [fieldv.fShort 3] ++ [headerByte 15 0])) =
        some (Except.ok (streamEventsNew [fieldv.fShort 3] 0 ++ [⟨15, hptr.null, 0⟩], d4))) :=
  C7_eof_termination [fieldv.fShort 3]
    (by intro f hf
        simp only [List.mem_singleton] at hf
        subst hf
        show (3 : Nat) ≤ 15
        omega)
    (by decide)

theorem C8_witness :
    (∃ d1 : sctp_decoder, sctp_decoder_run_global ([fieldv.fShort 3].length + 1)
        (sctp_decoder_from_buffer (streamBytes [fieldv.fShort 3] ++ [headerByte 15 0])) =
      some (Except.ok (streamEventsOld [fieldv.fShort 3] 0 ++ [⟨15, hptr.null, 0⟩], d1))) ∧
    (∃ d2 : sctp_decoder, sctp_decoder_run_global ([fieldv.fShort 3].length + 1)
        (sctp_decoder_from_buffer (streamBytes [fieldv.fShort 3])) =
      some (Except.ok (streamEventsOld [fieldv.fShort 3] 0, d2))) ∧
    (∃ d3 : sctp_decoder,
      sctp_decoder_run ([fieldv.fShort 3].length + 1)
          (sctp_decoder_from_buffer (streamBytes [fieldv.fShort 3])) =
        some (Except.ok (streamEventsNew [fieldv.fShort 3] 0 ++ [⟨15, hptr.null, 0⟩], d3))) :=
  C8_run_push_model [fieldv.fShort 3]
    (by intro f hf
        simp only [List.mem_singleton] at hf
        subst hf
        show (3 : Nat) ≤ 15
        omega)
    (by decide)

/-- C10 (amended): every `sctp_encoder_add_*` operation whose field fits in
the remaining capacity (without 32-bit overflow of the cursor) succeeds,
leaves every byte below the old write position unchanged, and advances the
position by exactly the operation's wire size (header byte plus payload /
length prefix / reserved vector span).  Without the no-overflow bound the
claim is false: a huge vector length wraps the 32-bit cursor (see the
counterexample). -/
theorem C10_append_only (enc : sctp_encoder) (op : encOp)
    (hleg : ∀ f, op = encOp.opField f → legalField f)
    (hcap : enc.position + opWireSize op ≤ enc.capacity)
    (hM : enc.capacity < SIZE_MOD) :
    ∃ enc' : sctp_encoder, applyOp enc op = Except.ok enc' ∧
      enc'.buffer.take enc.position = enc.buffer.take enc.position ∧
      enc'.position = enc.position + opWireSize op := by
  cases op with
  | opEof =>
    have hc : enc.position + 1 ≤ enc.capacity := hcap
    refine ⟨{ enc with
      buffer := enc.buffer.set enc.position (headerByte 15 0),
      position := enc.position + 1 }, ?_, ?_, rfl⟩
    · show sctp_encoder_add_eof enc = _
      rw [sctp_encoder_add_eof, write_header_ok enc 15 0 (by omega) hM]
    · exact take_set_of_le _ _ _ _ (le_refl _)
  | opField f =>
    have hf : legalField f := hleg f rfl
    cases f with
    | fInt8 v =>
      exact ⟨_, encodeField_ok (fieldv.fInt8 v) enc hf hcap hM,
        writeBytes_take_prefix _ _ _ _ (le_refl _), rfl⟩
    | fUInt8 v =>
      exact ⟨_, encodeField_ok (fieldv.fUInt8 v) enc hf hcap hM,
        writeBytes_take_prefix _ _ _ _ (le_refl _), rfl⟩
    | fInt16 v =>
      exact ⟨_, encodeField_ok (fieldv.fInt16 v) enc hf hcap hM,
        writeBytes_take_prefix _ _ _ _ (le_refl _), rfl⟩
    | fUInt16 v =>
      exact ⟨_, encodeField_ok (fieldv.fUInt16 v) enc hf hcap hM,
        writeBytes_take_prefix _ _ _ _ (le_refl _), rfl⟩
    | fInt32 v =>
      exact ⟨_, encodeField_ok (fieldv.fInt32 v) enc hf hcap hM,
        writeBytes_take_prefix _ _ _ _ (le_refl _), rfl⟩
    | fUInt32 v =>
      exact ⟨_, encodeField_ok (fieldv.fUInt32 v) enc hf hcap hM,
        writeBytes_take_prefix _ _ _ _ (le_refl _), rfl⟩
    | fInt64 v =>
      exact ⟨_, encodeField_ok (fieldv.fInt64 v) enc hf hcap hM,
        writeBytes_take_prefix _ _ _ _ (le_refl _), rfl⟩
    | fUInt64 v =>
      exact ⟨_, encodeField_ok (fieldv.fUInt64 v) enc hf hcap hM,
        writeBytes_take_prefix _ _ _ _ (le_refl _), rfl⟩
    | fFloat32 v =>
      exact ⟨_, encodeField_ok (fieldv.fFloat32 v) enc hf hcap hM,
        writeBytes_take_prefix _ _ _ _ (le_refl _), rfl⟩
    | fFloat64 v =>
      exact ⟨_, encodeField_ok (fieldv.fFloat64 v) enc hf hcap hM,
        writeBytes_take_prefix _ _ _ _ (le_refl _), rfl⟩
    | fUleb v =>
      exact ⟨_, encodeField_ok (fieldv.fUleb v) enc hf hcap hM,
        writeBytes_take_prefix _ _ _ _ (le_refl _), rfl⟩
    | fSleb v =>
      exact ⟨_, encodeField_ok (fieldv.fSleb v) enc hf hcap hM,
        writeBytes_take_prefix _ _ _ _ (le_refl _), rfl⟩
    | fShort v =>
      exact ⟨_, encodeField_ok (fieldv.fShort v) enc hf hcap hM,
        writeBytes_take_prefix _ _ _ _ (le_refl _), rfl⟩
    | fVector bs =>
      have hc : enc.position + wireSize (fieldv.fVector bs) ≤ enc.capacity := hcap
      rcases Nat.lt_or_ge bs.length 15 with hsm | hlg
      · have hw : enc.position + 1 + bs.length ≤ enc.capacity := by
          simp only [wireSize, fieldBytes, if_pos hsm, List.length_append,
            List.length_singleton] at hc
          omega
        refine ⟨{ enc with
          buffer := enc.buffer.set enc.position (headerByte 13 bs.length),
          position := enc.position + 1 + bs.length }, ?_, ?_, ?_⟩
        · show (match sctp_encoder_add_vector enc bs.length with
            | Except.error e => Except.error e
            | Except.ok (_, e1) => Except.ok e1) = _
          rw [add_vector_small enc bs.length hsm hw hM]
        · exact take_set_of_le _ _ _ _ (le_refl _)
        · show enc.position + 1 + bs.length = enc.position + wireSize (fieldv.fVector bs)
          simp only [wireSize, fieldBytes, if_pos hsm, List.length_append,
            List.length_singleton]
          omega
      · have hw : enc.position + 1 + (uleb_bytes bs.length).length + bs.length
            ≤ enc.capacity := by
          simp only [wireSize, fieldBytes, if_neg (show ¬ bs.length < 15 from by omega),
            List.length_append, List.length_cons] at hc
          omega
        refine ⟨{ enc with
          buffer := writeBytes enc.buffer enc.position (headerByte 13 15 :: uleb_bytes bs.length),
          position := enc.position + 1 + (uleb_bytes bs.length).length + bs.length }, ?_, ?_, ?_⟩
        · show (match sctp_encoder_add_vector enc bs.length with
            | Except.error e => Except.error e
            | Except.ok (_, e1) => Except.ok e1) = _
          rw [add_vector_large enc bs.length hlg hw hM]
        · exact writeBytes_take_prefix _ _ _ _ (le_refl _)
        · show enc.position + 1 + (uleb_bytes bs.length).length + bs.length
            = enc.position + wireSize (fieldv.fVector bs)
          simp only [wireSize, fieldBytes, if_neg (show ¬ bs.length < 15 from by omega),
            List.length_append, List.length_cons]
          omega

theorem C10_witness :
    ∃ enc' : sctp_encoder,
      applyOp (sctp_encoder_init 1 [0]) (encOp.opField (fieldv.fShort 5)) = Except.ok enc' ∧
      enc'.buffer.take (sctp_encoder_init 1 [0]).position =
        (sctp_encoder_init 1 [0]).buffer.take (sctp_encoder_init 1 [0]).position ∧
      enc'.position = (sctp_encoder_init 1 [0]).position
        + opWireSize (encOp.opField (fieldv.fShort 5)) :=
  C10_append_only (sctp_encoder_init 1 [0]) (encOp.opField (fieldv.fShort 5))
    (by intro f hf
        cases hf
        show (5 : Nat) ≤ 15
        omega)
    (by show 0 + 1 ≤ 1
        omega)
    (by show (1 : Nat) < SIZE_MOD
        norm_num [SIZE_MOD])

/-- `sctp_encoder_add_vector`, large case, WITHOUT assuming the reserved
span fits: the final cursor is the 32-bit-wrapped sum, and the call succeeds
whenever the wrapped value passes the capacity check. -/
theorem add_vector_wrap (enc : sctp_encoder) (len : Nat) (hlg : ¬ len < 15)
    (hcap : enc.position + 1 + (uleb_bytes len).length ≤ enc.capacity)
    (hM : enc.capacity < SIZE_MOD)
    (hmod : ¬ (enc.position + 1 + (uleb_bytes len).length + len) % SIZE_MOD > enc.capacity) :
    sctp_encoder_add_vector enc len =
      Except.ok (enc.position + 1 + (uleb_bytes len).length, { enc with
        buffer := writeBytes enc.buffer enc.position (headerByte 13 15 :: uleb_bytes len),
        position := (enc.position + 1 + (uleb_bytes len).length + len) % SIZE_MOD }) := by
  simp only [sctp_encoder_add_vector, if_neg hlg,
    write_header_at enc 13 15 enc.position (enc.position + 1) rfl rfl (by omega) hM,
    write_uleb128_at
      { enc with
        buffer := enc.buffer.set enc.position (headerByte 13 15),
        position := enc.position + 1 } len
      (enc.position + 1) (enc.position + 1 + (uleb_bytes len).length)
      rfl rfl
      (by show enc.position + 1 + (uleb_bytes len).length ≤ enc.capacity
          omega) hM,
    _sctp_encoder_ensure_capacity, if_neg hmod,
    writeBytes, headerByte_mod]

/-- C10 counterexample: `sctp_encoder_add_vector 4294967295` on a fresh
10-byte encoder completes without error, but the 32-bit cursor wraps: the
final position is 5, NOT the old position plus the wire size of the field
(1 header byte + 5 length bytes + a 4294967295-byte reserved span), so the
operation is accepted while violating the append-only/position contract. -/
theorem C10_counterexample :
    (sctp_encoder_add_vector (sctp_encoder_init 10 [0, 0, 0, 0, 0, 0, 0, 0, 0, 0]) 4294967295 =
      Except.ok (6, { buffer := [253, 255, 255, 255, 255, 15, 0, 0, 0, 0], capacity := 10, position := 5 })) ∧
    ¬ (5 = 0 + (1 + (uleb_bytes 4294967295).length + 4294967295)) := by
  have hu : uleb_bytes 4294967295 = [255, 255, 255, 255, 15] := by
    rw [uleb_bytes, dif_neg (by decide)]
    rw [show (4294967295 : Nat) >>> 7 = 33554431 from by decide]
    rw [uleb_bytes, dif_neg (by decide)]
    rw [show (33554431 : Nat) >>> 7 = 262143 from by decide]
    rw [uleb_bytes, dif_neg (by decide)]
    rw [show (262143 : Nat) >>> 7 = 2047 from by decide]
    rw [uleb_bytes, dif_neg (by decide)]
    rw [show (2047 : Nat) >>> 7 = 15 from by decide]
    rw [uleb_bytes, dif_pos (by decide)]
    decide
  refine ⟨?_, by rw [hu]; decide⟩
  have h := add_vector_wrap (sctp_encoder_init 10 [0, 0, 0, 0, 0, 0, 0, 0, 0, 0]) 4294967295
    (by decide)
    (by rw [hu]; decide)
    (by decide)
    (by rw [hu]
        show ¬ (0 + 1 + 5 + 4294967295) % SIZE_MOD > 10
        decide)
  rw [hu] at h
  exact h
